import Mathlib

/-!
# Cache proxy: hit-tracker client, snapshot artifacts, API server

Shallow embeddings of
`enterprise/server/hit_tracker_client/hit_tracker_client.go` (namespace
`HitTrackerClient`), `enterprise/server/remote_execution/snaputil/snaputil.go`
(namespace `Snaputil`) and `enterprise/server/api/api_server.go` (namespace
`Api`), and a model of the CAS proxy after section 4.1 of the specification
(namespace `CasProxy`).  The definitions of the four come first, the theorems
after them.

## Hit-tracker client

The Go program keeps the per-group batches (`cacheHits`) on the heap and refers
to them by pointer from two places, the map `hitsByGroup` and the slice
`hitsQueue`.  The embedding keeps that sharing explicit: a factory state carries
a `heap` (a list of `cacheHits` cells, a pointer is an index into it), the map is
an association list from group id to pointer and the queue is a list of
pointers.  Dereferencing a pointer outside the heap is the model's nil
dereference and panics.

Calls are taken at call granularity (one `enqueue` or one `sendTrackRequest`
runs to completion before the next starts); mutexes and the wait group are not
modelled.  The outbound `Track` RPCs and the metric increments are recorded in
two append-only logs of the state.

Go slices are lists: after a split the sent prefix and the re-queued remainder
share a backing array in Go, which a sequential run cannot observe, since the
batch that keeps the prefix is no longer appended to once `sendTrackRequest` has
taken it off the queue and replaced its map entry.  The integer flags are `Int`,
as Go's `int`; slicing with a negative bound is a panic.

## Snapshot artifacts and API server

Both packages are glue around services that live elsewhere (file cache, byte
stream, file system, database, authenticator).  Each such service is a field of
an environment record that answers the call, and every call made is appended to
a trace, so that "performs no upload" or "before any lookup" is a statement
about the trace a function returns.  A nil dereference is a panic, as in the hit
tracker: the `Id` of an `apipb.Action` is a pointer that may be nil.
-/

namespace Status

/-- Modelled from the spec: the `status` package is outside the translated
sources.  These are the gRPC codes its constructors attach; `Unknown` is the
code of an error that carries no status. -/
inductive Code where
  | InvalidArgument
  | NotFound
  | PermissionDenied
  | Unauthenticated
  | Unimplemented
  | Unavailable
  | Internal
  | Unknown
deriving DecidableEq, Repr

/-- A Go `error` value: a status code and a message. -/
structure Error where
  code : Code
  msg : String
deriving DecidableEq, Repr

/-- Modelled from the spec: `status.UnimplementedError`. -/
def UnimplementedError (msg : String) : Error := { code := .Unimplemented, msg := msg }

/-- Modelled from the spec: `status.UnavailableErrorf`. -/
def UnavailableError (msg : String) : Error := { code := .Unavailable, msg := msg }

/-- Modelled from the spec: `status.InvalidArgumentErrorf`. -/
def InvalidArgumentError (msg : String) : Error := { code := .InvalidArgument, msg := msg }

/-- Modelled from the spec: `status.PermissionDeniedError`. -/
def PermissionDeniedError (msg : String) : Error := { code := .PermissionDenied, msg := msg }

/-- Modelled from the spec: `status.InternalError`. -/
def InternalError (msg : String) : Error := { code := .Internal, msg := msg }

/-- Modelled from the spec: `status.WrapError` keeps the code of the error it
wraps and puts the given text before its message. -/
def WrapError (err : Error) (msg : String) : Error :=
  { code := err.code, msg := msg ++ ": " ++ err.msg }

/-- Modelled from the spec: `status.IsNotFoundError`. -/
def IsNotFoundError (err : Error) : Bool := err.code = .NotFound

end Status

namespace HitTrackerClient

/-! ## Data model -/

/-- Go `type groupID string`. -/
abbrev groupID := String

/-- Go `map[string][]string`, as an association list. -/
abbrev Headers := List (String × List String)

/-- The `rspb.CacheType` values used by the trackers. -/
inductive CacheType where
  | AC
  | CAS
deriving DecidableEq, Repr

/-- The `capb.RequestType` values used by the trackers. -/
inductive RequestType where
  | READ
  | WRITE
deriving DecidableEq, Repr

/-- The `hitpb.CacheHit` message as built by `CloseWithBytesTransferred`. -/
structure CacheHit where
  requestMetadata : String
  digest : String
  cacheType : CacheType
  sizeBytes : Int
  duration : Nat
  cacheRequestType : RequestType
deriving DecidableEq, Repr

/-- What the code reads from a request `context.Context`: the group id of the
claims (`none` when `claims.ClaimsFromContext` fails), the auth headers
(`authutil.GetAuthHeaders`), the usage headers (`usageutil.GetUsageHeaders`) and
the skip-remote bit (`proxy_util.SkipRemote`). -/
structure Context where
  claims : Option groupID
  authHeaders : Headers
  usageHeaders : Headers
  skipRemote : Bool
deriving DecidableEq, Repr

/-- Modelled from the spec: the constant `interfaces.AuthAnonymousUser` is
declared outside the translated sources; "anonymous requests use a fixed
sentinel". -/
def AuthAnonymousUser : groupID := "ANON"

/-- Modelled from the spec: the constant `usageutil.OriginHeaderName` is declared
outside the translated sources; it names the origin usage header. -/
def OriginHeaderName : String := "x-buildbuddy-origin"

/-- Go `struct cacheHits` (the mutex is not modelled). -/
structure cacheHits where
  maxPendingHitsPerGroup : Int
  gid : groupID
  authHeaders : Headers
  usageHeaders : Headers
  hits : List CacheHit
deriving DecidableEq, Repr

/-- Which function issued a `Track` RPC. -/
inductive Caller where
  | enqueue
  | sendTrackRequest
deriving DecidableEq, Repr

/-- One call of `h.client.Track`: the caller, the value of the local variable
`groupID` at the call, the auth and usage headers of the context the call is made
under, the hits of the `TrackRequest`, and whether the call returned an error. -/
structure TrackCall where
  caller : Caller
  gid : groupID
  authHeaders : Headers
  usageHeaders : Headers
  hits : List CacheHit
  failed : Bool
deriving DecidableEq, Repr

/-- The remote service behind `hitpb.HitTrackerServiceClient`: given the headers
and the hits of a request it answers whether `Track` returns an error. -/
abbrev HitTrackerServiceClient := Headers → Headers → List CacheHit → Bool

/-- The two ways a Go call can fail to return in the model: a runtime panic, or
the fuel of a loop running out. -/
inductive Fault where
  | panic
  | outOfFuel
deriving DecidableEq, Repr

/-- Go `struct HitTrackerFactory` together with the heap its pointers point into
and the logs of its effects.  `quitClosed` is the state of the `quit` channel
(nothing is ever sent on it, it is only closed); `trackCalls` lists the `Track`
RPCs issued so far, `updates` the increments of the counter
`metrics.RemoteHitTrackerUpdates` (group label, status label). -/
structure HitTrackerFactory where
  quitClosed : Bool
  maxPendingHitsPerGroup : Int
  maxHitsPerUpdate : Int
  heap : List cacheHits
  hitsByGroup : List (groupID × Nat)
  hitsQueue : List Nat
  trackCalls : List TrackCall
  updates : List (groupID × String)
deriving DecidableEq, Repr

/-! ## Go map operations on the association list -/

/-- Go `m[g]` with the comma-ok form: the pointer stored under `g`, if any. -/
def mapLookup (m : List (groupID × Nat)) (g : groupID) : Option Nat :=
  match m with
  | [] => none
  | (k, p) :: rest => if k = g then some p else mapLookup rest g

/-- Go `delete(m, g)`. -/
def mapDelete (m : List (groupID × Nat)) (g : groupID) : List (groupID × Nat) :=
  match m with
  | [] => []
  | (k, p) :: rest => if k = g then mapDelete rest g else (k, p) :: mapDelete rest g

/-- Go `m[g] = p`. -/
def mapInsert (m : List (groupID × Nat)) (g : groupID) (p : Nat) : List (groupID × Nat) :=
  (g, p) :: mapDelete m g

/-! ## Operations -/

/-- Go `func (c *cacheHits) enqueue`: the updated cell and the returned boolean. -/
def cacheHits.enqueue (c : cacheHits) (hit : CacheHit) (authHeaders : Headers)
    (usageHeaders : Headers) : cacheHits × Bool :=
  if (c.hits.length : Int) ≥ c.maxPendingHitsPerGroup then
    (c, false)
  else
    ({ c with authHeaders := authHeaders, usageHeaders := usageHeaders, hits := c.hits ++ [hit] },
      true)

/-- Go `newHitTrackerClient`, for the two integer flags: open quit channel, empty
map, empty queue.  The workers it starts are represented by the calls of
`sendTrackRequest` in a run. -/
def newHitTrackerClient (maxPendingHitsPerGroup maxHitsPerUpdate : Int) : HitTrackerFactory :=
  { quitClosed := false
    maxPendingHitsPerGroup := maxPendingHitsPerGroup
    maxHitsPerUpdate := maxHitsPerUpdate
    heap := []
    hitsByGroup := []
    hitsQueue := []
    trackCalls := []
    updates := [] }

/-- Go `func (h *HitTrackerFactory) groupID`. -/
def HitTrackerFactory.groupID (_h : HitTrackerFactory) (ctx : Context) : groupID :=
  match ctx.claims with
  | none => AuthAnonymousUser
  | some g => g

/-- Go `func (h *HitTrackerFactory) shouldFlushSynchronously`: a receive from
`quit` succeeds exactly when the channel is closed. -/
def HitTrackerFactory.shouldFlushSynchronously (h : HitTrackerFactory) : Bool :=
  h.quitClosed

/-- The loop of `enqueue` over `usageutil.GetUsageHeaders(ctx)`: only the entry
whose key is the origin header name is copied. -/
def originUsageHeaders (ctx : Context) : Headers :=
  ctx.usageHeaders.filter (fun kv => kv.1 = OriginHeaderName)

/-- The struct literal of `enqueue` for a group seen for the first time. -/
def newCacheHits (maxPendingHitsPerGroup : Int) (gid : groupID) : cacheHits :=
  { maxPendingHitsPerGroup := maxPendingHitsPerGroup, gid := gid,
    authHeaders := [], usageHeaders := [], hits := [] }

/-- The struct literal `hitsToEnqueue` of `sendTrackRequest`: the remainder of a
batch cut at `n`; `maxPendingHitsPerGroup` is not set there and so is Go's zero
value. -/
def remainderCacheHits (hitsToSend : cacheHits) (n : Nat) : cacheHits :=
  { maxPendingHitsPerGroup := 0, gid := hitsToSend.gid,
    authHeaders := hitsToSend.authHeaders, usageHeaders := hitsToSend.usageHeaders,
    hits := hitsToSend.hits.drop n }

/-- The `Track` call of `sendTrackRequest` for the batch `b` as it is sent. -/
def trackCallOf (client : HitTrackerServiceClient) (b : cacheHits) : TrackCall :=
  { caller := .sendTrackRequest, gid := b.gid, authHeaders := b.authHeaders,
    usageHeaders := b.usageHeaders, hits := b.hits,
    failed := client b.authHeaders b.usageHeaders b.hits }

/-- The status label under which `enqueue` increments
`metrics.RemoteHitTrackerUpdates`, by the result of `cacheHits.enqueue`. -/
def updateLabel (accepted : Bool) : String :=
  if accepted then "enqueued" else "dropped_too_many_updates"

/-- Go `func (h *HitTrackerFactory) enqueue`. -/
def HitTrackerFactory.enqueue (client : HitTrackerServiceClient) (h : HitTrackerFactory)
    (ctx : Context) (hit : CacheHit) : Except Fault HitTrackerFactory :=
  let groupID := h.groupID ctx
  if h.shouldFlushSynchronously then
    .ok { h with trackCalls := h.trackCalls ++
            [{ caller := .enqueue, gid := groupID, authHeaders := ctx.authHeaders,
               usageHeaders := ctx.usageHeaders, hits := [hit],
               failed := client ctx.authHeaders ctx.usageHeaders [hit] }] }
  else
    let h1 : HitTrackerFactory :=
      match mapLookup h.hitsByGroup groupID with
      | some _ => h
      | none =>
        let hits : cacheHits := newCacheHits h.maxPendingHitsPerGroup groupID
        { h with heap := h.heap ++ [hits]
                 hitsByGroup := mapInsert h.hitsByGroup groupID h.heap.length
                 hitsQueue := h.hitsQueue ++ [h.heap.length] }
    match mapLookup h1.hitsByGroup groupID with
    | none => .error .panic
    | some groupHits =>
      match h1.heap[groupHits]? with
      | none => .error .panic
      | some c =>
        let authHeaders := ctx.authHeaders
        let usageHeaders := originUsageHeaders ctx
        let r := c.enqueue hit authHeaders usageHeaders
        .ok { h1 with heap := h1.heap.set groupHits r.1
                      updates := h1.updates ++
                        [(groupID, updateLabel r.2)] }

/-- Go `func (h *HitTrackerFactory) sendTrackRequest`: the new state and the
returned hit count.  The context argument only carries the headers, which the
function overwrites with the batch's, so it is left out.  Slicing `hits[n:]` with
a negative `n` panics. -/
def HitTrackerFactory.sendTrackRequest (client : HitTrackerServiceClient)
    (h : HitTrackerFactory) : Except Fault (HitTrackerFactory × Nat) :=
  match h.hitsQueue with
  | [] => .ok (h, 0)
  | p :: rest =>
    match h.heap[p]? with
    | none => .error .panic
    | some hitsToSend =>
      if (hitsToSend.hits.length : Int) ≤ h.maxHitsPerUpdate then
        .ok ({ h with hitsQueue := rest
                      hitsByGroup := mapDelete h.hitsByGroup hitsToSend.gid
                      trackCalls := h.trackCalls ++ [trackCallOf client hitsToSend] },
             hitsToSend.hits.length)
      else if h.maxHitsPerUpdate < 0 then
        .error .panic
      else
        let n := h.maxHitsPerUpdate.toNat
        let hitsToEnqueue : cacheHits := remainderCacheHits hitsToSend n
        let sent : cacheHits := { hitsToSend with hits := hitsToSend.hits.take n }
        .ok ({ h with heap := h.heap.set p sent ++ [hitsToEnqueue]
                      hitsQueue := rest ++ [h.heap.length]
                      hitsByGroup := mapInsert h.hitsByGroup hitsToEnqueue.gid h.heap.length
                      trackCalls := h.trackCalls ++ [trackCallOf client sent] },
             sent.hits.length)

/-- The Go loop `for h.sendTrackRequest(ctx) > 0 {}`, with fuel. -/
def flushLoop (client : HitTrackerServiceClient) :
    Nat → HitTrackerFactory → Except Fault HitTrackerFactory
  | 0, _ => .error .outOfFuel
  | fuel + 1, h =>
    match h.sendTrackRequest client with
    | .error e => .error e
    | .ok (h1, n) => if n > 0 then flushLoop client fuel h1 else .ok h1

/-- Go `func (h *HitTrackerFactory) shutdown`: closing a closed channel panics;
the result is the final state and the returned error (always `nil`). -/
def HitTrackerFactory.shutdown (client : HitTrackerServiceClient) (fuel : Nat)
    (h : HitTrackerFactory) : Except Fault (HitTrackerFactory × Option String) :=
  if h.quitClosed then
    .error .panic
  else
    match flushLoop client fuel { h with quitClosed := true } with
    | .error e => .error e
    | .ok h1 => .ok (h1, none)

/-! ## Runs -/

/-- A call made on the factory before shutdown. -/
inductive Op where
  | enqueue (ctx : Context) (hit : CacheHit)
  | sendTrackRequest
deriving DecidableEq, Repr

/-- One call. -/
def step (client : HitTrackerServiceClient) (h : HitTrackerFactory) :
    Op → Except Fault HitTrackerFactory
  | .enqueue ctx hit => h.enqueue client ctx hit
  | .sendTrackRequest =>
    match h.sendTrackRequest client with
    | .error e => .error e
    | .ok (h1, _) => .ok h1

/-- A sequence of calls, each run to completion before the next. -/
def run (client : HitTrackerServiceClient) :
    List Op → HitTrackerFactory → Except Fault HitTrackerFactory
  | [], h => .ok h
  | op :: ops, h =>
    match step client h op with
    | .error e => .error e
    | .ok h1 => run client ops h1

/-! ## Representation invariant -/

/-- The group id of the cell a pointer points to, if the pointer is valid. -/
def gidAt (heap : List cacheHits) (p : Nat) : Option groupID :=
  (heap[p]?).map (fun c => c.gid)

/-- What holds of the factory in every state reached before shutdown: the queue
holds valid, pairwise distinct pointers to batches of pairwise distinct groups;
the map sends a group id to exactly the queued batch of that group; every batch
is within the per-group cap (when that cap is not negative) and carries either
the cap of the factory or Go's zero value; and with a positive cap no queued
batch is empty. -/
structure Inv (h : HitTrackerFactory) : Prop where
  queueNodup : h.hitsQueue.Nodup
  queueValid : ∀ p ∈ h.hitsQueue, p < h.heap.length
  gidInj : ∀ p ∈ h.hitsQueue, ∀ q ∈ h.hitsQueue, gidAt h.heap p = gidAt h.heap q → p = q
  mapQueue : ∀ g p, mapLookup h.hitsByGroup g = some p ↔
    (p ∈ h.hitsQueue ∧ gidAt h.heap p = some g)
  bounded : 0 ≤ h.maxPendingHitsPerGroup →
    ∀ c ∈ h.heap, (c.hits.length : Int) ≤ h.maxPendingHitsPerGroup ∧
      (c.maxPendingHitsPerGroup = 0 ∨ c.maxPendingHitsPerGroup = h.maxPendingHitsPerGroup)
  nonempty : 1 ≤ h.maxPendingHitsPerGroup →
    ∀ p ∈ h.hitsQueue, ∀ c, h.heap[p]? = some c → c.hits ≠ []

/-- A factory before shutdown with the flags `mp` and `mu`, satisfying the
invariant. -/
def Open (h : HitTrackerFactory) (mp mu : Int) : Prop :=
  Inv h ∧ h.quitClosed = false ∧ h.maxPendingHitsPerGroup = mp ∧ h.maxHitsPerUpdate = mu

/-- The hits `xs` carried for group `g` all come from `enqueue` calls of `ops`
made under a context of group `g`. -/
def EnqueuedUnder (f : HitTrackerFactory) (ops : List Op) (g : groupID)
    (xs : List CacheHit) : Prop :=
  ∀ x ∈ xs, ∃ ctx, Op.enqueue ctx x ∈ ops ∧ f.groupID ctx = g

/-- Provenance of the hits of a state reached by the calls `ops`: every batch on
the heap, and every request issued by `sendTrackRequest`, carries only hits that
were enqueued under its own group. -/
def Hist (ops : List Op) (h : HitTrackerFactory) : Prop :=
  (∀ c ∈ h.heap, EnqueuedUnder h ops c.gid c.hits) ∧
  (∀ r ∈ h.trackCalls, r.caller = .sendTrackRequest → EnqueuedUnder h ops r.gid r.hits)

/-- The `enqueue` calls for a list of (context, hit) pairs, in order. -/
def enqueueOps (es : List (Context × CacheHit)) : List Op :=
  es.map (fun e => Op.enqueue e.1 e.2)

/-- The hits pending for group `g`: those of the batch `hitsByGroup[g]` points
to, none when the group has no entry. -/
def pendingOf (h : HitTrackerFactory) (g : groupID) : List CacheHit :=
  match mapLookup h.hitsByGroup g with
  | none => []
  | some p =>
    match h.heap[p]? with
    | none => []
    | some c => c.hits

/-- The number of hits of the batch at a pointer (0 for an invalid pointer). -/
def lenAt (heap : List cacheHits) (p : Nat) : Nat :=
  match heap[p]? with
  | none => 0
  | some c => c.hits.length

/-- The total number of hits waiting in the queue. -/
def totalHits (h : HitTrackerFactory) : Nat :=
  (h.hitsQueue.map (lenAt h.heap)).sum

/-- The hits of the requests that `sendTrackRequest` issued for group `g`,
concatenated in the order the requests were issued. -/
def sentFor (g : groupID) : List TrackCall → List CacheHit
  | [] => []
  | r :: rs =>
    if r.caller = .sendTrackRequest ∧ r.gid = g then r.hits ++ sentFor g rs else sentFor g rs

/-- The hits that the calls `es` enqueue under group `g`, in arrival order. -/
def hitsFor (f : HitTrackerFactory) (g : groupID) (es : List (Context × CacheHit)) :
    List CacheHit :=
  (es.filter (fun e => f.groupID e.1 = g)).map (fun e => e.2)

/-! ## Concrete inputs used by the examples -/

/-- A client whose `Track` always succeeds. -/
def okClient : HitTrackerServiceClient := fun _ _ _ => false

/-- A client whose `Track` always fails. -/
def failingClient : HitTrackerServiceClient := fun _ _ _ => true

/-- A CAS read hit for the digest named by `n`. -/
def hitN (n : Nat) : CacheHit :=
  { requestMetadata := "md", digest := toString n, cacheType := .CAS, sizeBytes := n,
    duration := 0, cacheRequestType := .READ }

/-- A request context authenticated for group `g`. -/
def ctxG (g : groupID) : Context :=
  { claims := some g, authHeaders := [("authorization", [g])], usageHeaders := [],
    skipRemote := false }

/-- A factory with cap 5 and two hits per update whose queue holds a batch of
three hits for group "a" followed by a batch of one hit for group "b". -/
def sampleFactory : HitTrackerFactory :=
  { quitClosed := false
    maxPendingHitsPerGroup := 5
    maxHitsPerUpdate := 2
    heap := [{ maxPendingHitsPerGroup := 5, gid := "a", authHeaders := [], usageHeaders := [],
               hits := [hitN 1, hitN 2, hitN 3] },
             { maxPendingHitsPerGroup := 5, gid := "b", authHeaders := [], usageHeaders := [],
               hits := [hitN 4] }]
    hitsByGroup := [("a", 0), ("b", 1)]
    hitsQueue := [0, 1]
    trackCalls := []
    updates := [] }

/-- Two groups enqueue one hit each, then two flushes. -/
def sampleOps : List Op :=
  [.enqueue (ctxG "a") (hitN 1), .enqueue (ctxG "b") (hitN 2), .sendTrackRequest,
   .sendTrackRequest]

/-- Five hits enqueued under group "g". -/
def fiveHits : List (Context × CacheHit) :=
  [(ctxG "g", hitN 1), (ctxG "g", hitN 2), (ctxG "g", hitN 3), (ctxG "g", hitN 4),
   (ctxG "g", hitN 5)]


/-! ## Trackers and timers -/

/-- Modelled from the spec: `proxy_util.SkipRemote` is outside the translated
sources; it reads the `skip_remote` bit of the request context. -/
def SkipRemote (ctx : Context) : Bool := ctx.skipRemote

set_option linter.dupNamespace false in
/-- Go `struct HitTrackerClient`.  Its `enqueueFn` is always the `enqueue` method
of the factory that made it and its `client` the factory's client, so the
methods below take the factory state and the client as arguments. -/
structure HitTrackerClient where
  ctx : Context
  requestMetadata : String
  cacheType : CacheType
deriving DecidableEq, Repr

/-- Go `struct TransferTimer` (`enqueueFn` and `client` as for
`HitTrackerClient`; the unused `invocationID` is left out).  `start` is the clock
reading at creation. -/
structure TransferTimer where
  ctx : Context
  requestMetadata : String
  digest : String
  start : Nat
  cacheType : CacheType
  cacheRequestType : RequestType
deriving DecidableEq, Repr

/-- A value of the Go interface `interfaces.TransferTimer` as this package
produces them: a `NoOpTransferTimer` or a `TransferTimer`. -/
inductive AnyTransferTimer where
  | NoOpTransferTimer
  | TransferTimer (t : TransferTimer)
deriving DecidableEq, Repr

/-- A value of the Go interface `interfaces.HitTracker` as this package produces
them: a `NoOpHitTracker` or a `HitTrackerClient`. -/
inductive AnyHitTracker where
  | NoOpHitTracker
  | HitTrackerClient (c : HitTrackerClient)
deriving DecidableEq, Repr

/-- What `Register` hands to `env.SetHitTrackerFactory`. -/
inductive AnyHitTrackerFactory where
  | NoOpHitTrackerFactory
  | HitTrackerFactory (h : HitTrackerFactory)
deriving DecidableEq, Repr

/-- The visible outcome of `Register`: the factory installed in the environment
(if any), the targets dialed, and the returned error. -/
structure Registration where
  installed : Option AnyHitTrackerFactory
  dialed : List String
  err : Option Status.Error
deriving DecidableEq, Repr

/-- Go `func Register`, for the flag values `target`, `workers` and the two
caps; `dial` answers `grpc_client.DialInternal` (`none` is success). -/
def Register (target : String) (workers : Int) (maxPendingHitsPerGroup maxHitsPerUpdate : Int)
    (dial : String → Option Status.Error) : Registration :=
  if target = "" ∨ workers < 1 then
    { installed := some .NoOpHitTrackerFactory, dialed := [], err := none }
  else
    match dial target with
    | some err => { installed := none, dialed := [target], err := some err }
    | none =>
      { installed := some (.HitTrackerFactory
          (newHitTrackerClient maxPendingHitsPerGroup maxHitsPerUpdate)),
        dialed := [target], err := none }

/-- Go `NewACHitTracker`, of either factory: the tracker, and whether
`alert.UnexpectedEvent` was raised. -/
def AnyHitTrackerFactory.NewACHitTracker (f : AnyHitTrackerFactory) (ctx : Context)
    (requestMetadata : String) : AnyHitTracker × Bool :=
  match f with
  | .NoOpHitTrackerFactory => (.NoOpHitTracker, false)
  | .HitTrackerFactory _ =>
    (.HitTrackerClient { ctx := ctx, requestMetadata := requestMetadata, cacheType := .AC },
      !SkipRemote ctx)

/-- Go `NewCASHitTracker`, of either factory. -/
def AnyHitTrackerFactory.NewCASHitTracker (f : AnyHitTrackerFactory) (ctx : Context)
    (requestMetadata : String) : AnyHitTracker :=
  match f with
  | .NoOpHitTrackerFactory => .NoOpHitTracker
  | .HitTrackerFactory _ =>
    .HitTrackerClient { ctx := ctx, requestMetadata := requestMetadata, cacheType := .CAS }

/-- Go `SetExecutedActionMetadata`, of either tracker, on the factory state `h`:
the state after the call and whether `alert.UnexpectedEvent` was raised. -/
def AnyHitTracker.SetExecutedActionMetadata (t : AnyHitTracker) (h : HitTrackerFactory) :
    HitTrackerFactory × Bool :=
  match t with
  | .NoOpHitTracker => (h, false)
  | .HitTrackerClient c => if SkipRemote c.ctx then (h, false) else (h, true)

/-- Go `TrackMiss`, of either tracker, on the factory state `h`: the state after
the call and the returned error. -/
def AnyHitTracker.TrackMiss (t : AnyHitTracker) (h : HitTrackerFactory) (_d : String) :
    HitTrackerFactory × Option Status.Error :=
  match t with
  | .NoOpHitTracker => (h, none)
  | .HitTrackerClient _ => (h, none)

/-- Go `TrackDownload`, of either tracker; `now` is `time.Now()`. -/
def AnyHitTracker.TrackDownload (t : AnyHitTracker) (digest : String) (now : Nat) :
    AnyTransferTimer :=
  match t with
  | .NoOpHitTracker => .NoOpTransferTimer
  | .HitTrackerClient h =>
    .TransferTimer
      { ctx := h.ctx, requestMetadata := h.requestMetadata, digest := digest, start := now,
        cacheType := h.cacheType, cacheRequestType := .READ }

/-- Go `TrackUpload`, of either tracker; `now` is `time.Now()`. -/
def AnyHitTracker.TrackUpload (t : AnyHitTracker) (digest : String) (now : Nat) :
    AnyTransferTimer :=
  match t with
  | .NoOpHitTracker => .NoOpTransferTimer
  | .HitTrackerClient h =>
    if SkipRemote h.ctx then
      .TransferTimer
        { ctx := h.ctx, requestMetadata := h.requestMetadata, digest := digest, start := now,
          cacheType := h.cacheType, cacheRequestType := .WRITE }
    else
      .NoOpTransferTimer

/-- The `hitpb.CacheHit` literal of `TransferTimer.CloseWithBytesTransferred`;
`now` is the clock reading at the call, so `now - t.start` is
`time.Since(t.start)`. -/
def TransferTimer.cacheHit (t : TransferTimer) (bytesTransferredClient : Int) (now : Nat) :
    CacheHit :=
  { requestMetadata := t.requestMetadata
    digest := t.digest
    cacheType := t.cacheType
    sizeBytes := bytesTransferredClient
    duration := now - t.start
    cacheRequestType := t.cacheRequestType }

/-- Go `CloseWithBytesTransferred`, of either timer, on the factory state `h`:
the new state and the returned error. -/
def AnyTransferTimer.CloseWithBytesTransferred (t : AnyTransferTimer)
    (client : HitTrackerServiceClient) (h : HitTrackerFactory)
    (_bytesTransferredCache bytesTransferredClient : Int) (_compressor : Nat)
    (_serverLabel : String) (now : Nat) :
    Except Fault (HitTrackerFactory × Option Status.Error) :=
  match t with
  | .NoOpTransferTimer => .ok (h, none)
  | .TransferTimer t =>
    match h.enqueue client t.ctx (t.cacheHit bytesTransferredClient now) with
    | .error e => .error e
    | .ok h1 => .ok (h1, none)

/-- Go `Record`, of either timer. -/
def AnyTransferTimer.Record (t : AnyTransferTimer) (_bytesTransferred : Int) (_duration : Nat)
    (_compressor : Nat) : Option Status.Error :=
  match t with
  | .NoOpTransferTimer => none
  | .TransferTimer _ =>
    some (Status.InternalError "Unxpected call to hit_tracker_client.Record()")

/-! ## Header capture -/

/-- The headers a group's batch is expected to carry: the auth headers and the
origin usage header of the most recent `enqueue` of `ops` for group `g` that the
code counted as "enqueued", starting from `acc`.  The calls are replayed from
state `h` to read the code's own verdict off the enqueue counter. -/
def lastAcceptedHeaders (client : HitTrackerServiceClient) (g : groupID) :
    List Op → HitTrackerFactory → Option (Headers × Headers) → Option (Headers × Headers)
  | [], _, acc => acc
  | op :: ops, h, acc =>
    match step client h op with
    | .error _ => acc
    | .ok h1 =>
      match op with
      | .sendTrackRequest => lastAcceptedHeaders client g ops h1 acc
      | .enqueue ctx _ =>
        if h.groupID ctx = g ∧ h1.updates = h.updates ++ [(g, updateLabel true)] then
          lastAcceptedHeaders client g ops h1 (some (ctx.authHeaders, originUsageHeaders ctx))
        else
          lastAcceptedHeaders client g ops h1 acc

/-- The pending batch of group `g`, when it is not empty, carries the headers
`acc`. -/
def HeadersOk (acc : Option (Headers × Headers)) (h : HitTrackerFactory) (g : groupID) : Prop :=
  ∀ p c, mapLookup h.hitsByGroup g = some p → h.heap[p]? = some c → c.hits ≠ [] →
    acc = some (c.authHeaders, c.usageHeaders)

/-- A context of group `g` carrying the auth token `tok` and the origin `org`
next to another usage header. -/
def ctxWith (g : groupID) (tok org : String) : Context :=
  { claims := some g, authHeaders := [("authorization", [tok])],
    usageHeaders := [(OriginHeaderName, [org]), ("x-buildbuddy-client", ["bazel"])],
    skipRemote := false }


end HitTrackerClient


/-! # Snapshot artifacts (`snaputil.go`) -/

namespace Snaputil

open Status

/-- The request context, as for the hit tracker: the code here reads and sets
only its skip-remote bit. -/
abbrev Context := HitTrackerClient.Context

/-- A `repb.Digest`, by its hash. -/
abbrev Digest := String

/-- The boolean flags of the package. -/
structure Flags where
  EnableLocalSnapshotSharing : Bool
  EnableRemoteSnapshotSharing : Bool
  RemoteSnapshotReadonly : Bool
  VerboseLogging : Bool
  storeSnapshotsInLocalClusterOnly : Bool
deriving DecidableEq, Repr

/-- Go `type ChunkSource int`. -/
abbrev ChunkSource := Nat

/-- Go `ChunkSourceUnmapped` (`iota` 0). -/
def ChunkSourceUnmapped : ChunkSource := 0

/-- Go `ChunkSourceHole`. -/
def ChunkSourceHole : ChunkSource := 1

/-- Go `ChunkSourceLocalFile`. -/
def ChunkSourceLocalFile : ChunkSource := 2

/-- Go `ChunkSourceLocalFilecache`. -/
def ChunkSourceLocalFilecache : ChunkSource := 3

/-- Go `ChunkSourceRemoteCache`. -/
def ChunkSourceRemoteCache : ChunkSource := 4

/-- A call made on a service outside the package: the local file cache
(`FastLinkFile`, `ContainsFile`, `AddFile`), the file system (`os.Create`,
`os.Open`, `os.Remove`), the byte stream (`cachetools.GetBlob`,
`cachetools.UploadFromReader`, with the context they are made under) and the
upload-size counter.  Log lines are not recorded. -/
inductive Call where
  | FastLinkFile (d : Digest) (outputPath : String)
  | ContainsFile (d : Digest)
  | AddFile (d : Digest) (path : String)
  | osCreate (path : String)
  | osOpen (path : String)
  | osRemove (path : String)
  | GetBlob (ctx : Context) (d : Digest) (instanceName : String)
  | UploadFromReader (ctx : Context) (d : Digest) (instanceName : String) (path : String)
  | uploadSizeMetric (fileTypeLabel : String) (bytes : Int)
deriving DecidableEq, Repr

/-- The answers of the services; an `Option Error` is the returned `error`
(`none` is `nil`).  Within one call of `GetArtifact` or `Cache` every service is
asked at most once, so fixed answers are enough.  The error of `os.Remove` is
only logged, so it needs no answer. -/
structure Env where
  fastLinkFile : Digest → String → Bool
  containsFile : Digest → Bool
  addFile : Digest → String → Option Error
  osCreate : String → Option Error
  osOpen : String → Option Error
  getBlob : Context → Digest → String → Option Error
  uploadFromReader : Context → Digest → String → String → Int × Option Error

/-- Modelled from the spec: `proxy_util.SetSkipRemote` is outside the translated
sources; it returns the context with the `skip_remote` bit set. -/
def SetSkipRemote (ctx : Context) : Context := { ctx with skipRemote := true }

/-- Go `func IsChunkedSnapshotSharingEnabled`. -/
def IsChunkedSnapshotSharingEnabled (flags : Flags) : Bool :=
  flags.EnableRemoteSnapshotSharing || flags.EnableLocalSnapshotSharing

/-- Go `func GetSnapshotAccessContext`. -/
def GetSnapshotAccessContext (flags : Flags) (ctx : Context) : Context :=
  if flags.storeSnapshotsInLocalClusterOnly then SetSkipRemote ctx else ctx

/-- Go `func cacheLocally`: the returned error and the calls made.  The `||` of
the condition does not ask `ContainsFile` when local sharing is off. -/
def cacheLocally (flags : Flags) (env : Env) (_ctx : Context) (d : Digest) (path : String) :
    Option Error × List Call :=
  if !flags.EnableLocalSnapshotSharing then
    (env.addFile d path, [.AddFile d path])
  else if !env.containsFile d then
    (env.addFile d path, [.ContainsFile d, .AddFile d path])
  else
    (none, [.ContainsFile d])

/-- Go `func GetArtifact`: the returned pair and the calls made, in order.  The
deferred `f.Close()` and the log lines are left out. -/
def GetArtifact (flags : Flags) (env : Env) (ctx : Context) (remoteEnabled : Bool)
    (d : Digest) (instanceName : String) (outputPath : String) :
    (ChunkSource × Option Error) × List Call :=
  if !flags.EnableLocalSnapshotSharing && !flags.EnableRemoteSnapshotSharing then
    ((0, some (UnimplementedError "Snapshot sharing not enabled")), [])
  else
    let fetchRemote (before : List Call) : (ChunkSource × Option Error) × List Call :=
      match env.osCreate outputPath with
      | some err => ((0, some err), before ++ [.osCreate outputPath])
      | none =>
        let ctx1 := GetSnapshotAccessContext flags ctx
        match env.getBlob ctx1 d instanceName with
        | some err =>
          ((0, some (WrapError err "remote fetch snapshot artifact")),
            before ++ [.osCreate outputPath, .GetBlob ctx1 d instanceName,
              .osRemove outputPath])
        | none =>
          if flags.EnableLocalSnapshotSharing then
            ((ChunkSourceRemoteCache, none),
              before ++ [.osCreate outputPath, .GetBlob ctx1 d instanceName] ++
                (cacheLocally flags env ctx1 d outputPath).2)
          else
            ((ChunkSourceRemoteCache, none),
              before ++ [.osCreate outputPath, .GetBlob ctx1 d instanceName])
    if flags.EnableLocalSnapshotSharing then
      if env.fastLinkFile d outputPath then
        ((ChunkSourceLocalFilecache, none), [.FastLinkFile d outputPath])
      else if !flags.EnableRemoteSnapshotSharing || !remoteEnabled then
        ((0, some (UnavailableError
            ("snapshot artifact with digest " ++ d ++ " not found in local cache"))),
          [.FastLinkFile d outputPath])
      else
        fetchRemote [.FastLinkFile d outputPath]
    else
      fetchRemote []

/-- Go `func Cache`: the returned pair (bytes written to the remote cache,
error) and the calls made, in order.  The deferred `file.Close()` and the log
lines are left out. -/
def Cache (flags : Flags) (env : Env) (ctx : Context) (remoteEnabled : Bool) (d : Digest)
    (remoteInstanceName : String) (path : String) (fileTypeLabel : String) :
    (Int × Option Error) × List Call :=
  if !flags.EnableLocalSnapshotSharing && !flags.EnableRemoteSnapshotSharing then
    ((0, some (UnimplementedError "Snapshot sharing not enabled")), [])
  else
    let upload (before : List Call) : (Int × Option Error) × List Call :=
      match env.osOpen path with
      | some err => ((0, some err), before ++ [.osOpen path])
      | none =>
        let ctx1 := GetSnapshotAccessContext flags ctx
        let r := env.uploadFromReader ctx1 d remoteInstanceName path
        if r.2 = none ∧ r.1 > 0 then
          (r, before ++ [.osOpen path, .UploadFromReader ctx1 d remoteInstanceName path,
            .uploadSizeMetric fileTypeLabel r.1])
        else
          (r, before ++ [.osOpen path, .UploadFromReader ctx1 d remoteInstanceName path])
    if flags.EnableLocalSnapshotSharing then
      let l := cacheLocally flags env ctx d path
      if !flags.EnableRemoteSnapshotSharing || flags.RemoteSnapshotReadonly || !remoteEnabled then
        ((0, l.1), l.2)
      else
        upload l.2
    else
      upload []

/-- Whether a call is a remote upload. -/
def Call.isUpload : Call → Bool
  | .UploadFromReader _ _ _ _ => true
  | _ => false

/-- Whether a call is a remote fetch. -/
def Call.isFetch : Call → Bool
  | .GetBlob _ _ _ => true
  | _ => false

/-- Whether a call creates a file (`os.Create`). -/
def Call.isCreate : Call → Bool
  | .osCreate _ => true
  | _ => false

/-- Whether a call goes to the local file cache. -/
def Call.isLocalCache : Call → Bool
  | .FastLinkFile _ _ => true
  | .ContainsFile _ => true
  | .AddFile _ _ => true
  | _ => false

/-- The context a remote transfer is made under, if the call is one. -/
def Call.transferContext : Call → Option Context
  | .GetBlob ctx _ _ => some ctx
  | .UploadFromReader ctx _ _ _ => some ctx
  | _ => none

/-- Whether a call, if it is a remote transfer, is made under the context `ctx`. -/
def Call.transfersUnder (ctx : Context) (c : Call) : Bool :=
  match c.transferContext with
  | none => true
  | some ctx1 => ctx1 = ctx

/-- An environment in which every service succeeds, the local cache holds
nothing and an upload reports 42 bytes. -/
def happyEnv : Env :=
  { fastLinkFile := fun _ _ => false
    containsFile := fun _ => false
    addFile := fun _ _ => none
    osCreate := fun _ => none
    osOpen := fun _ => none
    getBlob := fun _ _ _ => none
    uploadFromReader := fun _ _ _ _ => (42, none) }

/-- Both sharing flags on, remote writes allowed, snapshots not confined to the
local cluster. -/
def sharingFlags : Flags :=
  { EnableLocalSnapshotSharing := true, EnableRemoteSnapshotSharing := true,
    RemoteSnapshotReadonly := false, VerboseLogging := false,
    storeSnapshotsInLocalClusterOnly := false }

/-- Remote snapshot sharing alone: local sharing off, remote sharing on, remote
writes allowed. -/
def remoteOnlyFlags : Flags :=
  { EnableLocalSnapshotSharing := false, EnableRemoteSnapshotSharing := true,
    RemoteSnapshotReadonly := false, VerboseLogging := false,
    storeSnapshotsInLocalClusterOnly := false }

/-- The sharing flags with snapshots confined to the local cluster. -/
def localClusterFlags : Flags :=
  { sharingFlags with storeSnapshotsInLocalClusterOnly := true }

/-- A request context without the skip-remote bit. -/
def plainCtx : Context :=
  { claims := some "g", authHeaders := [], usageHeaders := [], skipRemote := false }

end Snaputil


/-! # CAS proxy (specification, section 4.1)

The source of the CAS proxy is not among the translated files (its test
`content_addressable_storage_server_proxy_test.go` is), so the proxy is modelled
from the specification: a local blob store, the remote CAS behind an RPC
boundary, and the three batch operations.  The remote RPCs the proxy issues are
appended to a log of the state, so that "zero remote RPCs" is a statement about
that log. -/

namespace CasProxy

/-- Modelled from the spec: the request context of a CAS call (section 3); the
proxy reads its `skip_remote` bit. -/
abbrev Context := HitTrackerClient.Context

/-- Modelled from the spec: a digest is a pair (hash, size), and two digests are
equal iff both fields are equal (section 3).  The proxy's own type is outside the
translated sources. -/
structure Digest where
  hash : String
  sizeBytes : Int
deriving DecidableEq, Repr

/-- Modelled from the spec: the content of a blob store, local or remote, "a
blob read/write interface with content-addressing"; newest entry first. -/
abbrev Blobs := List (Digest × String)

/-- Modelled from the spec: the blob store's get. -/
def getBlob : Blobs → Digest → Option String
  | [], _ => none
  | (k, data) :: rest, d => if k = d then some data else getBlob rest d

/-- Modelled from the spec: the blob store's put. -/
def putBlob (s : Blobs) (d : Digest) (data : String) : Blobs := (d, data) :: s

/-- Modelled from the spec: the per-entry status of a response, OK or one of the
error kinds of section 7. -/
inductive EntryStatus where
  | OK
  | error (code : Status.Code)
deriving DecidableEq, Repr

/-- Modelled from the spec: an entry of a `BatchReadBlobs` response (section 6). -/
structure ReadResponse where
  digest : Digest
  status : EntryStatus
  data : String
deriving DecidableEq, Repr

/-- Modelled from the spec: an entry of a `BatchUpdateBlobs` response (section 6). -/
structure UpdateResponse where
  digest : Digest
  status : EntryStatus
deriving DecidableEq, Repr

/-- Modelled from the spec: an RPC the proxy issues to the remote CAS on behalf
of a request; each is one batched call. -/
inductive RemoteRPC where
  | FindMissingBlobs (digests : List Digest)
  | BatchReadBlobs (digests : List Digest)
  | BatchUpdateBlobs (entries : List (Digest × String))
deriving DecidableEq, Repr

/-- Modelled from the spec: the proxy with its two collaborators.  `localPut` is
the answer of the local blob store to a put (it may refuse a blob, for instance
for its size; on `OK` the blob is stored); `remoteAvailable` tells whether the
remote can be reached; `remoteRPCs` logs the RPCs issued to the remote,
`remoteFailures` counts the remote failures recorded by `BatchUpdateBlobs`, and
`atimeUpdates` and `hitRecords` hold what local hits enqueue for the two
background pipelines. -/
structure Proxy where
  localBlobs : Blobs
  localPut : Digest → String → EntryStatus
  remoteBlobs : Blobs
  remoteAvailable : Bool
  remoteRPCs : List RemoteRPC
  remoteFailures : Nat
  atimeUpdates : List Digest
  hitRecords : List Digest

/-- Modelled from the spec: one write to the local store, kept when the store
accepts it. -/
def writeLocal (localPut : Digest → String → EntryStatus) (s : Blobs) (e : Digest × String) :
    Blobs :=
  if localPut e.1 e.2 = .OK then putBlob s e.1 e.2 else s

/-- Modelled from the spec: "writes each entry locally", in order. -/
def writeAllLocal (localPut : Digest → String → EntryStatus) (s : Blobs)
    (entries : List (Digest × String)) : Blobs :=
  entries.foldl (writeLocal localPut) s

/-- Modelled from the spec: `FindMissingBlobs` (section 4.1).  "If `skip_remote`:
consult local store only; return digests not present locally.  Otherwise:
consult remote only (authoritative).  The local store is NOT consulted."  An
unreachable remote is the error `Unavailable`. -/
def FindMissingBlobs (p : Proxy) (ctx : Context) (digests : List Digest) :
    Except Status.Code (List Digest) × Proxy :=
  if HitTrackerClient.SkipRemote ctx then
    (.ok (digests.filter (fun d => (getBlob p.localBlobs d).isNone)), p)
  else
    let p1 : Proxy := { p with remoteRPCs := p.remoteRPCs ++ [.FindMissingBlobs digests] }
    if p.remoteAvailable then
      (.ok (digests.filter (fun d => (getBlob p.remoteBlobs d).isNone)), p1)
    else
      (.error .Unavailable, p1)

/-- Modelled from the spec: the response of `BatchReadBlobs` for one requested
digest: the local blob on a local hit; on a local miss the remote's answer when
the miss was forwarded (`remote` is then the remote's content), and NotFound
otherwise. -/
def readOne (localBlobs : Blobs) (remote : Option Blobs) (d : Digest) : ReadResponse :=
  match getBlob localBlobs d with
  | some data => { digest := d, status := .OK, data := data }
  | none =>
    match remote with
    | none => { digest := d, status := .error .NotFound, data := "" }
    | some remoteBlobs =>
      match getBlob remoteBlobs d with
      | some data => { digest := d, status := .OK, data := data }
      | none => { digest := d, status := .error .NotFound, data := "" }

/-- Modelled from the spec: `BatchReadBlobs` (section 4.1).  For each requested
digest the local store is tried first; a local hit enqueues an atime update and a
read hit record.  On local misses, under `skip_remote` the entry is NotFound,
otherwise the miss set is forwarded to the remote in a single batched call, and
what the remote returns OK is written through to the local store.  There is one
response per requested digest, in request order.  A remote RPC error is surfaced
to the caller with its code. -/
def BatchReadBlobs (p : Proxy) (ctx : Context) (digests : List Digest) :
    Except Status.Code (List ReadResponse) × Proxy :=
  let hits := digests.filter (fun d => (getBlob p.localBlobs d).isSome)
  let misses := digests.filter (fun d => (getBlob p.localBlobs d).isNone)
  let p1 : Proxy := { p with atimeUpdates := p.atimeUpdates ++ hits
                             hitRecords := p.hitRecords ++ hits }
  if HitTrackerClient.SkipRemote ctx || misses.isEmpty then
    (.ok (digests.map (readOne p.localBlobs none)), p1)
  else
    let p2 : Proxy := { p1 with remoteRPCs := p1.remoteRPCs ++ [.BatchReadBlobs misses.dedup] }
    if p.remoteAvailable then
      let fetched := misses.dedup.filterMap
        (fun d => (getBlob p.remoteBlobs d).map (fun data => (d, data)))
      (.ok (digests.map (readOne p.localBlobs (some p.remoteBlobs))),
        { p2 with localBlobs := writeAllLocal p.localPut p.localBlobs fetched })
    else
      (.error .Unavailable, p2)

/-- Modelled from the spec: `BatchUpdateBlobs` (section 4.1).  "Writes each entry
locally; if not `skip_remote`, also forwards to remote in a single batched call.
Local write errors surface per-entry; a remote failure after local success is
recorded but does not roll back the local write." -/
def BatchUpdateBlobs (p : Proxy) (ctx : Context) (entries : List (Digest × String)) :
    List UpdateResponse × Proxy :=
  let responses : List UpdateResponse :=
    entries.map (fun e => { digest := e.1, status := p.localPut e.1 e.2 })
  let p1 : Proxy := { p with localBlobs := writeAllLocal p.localPut p.localBlobs entries }
  if HitTrackerClient.SkipRemote ctx then
    (responses, p1)
  else
    let p2 : Proxy := { p1 with remoteRPCs := p1.remoteRPCs ++ [.BatchUpdateBlobs entries] }
    if p.remoteAvailable then
      (responses,
        { p2 with
          remoteBlobs :=
            entries.foldl (fun (s : Blobs) (e : Digest × String) => putBlob s e.1 e.2)
              p.remoteBlobs })
    else
      (responses, { p2 with remoteFailures := p2.remoteFailures + 1 })

/-! ## The blobs of the proxy's tests -/

/-- The digest of "foo" in the tests. -/
def digestA : Digest :=
  { hash := "2c26b46b68ffc68ff99b453c1d30413413422d706483bfa0f98a5e886266e7ae", sizeBytes := 3 }

/-- The digest of "foof" in the tests. -/
def digestB : Digest :=
  { hash := "ecebed81d223de4ccfbcf9cee4e19e1872165b8a142c2d6ee6fb1d29617d0e8e", sizeBytes := 4 }

/-- The digest of "bar" in the tests. -/
def digestC : Digest :=
  { hash := "fcde2b2edba56bf408601fb721fe9b5c338d10ee429ea04fae5511b68fbf8fb9", sizeBytes := 3 }

/-- A proxy with empty stores, a reachable remote and a local store that accepts
every blob. -/
def emptyProxy : Proxy :=
  { localBlobs := [], localPut := fun _ _ => .OK, remoteBlobs := [], remoteAvailable := true,
    remoteRPCs := [], remoteFailures := 0, atimeUpdates := [], hitRecords := [] }

/-- The proxy of `TestFindMissingBlobs_SkipRemote`: the remote holds A and B, the
local store holds B and C. -/
def splitProxy : Proxy :=
  { emptyProxy with
    localBlobs := [(digestB, "foof"), (digestC, "bar")]
    remoteBlobs := [(digestA, "foo"), (digestB, "foof")] }

/-- A request context with the `skip_remote` header set. -/
def skipRemoteCtx : Context :=
  { claims := none, authHeaders := [], usageHeaders := [], skipRemote := true }

/-- A request context without the `skip_remote` header. -/
def testContext : Context :=
  { claims := none, authHeaders := [], usageHeaders := [], skipRemote := false }

end CasProxy


/-! # API server (`api_server.go`) -/

namespace Api

open Status

/-- The request context; the API server only hands it to the services. -/
abbrev Context := HitTrackerClient.Context

/-- What the code reads from `interfaces.UserInfo`. -/
structure UserInfo where
  groupID : String
deriving DecidableEq, Repr

/-- Go `apipb.InvocationSelector`. -/
structure InvocationSelector where
  invocationId : String
  commitSha : String
deriving DecidableEq, Repr

/-- Go `apipb.GetInvocationRequest`. -/
structure GetInvocationRequest where
  selector : InvocationSelector
  includeMetadata : Bool
  includeArtifacts : Bool
deriving DecidableEq, Repr

/-- Go `apipb.TargetSelector`. -/
structure TargetSelector where
  invocationId : String
  targetId : String
  tag : String
  label : String
deriving DecidableEq, Repr

/-- Go `apipb.ActionSelector`. -/
structure ActionSelector where
  invocationId : String
  targetId : String
  configurationId : String
  actionId : String
  targetLabel : String
deriving DecidableEq, Repr

/-- Go `apipb.GetLogRequest` with its `LogSelector`. -/
structure GetLogRequest where
  invocationId : String
  pageToken : String
deriving DecidableEq, Repr

/-- Go `apipb.Invocation`: the id, the columns copied from the table row (kept
together as `row`), and the three lists filled from build events. -/
structure Invocation where
  invocationId : String
  row : String
  buildMetadata : List (String × String)
  workspaceStatus : List (String × String)
  artifacts : List (String × String)
deriving DecidableEq, Repr

/-- Go `apipb.Target`, by the fields the code reads. -/
structure Target where
  invocationId : String
  targetId : String
  label : String
deriving DecidableEq, Repr

/-- Go `apipb.Action_Id`. -/
structure ActionId where
  invocationId : String
  targetId : String
  configurationId : String
  actionId : String
deriving DecidableEq, Repr

/-- Go `apipb.Action`.  `id` is the pointer field `Id`, `none` when it is nil (the
zero message `&apipb.Action{}`, or a decoded message without an id). -/
structure Action where
  id : Option ActionId
  targetLabel : String
  files : List (String × String)
deriving DecidableEq, Repr

/-- Go `apipb.Log` with the next page token. -/
structure LogResponse where
  contents : String
  nextPageToken : String
deriving DecidableEq, Repr

/-- The payload of a build event, as `GetInvocation` switches on it. -/
inductive BuildEvent where
  | BuildMetadata (metadata : List (String × String))
  | WorkspaceStatus (items : List (String × String))
  | NamedSetOfFiles (files : List (String × String))
  | other (tag : String)
deriving DecidableEq, Repr

/-- A lookup made on a service outside the package: the database query (with
its where-clauses), the metrics collector (the API cache, `GetAll` and
`ListRange`), the stored build events of an invocation
(`LookupInvocationWithCallback`) and the event log. -/
inductive Lookup where
  | dbQuery (clauses : List (String × String))
  | metricsGetAll (key : String)
  | metricsListRange (key : String) (start stop : Int)
  | invocationEvents (iid : String)
  | eventLogChunk (iid : String) (chunkId : String)
deriving DecidableEq, Repr

/-- Go `interfaces.MetricsCollector`, by the two methods used. -/
structure MetricsCollector where
  GetAll : String → Except Error (List String)
  ListRange : String → Int → Int → Except Error (List String)

/-- The flags and the services of `s.env`, and the helpers of other packages
the handlers call.  `unmarshalActionInto blob a` is `proto.Unmarshal(blob, a)`
for an action message `a` that already has content. -/
structure Env where
  enableCache : Bool
  AuthenticatedUser : Context → Except Error UserInfo
  AddPermissionsCheckToQuery : Context → Option Error
  scanInvocations : List (String × String) → Except Error (List Invocation)
  metricsCollector : Option MetricsCollector
  LookupInvocationWithCallback : Context → String → Except Error (List BuildEvent)
  GetEventLogChunk : Context → String → String → Except Error (String × String)
  TargetLabelKey : String → String → String → String
  ActionLabelKey : String → String → String → String
  unmarshalTarget : String → Except Error Target
  unmarshalActionInto : String → Action → Except Error Action
  TargetMatchesSelector : Target → TargetSelector → Bool
  targetMapTargets : TargetSelector → List BuildEvent → List Target
  FillActionFromBuildEvent : BuildEvent → Action → Option Action
  FillActionOutputFilesFromBuildEvent : BuildEvent → Action → Action

/-- One operand of `actionMatchesActionSelector` that reads the action's id,
`sel == "" || sel == action.GetId().F`: the right side of `||` is evaluated only
when `sel` is not empty, and reading the field `F` of a nil `Id` is then a nil
dereference. -/
def idFieldMatches (action : Action) (sel : String) (F : ActionId → String) :
    Except HitTrackerClient.Fault Bool :=
  if sel = "" then .ok true
  else
    match action.id with
    | none => .error .panic
    | some id => .ok (sel == F id)

/-- Go `func actionMatchesActionSelector`, for an action and a selector that are
not nil (the callers test `action != nil`, and return before the call when the
request has no selector).  `&&` evaluates its right operand only when the left
one is true; `action.GetTargetLabel()` is safe on every action. -/
def actionMatchesActionSelector (action : Action) (selector : ActionSelector) :
    Except HitTrackerClient.Fault Bool :=
  match idFieldMatches action selector.targetId (fun id => id.targetId) with
  | .error e => .error e
  | .ok false => .ok false
  | .ok true =>
    if !(selector.targetLabel == "" || selector.targetLabel == action.targetLabel) then
      .ok false
    else
      match idFieldMatches action selector.configurationId (fun id => id.configurationId) with
      | .error e => .error e
      | .ok false => .ok false
      | .ok true => idFieldMatches action selector.actionId (fun id => id.actionId)

/-- The callback of `GetInvocation` on one event. -/
def addEventToInvocation (req : GetInvocationRequest) (i : Invocation) : BuildEvent → Invocation
  | .BuildMetadata md =>
    if req.includeMetadata then { i with buildMetadata := i.buildMetadata ++ md } else i
  | .WorkspaceStatus items =>
    if req.includeMetadata then { i with workspaceStatus := i.workspaceStatus ++ items } else i
  | .NamedSetOfFiles files =>
    if req.includeArtifacts then { i with artifacts := i.artifacts ++ files } else i
  | .other _ => i

/-- The loop of `GetInvocation` over the invocations found, which looks up the
events of each one; it stops at the first lookup that fails. -/
def fillInvocations (env : Env) (ctx : Context) (req : GetInvocationRequest) :
    List Invocation → Except Error (List Invocation) × List Lookup
  | [] => (.ok [], [])
  | i :: rest =>
    match env.LookupInvocationWithCallback ctx i.invocationId with
    | .error e => (.error e, [.invocationEvents i.invocationId])
    | .ok events =>
      let i1 := events.foldl (addEventToInvocation req) i
      match fillInvocations env ctx req rest with
      | (.error e, tr) => (.error e, .invocationEvents i.invocationId :: tr)
      | (.ok filled, tr) => (.ok (i1 :: filled), .invocationEvents i.invocationId :: tr)

/-- Go `func (s *APIServer) GetInvocation`: the response or error, and the
lookups made. -/
def GetInvocation (env : Env) (ctx : Context) (req : GetInvocationRequest) :
    Except Error (List Invocation) × List Lookup :=
  match env.AuthenticatedUser ctx with
  | .error err => (.error err, [])
  | .ok user =>
    if req.selector.invocationId = "" ∧ req.selector.commitSha = "" then
      (.error (InvalidArgumentError
        "InvocationSelector must contain a valid invocation_id or commit_sha"), [])
    else
      let q := [("group_id = ?", user.groupID)] ++
        (if req.selector.invocationId ≠ "" then
          [("invocation_id = ?", req.selector.invocationId)] else []) ++
        (if req.selector.commitSha ≠ "" then [("commit_sha = ?", req.selector.commitSha)]
          else [])
      match env.AddPermissionsCheckToQuery ctx with
      | some err => (.error err, [])
      | none =>
        match env.scanInvocations q with
        | .error err => (.error err, [.dbQuery q])
        | .ok invocations =>
          if req.includeMetadata || req.includeArtifacts then
            match fillInvocations env ctx req invocations with
            | (r, tr) => (r, .dbQuery q :: tr)
          else
            (.ok invocations, [.dbQuery q])

/-- Go `func (s *APIServer) redisCachedTarget`. -/
def redisCachedTarget (env : Env) (_ctx : Context) (userInfo : UserInfo) (iid targetLabel : String) :
    Except Error (Option Target) × List Lookup :=
  match env.enableCache, env.metricsCollector with
  | false, _ => (.ok none, [])
  | true, none => (.ok none, [])
  | true, some mc =>
    if targetLabel = "" then (.ok none, [])
    else
      let key := env.TargetLabelKey userInfo.groupID iid targetLabel
      match mc.GetAll key with
      | .error err => (.error err, [.metricsGetAll key])
      | .ok blobs =>
        match blobs with
        | [blob] =>
          match env.unmarshalTarget blob with
          | .error err => (.error err, [.metricsGetAll key])
          | .ok t => (.ok (some t), [.metricsGetAll key])
        | _ => (.ok none, [.metricsGetAll key])

/-- Go `func (s *APIServer) GetTarget`. -/
def GetTarget (env : Env) (ctx : Context) (selector : TargetSelector) :
    Except Error (List Target) × List Lookup :=
  match env.AuthenticatedUser ctx with
  | .error err => (.error err, [])
  | .ok userInfo =>
    if selector.invocationId = "" then
      (.error (InvalidArgumentError "TargetSelector must contain a valid invocation_id"), [])
    else
      let iid := selector.invocationId
      let cacheKey := if selector.targetId ≠ "" then selector.targetId else selector.label
      let cached := redisCachedTarget env ctx userInfo iid cacheKey
      let rspTarget : List Target :=
        match cached.1 with
        | .error _ => []
        | .ok none => []
        | .ok (some t) => if env.TargetMatchesSelector t selector then [t] else []
      if rspTarget.length > 0 then
        (.ok rspTarget, cached.2)
      else
        match env.LookupInvocationWithCallback ctx iid with
        | .error err => (.error err, cached.2 ++ [.invocationEvents iid])
        | .ok events =>
          (.ok (env.targetMapTargets selector events), cached.2 ++ [.invocationEvents iid])

/-- The loop of `redisCachedActions`: every serialized result is unmarshalled
into the one message `a`, and the pointer `a` is appended each time; the result
is the final content of `a` and the number of pointers appended. -/
def unmarshalLoop (env : Env) : List String → Action → Nat → Except Error (Action × Nat)
  | [], a, n => .ok (a, n)
  | serializedResult :: rest, a, n =>
    match env.unmarshalActionInto serializedResult a with
    | .error err => .error err
    | .ok a1 => unmarshalLoop env rest a1 (n + 1)

/-- Go `func (s *APIServer) redisCachedActions`.  The slice returned holds the
same pointer `a` once per serialized result, so as values it is that many copies
of the final content of `a`. -/
def redisCachedActions (env : Env) (_ctx : Context) (userInfo : UserInfo)
    (iid targetLabel : String) : Except Error (List Action) × List Lookup :=
  match env.enableCache, env.metricsCollector with
  | false, _ => (.ok [], [])
  | true, none => (.ok [], [])
  | true, some mc =>
    if targetLabel = "" then (.ok [], [])
    else
      let key := env.ActionLabelKey userInfo.groupID iid targetLabel
      match mc.ListRange key 0 (100000 - 1) with
      | .error err => (.error err, [.metricsListRange key 0 (100000 - 1)])
      | .ok serializedResults =>
        let a : Action := { id := none, targetLabel := "", files := [] }
        match unmarshalLoop env serializedResults a 0 with
        | .error err => (.error err, [.metricsListRange key 0 (100000 - 1)])
        | .ok (aFinal, n) =>
          (.ok (List.replicate n aFinal), [.metricsListRange key 0 (100000 - 1)])

/-- The loop of `GetAction` over the cached actions: those that match the
selector, in order.  A nil dereference in the test ends the loop with a panic. -/
def matchingActions (selector : ActionSelector) :
    List Action → Except HitTrackerClient.Fault (List Action)
  | [] => .ok []
  | action :: rest =>
    match actionMatchesActionSelector action selector with
    | .error e => .error e
    | .ok m =>
      match matchingActions selector rest with
      | .error e => .error e
      | .ok out => .ok (if m then action :: out else out)

/-- The callback of `GetAction` on one event: the action to append, if any. -/
def actionOfEvent (env : Env) (iid : String) (selector : ActionSelector) (event : BuildEvent) :
    Except HitTrackerClient.Fault (Option Action) :=
  match env.FillActionFromBuildEvent event
      { id := some { invocationId := iid, targetId := "", configurationId := "", actionId := "" },
        targetLabel := "", files := [] } with
  | none => .ok none
  | some action =>
    match actionMatchesActionSelector action selector with
    | .error e => .error e
    | .ok true => .ok (some (env.FillActionOutputFilesFromBuildEvent event action))
    | .ok false => .ok none

/-- The callback of `GetAction` run over the events of the invocation, in order. -/
def actionsOfEvents (env : Env) (iid : String) (selector : ActionSelector) :
    List BuildEvent → Except HitTrackerClient.Fault (List Action)
  | [] => .ok []
  | event :: rest =>
    match actionOfEvent env iid selector event with
    | .error e => .error e
    | .ok r =>
      match actionsOfEvents env iid selector rest with
      | .error e => .error e
      | .ok out =>
        .ok (match r with
          | some action => action :: out
          | none => out)

/-- Go `func (s *APIServer) GetAction`: a panic, or the response or error
together with the lookups made. -/
def GetAction (env : Env) (ctx : Context) (selector : ActionSelector) :
    Except HitTrackerClient.Fault (Except Error (List Action) × List Lookup) :=
  match env.AuthenticatedUser ctx with
  | .error err => .ok (.error err, [])
  | .ok userInfo =>
    if selector.invocationId = "" then
      .ok (.error (InvalidArgumentError "ActionSelector must contain a valid invocation_id"), [])
    else
      let iid := selector.invocationId
      let cacheKey := if selector.targetId ≠ "" then selector.targetId else selector.targetLabel
      let cached := redisCachedActions env ctx userInfo iid cacheKey
      let cachedActions : List Action :=
        match cached.1 with
        | .error _ => []
        | .ok actions => actions
      match matchingActions selector cachedActions with
      | .error e => .error e
      | .ok rspAction =>
        if rspAction.length > 0 then
          .ok (.ok rspAction, cached.2)
        else
          match env.LookupInvocationWithCallback ctx iid with
          | .error err => .ok (.error err, cached.2 ++ [.invocationEvents iid])
          | .ok events =>
            match actionsOfEvents env iid selector events with
            | .error e => .error e
            | .ok actions => .ok (.ok actions, cached.2 ++ [.invocationEvents iid])

/-- Go `func (s *APIServer) GetLog`. -/
def GetLog (env : Env) (ctx : Context) (req : GetLogRequest) :
    Except Error LogResponse × List Lookup :=
  match env.AuthenticatedUser ctx with
  | .error err => (.error err, [])
  | .ok _ =>
    if req.invocationId = "" then
      (.error (InvalidArgumentError "LogSelector must contain a valid invocation_id"), [])
    else
      match env.GetEventLogChunk ctx req.invocationId req.pageToken with
      | .error err => (.error err, [.eventLogChunk req.invocationId req.pageToken])
      | .ok (buffer, nextChunkId) =>
        (.ok { contents := buffer, nextPageToken := nextChunkId },
          [.eventLogChunk req.invocationId req.pageToken])

/-! ## `DeleteFile` -/

/-- Go `cappb.Capability`, by the value the API server asks for; the other values
of the enumeration are kept by number. -/
inductive Capability where
  | CACHE_WRITE
  | other (n : Nat)
deriving DecidableEq, Repr

/-- Go `apipb.DeleteFileRequest`. -/
structure DeleteFileRequest where
  uri : String
deriving DecidableEq, Repr

/-- Go `apipb.DeleteFileResponse`, a message without fields. -/
structure DeleteFileResponse where
deriving DecidableEq, Repr

/-- What `DeleteFile` reads from a parsed resource name (`GetDigest`,
`GetInstanceName`, `GetDigestFunction`). -/
structure ParsedResourceName where
  digest : String
  instanceName : String
  digestFunction : String
deriving DecidableEq, Repr

/-- Go `rspb.ResourceName`, as `digest.NewResourceName(...).ToProto()` builds it. -/
structure ResourceName where
  digest : String
  instanceName : String
  cacheType : HitTrackerClient.CacheType
  digestFunction : String
deriving DecidableEq, Repr

/-- A call of `s.env.GetCache().Delete`, with the context it is made under. -/
inductive CacheCall where
  | Delete (ctx : Context) (r : ResourceName)
deriving DecidableEq, Repr

/-- The flag and the services `DeleteFile` and `authorizeWrites` use:
`prefix.AttachUserPrefixToContext`, the authenticator, `capabilities.IsGranted`
(for the authenticator of the environment), `url.Parse` followed by `RequestURI`,
the two parsers of the `digest` package and the cache's `Delete` (`none` is a
nil error). -/
structure FileEnv where
  enableCacheDeleteAPI : Bool
  AttachUserPrefixToContext : Context → Except Error Context
  AuthenticatedUser : Context → Except Error UserInfo
  IsGranted : Context → Capability → Except Error Bool
  urlRequestURI : String → Except Error String
  ParseActionCacheResourceName : String → Except Error ParsedResourceName
  ParseDownloadResourceName : String → Except Error ParsedResourceName
  cacheDelete : Context → ResourceName → Option Error

/-- Go `strings.TrimPrefix`. -/
def TrimPrefix (s pre : String) : String :=
  if pre.data.isPrefixOf s.data then String.mk (s.data.drop pre.data.length) else s

/-- Go `func (s *APIServer) authorizeWrites`: the returned error, `none` for nil. -/
def authorizeWrites (env : FileEnv) (ctx : Context) : Option Error :=
  match env.IsGranted ctx .CACHE_WRITE with
  | .error err => some err
  | .ok canWrite =>
    if !canWrite then
      some (PermissionDeniedError "You do not have permission to perform this action.")
    else
      none

/-- The resource name `DeleteFile` builds from the trimmed URI: an action-cache
name when it parses as one, otherwise a CAS name when it parses as a download
resource name, otherwise the InvalidArgument error. -/
def resourceNameOf (env : FileEnv) (urlStr : String) : Except Error ResourceName :=
  match env.ParseActionCacheResourceName urlStr with
  | .ok parsedACRN =>
    .ok { digest := parsedACRN.digest, instanceName := parsedACRN.instanceName,
          cacheType := .AC, digestFunction := parsedACRN.digestFunction }
  | .error _ =>
    match env.ParseDownloadResourceName urlStr with
    | .error _ =>
      .error (InvalidArgumentError "Invalid URL. Only actioncache and CAS URIs supported.")
    | .ok parsedCASRN =>
      .ok { digest := parsedCASRN.digest, instanceName := parsedCASRN.instanceName,
            cacheType := .CAS, digestFunction := parsedCASRN.digestFunction }

/-- Go `func (s *APIServer) DeleteFile`: the response or error, and the calls
made on the cache. -/
def DeleteFile (env : FileEnv) (ctx : Context) (req : DeleteFileRequest) :
    Except Error DeleteFileResponse × List CacheCall :=
  if !env.enableCacheDeleteAPI then
    (.error (PermissionDeniedError "DeleteFile API not enabled"), [])
  else
    match env.AttachUserPrefixToContext ctx with
    | .error err => (.error err, [])
    | .ok ctx =>
      match env.AuthenticatedUser ctx with
      | .error err => (.error err, [])
      | .ok _ =>
        match authorizeWrites env ctx with
        | some err => (.error err, [])
        | none =>
          match env.urlRequestURI req.uri with
          | .error _ => (.error (InvalidArgumentError "Invalid URL"), [])
          | .ok requestURI =>
            let urlStr := TrimPrefix requestURI "/"
            match resourceNameOf env urlStr with
            | .error err => (.error err, [])
            | .ok resourceName =>
              match env.cacheDelete ctx resourceName with
              | none => (.ok {}, [.Delete ctx resourceName])
              | some err =>
                if !IsNotFoundError err then (.error err, [.Delete ctx resourceName])
                else (.ok {}, [.Delete ctx resourceName])

/-- The error code of a result, `none` for success. -/
def codeOf {α : Type} (r : Except Error α) : Option Code :=
  match r with
  | .error err => some err.code
  | .ok _ => none

/-- An environment with the delete API on in which every service succeeds: the
caller may write, URIs that start with "/ac/" parse as action-cache names and
every other URI as a CAS download name, and the cache holds no entry (`Delete`
reports NotFound). -/
def permitEnv : FileEnv :=
  { enableCacheDeleteAPI := true
    AttachUserPrefixToContext := fun ctx => .ok ctx
    AuthenticatedUser := fun _ => .ok { groupID := "g1" }
    IsGranted := fun _ _ => .ok true
    urlRequestURI := fun uri => .ok uri
    ParseActionCacheResourceName := fun s =>
      if "ac/".data.isPrefixOf s.data then
        .ok { digest := s, instanceName := "", digestFunction := "SHA256" }
      else .error (InvalidArgumentError "not an action cache resource name")
    ParseDownloadResourceName := fun s =>
      .ok { digest := s, instanceName := "", digestFunction := "SHA256" }
    cacheDelete := fun _ _ => some { code := .NotFound, msg := "no such entry" } }

/-- The same environment for a caller whose session has ended: the capability
check fails with the authenticator's PermissionDenied error. -/
def loggedOutEnv : FileEnv :=
  { permitEnv with
    IsGranted := fun _ _ => .error { code := .PermissionDenied, msg := "User logged out" } }

/-- An environment whose services all succeed with empty answers, for the user
of group "g1". -/
def emptyEnv : Env :=
  { enableCache := false
    AuthenticatedUser := fun _ => .ok { groupID := "g1" }
    AddPermissionsCheckToQuery := fun _ => none
    scanInvocations := fun _ => .ok []
    metricsCollector := none
    LookupInvocationWithCallback := fun _ _ => .ok []
    GetEventLogChunk := fun _ _ _ => .ok ("", "")
    TargetLabelKey := fun g i l => g ++ "/" ++ i ++ "/" ++ l
    ActionLabelKey := fun g i l => g ++ "/" ++ i ++ "/" ++ l
    unmarshalTarget := fun _ => .error (InternalError "bad blob")
    unmarshalActionInto := fun _ a => .ok a
    TargetMatchesSelector := fun _ _ => true
    targetMapTargets := fun _ _ => []
    FillActionFromBuildEvent := fun _ a => some a
    FillActionOutputFilesFromBuildEvent := fun _ a => a }

/-- The same environment for a caller that fails authentication. -/
def anonymousEnv : Env :=
  { emptyEnv with
    AuthenticatedUser := fun _ => .error { code := .Unauthenticated, msg := "no user" } }

/-- The action of target "t" and configuration "c" in invocation "i1" with the
given action id. -/
def cachedAction (actionId : String) : Action :=
  { id := some { invocationId := "i1", targetId := "t", configurationId := "c",
                 actionId := actionId },
    targetLabel := "t", files := [] }

/-- An environment with the API cache on, whose cache holds two serialized
actions under every key, "a1" and "a2"; a serialized action is its action id, and
unmarshalling replaces the content of the message it is given. -/
def cachedEnv : Env :=
  { emptyEnv with
    enableCache := true
    metricsCollector := some
      { GetAll := fun _ => .ok []
        ListRange := fun _ _ _ => .ok ["a1", "a2"] }
    unmarshalActionInto := fun blob _ => .ok (cachedAction blob) }

end Api

namespace HitTrackerClient


/-! ## The map operations -/

theorem mapLookup_mapDelete_self (m : List (groupID × Nat)) (g : groupID) :
    mapLookup (mapDelete m g) g = none := by
  induction m with
  | nil => rfl
  | cons e m ih =>
    obtain ⟨k, p⟩ := e
    by_cases hk : k = g
    · simp [mapDelete, hk, ih]
    · simp [mapDelete, mapLookup, hk, ih]

theorem mapLookup_mapDelete_ne (m : List (groupID × Nat)) (g g' : groupID) (hne : g' ≠ g) :
    mapLookup (mapDelete m g) g' = mapLookup m g' := by
  induction m with
  | nil => rfl
  | cons e m ih =>
    obtain ⟨k, p⟩ := e
    by_cases hk : k = g
    · subst hk
      have hk' : ¬ k = g' := fun h => hne h.symm
      simp [mapDelete, mapLookup, hk', ih]
    · by_cases hk' : k = g'
      · subst hk'
        simp [mapDelete, mapLookup, hk]
      · simp [mapDelete, mapLookup, hk, hk', ih]

theorem mapLookup_mapInsert_self (m : List (groupID × Nat)) (g : groupID) (p : Nat) :
    mapLookup (mapInsert m g p) g = some p := by
  simp [mapInsert, mapLookup]

theorem mapLookup_mapInsert_ne (m : List (groupID × Nat)) (g g' : groupID) (p : Nat)
    (hne : g' ≠ g) : mapLookup (mapInsert m g p) g' = mapLookup m g' := by
  have hk : ¬ g = g' := fun h => hne h.symm
  simp [mapInsert, mapLookup, hk, mapLookup_mapDelete_ne m g g' hne]


/-! ## Heap access -/

theorem heap_get_set (l : List cacheHits) (p q : Nat) (x : cacheHits) :
    (l.set p x)[q]? = if q = p ∧ p < l.length then some x else l[q]? := by
  rw [List.getElem?_set]
  by_cases hpq : p = q
  · subst hpq
    by_cases hlt : p < l.length
    · simp [hlt]
    · simp [hlt, List.getElem?_eq_none (Nat.le_of_not_lt hlt)]
  · have hqp : ¬ q = p := fun e => hpq e.symm
    simp [hpq, hqp]

theorem heap_get_set_of_get (l : List cacheHits) (p q : Nat) (c x : cacheHits)
    (hc : l[p]? = some c) : (l.set p x)[q]? = if q = p then some x else l[q]? := by
  have hlt : p < l.length := by
    obtain ⟨hlt, _⟩ := List.getElem?_eq_some.mp hc
    exact hlt
  rw [heap_get_set]
  simp [hlt]

theorem heap_get_append_old (l : List cacheHits) (x : cacheHits) (q : Nat)
    (hq : q < l.length) : (l ++ [x])[q]? = l[q]? :=
  List.getElem?_append_left hq

theorem heap_get_append_new (l : List cacheHits) (x : cacheHits) :
    (l ++ [x])[l.length]? = some x :=
  List.getElem?_concat_length l x

theorem heap_lt_of_get {l : List cacheHits} {p : Nat} {c : cacheHits}
    (hc : l[p]? = some c) : p < l.length := by
  obtain ⟨hlt, _⟩ := List.getElem?_eq_some.mp hc
  exact hlt

theorem heap_get_of_lt {l : List cacheHits} {p : Nat} (hp : p < l.length) :
    ∃ c, l[p]? = some c :=
  ⟨l[p], List.getElem?_eq_getElem hp⟩

theorem heap_mem_of_get {l : List cacheHits} {p : Nat} {c : cacheHits}
    (hc : l[p]? = some c) : c ∈ l :=
  List.mem_iff_getElem?.mpr ⟨p, hc⟩

/-! ## What `cacheHits.enqueue` does to a cell -/

theorem cacheHits_enqueue_gid (c : cacheHits) (hit : CacheHit) (a u : Headers) :
    (c.enqueue hit a u).1.gid = c.gid := by
  unfold cacheHits.enqueue
  split <;> rfl

theorem cacheHits_enqueue_max (c : cacheHits) (hit : CacheHit) (a u : Headers) :
    (c.enqueue hit a u).1.maxPendingHitsPerGroup = c.maxPendingHitsPerGroup := by
  unfold cacheHits.enqueue
  split <;> rfl

theorem cacheHits_enqueue_accept (c : cacheHits) (hit : CacheHit) (a u : Headers)
    (hlt : (c.hits.length : Int) < c.maxPendingHitsPerGroup) :
    c.enqueue hit a u =
      ({ c with authHeaders := a, usageHeaders := u, hits := c.hits ++ [hit] }, true) := by
  unfold cacheHits.enqueue
  rw [if_neg (by omega)]

theorem cacheHits_enqueue_drop (c : cacheHits) (hit : CacheHit) (a u : Headers)
    (hge : c.maxPendingHitsPerGroup ≤ (c.hits.length : Int)) :
    c.enqueue hit a u = (c, false) := by
  unfold cacheHits.enqueue
  rw [if_pos (by omega)]

theorem cacheHits_enqueue_hits (c : cacheHits) (hit : CacheHit) (a u : Headers) :
    (c.enqueue hit a u).1.hits = if (c.enqueue hit a u).2 then c.hits ++ [hit] else c.hits := by
  unfold cacheHits.enqueue
  split <;> simp

theorem cacheHits_enqueue_true_iff (c : cacheHits) (hit : CacheHit) (a u : Headers) :
    (c.enqueue hit a u).2 = true ↔ (c.hits.length : Int) < c.maxPendingHitsPerGroup := by
  unfold cacheHits.enqueue
  split
  · simp; omega
  · simp; omega

/-! ## The calls, case by case -/

theorem enqueue_eq_of_present (client : HitTrackerServiceClient) (h : HitTrackerFactory)
    (ctx : Context) (hit : CacheHit) (p : Nat) (c : cacheHits)
    (hq : h.quitClosed = false)
    (hl : mapLookup h.hitsByGroup (h.groupID ctx) = some p) (hc : h.heap[p]? = some c) :
    h.enqueue client ctx hit = .ok
      { h with heap := h.heap.set p (c.enqueue hit ctx.authHeaders (originUsageHeaders ctx)).1
               updates := h.updates ++ [(h.groupID ctx,
                 updateLabel (c.enqueue hit ctx.authHeaders (originUsageHeaders ctx)).2)] } := by
  simp [HitTrackerFactory.enqueue, HitTrackerFactory.shouldFlushSynchronously, hq, hl, hc]

theorem enqueue_eq_of_absent (client : HitTrackerServiceClient) (h : HitTrackerFactory)
    (ctx : Context) (hit : CacheHit) (hq : h.quitClosed = false)
    (hl : mapLookup h.hitsByGroup (h.groupID ctx) = none) :
    h.enqueue client ctx hit = .ok
      { h with heap := h.heap ++ [((newCacheHits h.maxPendingHitsPerGroup (h.groupID ctx)).enqueue
                 hit ctx.authHeaders (originUsageHeaders ctx)).1]
               hitsByGroup := mapInsert h.hitsByGroup (h.groupID ctx) h.heap.length
               hitsQueue := h.hitsQueue ++ [h.heap.length]
               updates := h.updates ++ [(h.groupID ctx,
                 updateLabel ((newCacheHits h.maxPendingHitsPerGroup (h.groupID ctx)).enqueue
                   hit ctx.authHeaders (originUsageHeaders ctx)).2)] } := by
  have hset : ∀ x y : cacheHits, (h.heap ++ [x]).set h.heap.length y = h.heap ++ [y] := by
    intro x y
    rw [List.set_append_right _ _ (Nat.le_refl _)]
    simp
  simp [HitTrackerFactory.enqueue, HitTrackerFactory.shouldFlushSynchronously, hq, hl,
    mapLookup_mapInsert_self, hset]

theorem send_eq_of_empty (client : HitTrackerServiceClient) (h : HitTrackerFactory)
    (hq : h.hitsQueue = []) : h.sendTrackRequest client = .ok (h, 0) := by
  simp [HitTrackerFactory.sendTrackRequest, hq]

theorem send_eq_of_whole (client : HitTrackerServiceClient) (h : HitTrackerFactory)
    (p : Nat) (rest : List Nat) (c : cacheHits)
    (hq : h.hitsQueue = p :: rest) (hc : h.heap[p]? = some c)
    (hle : (c.hits.length : Int) ≤ h.maxHitsPerUpdate) :
    h.sendTrackRequest client = .ok
      ({ h with hitsQueue := rest
                hitsByGroup := mapDelete h.hitsByGroup c.gid
                trackCalls := h.trackCalls ++ [trackCallOf client c] },
       c.hits.length) := by
  simp [HitTrackerFactory.sendTrackRequest, hq, hc, hle]

theorem send_eq_of_split (client : HitTrackerServiceClient) (h : HitTrackerFactory)
    (p : Nat) (rest : List Nat) (c : cacheHits)
    (hq : h.hitsQueue = p :: rest) (hc : h.heap[p]? = some c)
    (hgt : h.maxHitsPerUpdate < (c.hits.length : Int)) (hu : 0 ≤ h.maxHitsPerUpdate) :
    h.sendTrackRequest client = .ok
      ({ h with heap := h.heap.set p { c with hits := c.hits.take h.maxHitsPerUpdate.toNat } ++
                  [remainderCacheHits c h.maxHitsPerUpdate.toNat]
                hitsQueue := rest ++ [h.heap.length]
                hitsByGroup := mapInsert h.hitsByGroup c.gid h.heap.length
                trackCalls := h.trackCalls ++
                  [trackCallOf client { c with hits := c.hits.take h.maxHitsPerUpdate.toNat }] },
       h.maxHitsPerUpdate.toNat) := by
  have h1 : ¬ (c.hits.length : Int) ≤ h.maxHitsPerUpdate := by omega
  have h2 : ¬ h.maxHitsPerUpdate < 0 := by omega
  have h3 : min h.maxHitsPerUpdate.toNat c.hits.length = h.maxHitsPerUpdate.toNat := by omega
  simp [HitTrackerFactory.sendTrackRequest, hq, hc, h1, h2, remainderCacheHits, h3]

theorem send_panics_of_negative (client : HitTrackerServiceClient) (h : HitTrackerFactory)
    (p : Nat) (rest : List Nat) (c : cacheHits)
    (hq : h.hitsQueue = p :: rest) (hc : h.heap[p]? = some c)
    (hu : h.maxHitsPerUpdate < 0) :
    h.sendTrackRequest client = .error .panic := by
  have h1 : ¬ (c.hits.length : Int) ≤ h.maxHitsPerUpdate := by omega
  simp [HitTrackerFactory.sendTrackRequest, hq, hc, h1, hu]


/-! ## The invariant is kept by every call -/

theorem gidAt_eq_some {heap : List cacheHits} {p : Nat} {g : groupID} :
    gidAt heap p = some g ↔ ∃ c, heap[p]? = some c ∧ c.gid = g := by
  unfold gidAt
  cases hc : heap[p]? with
  | none => simp
  | some c => simp

theorem gidAt_of_get {heap : List cacheHits} {p : Nat} {c : cacheHits}
    (hc : heap[p]? = some c) : gidAt heap p = some c.gid := by
  simp [gidAt, hc]

theorem gidAt_set_same (heap : List cacheHits) (p q : Nat) (c x : cacheHits)
    (hc : heap[p]? = some c) (hx : x.gid = c.gid) :
    gidAt (heap.set p x) q = gidAt heap q := by
  unfold gidAt
  rw [heap_get_set_of_get heap p q c x hc]
  by_cases hqp : q = p
  · subst hqp
    simp [hc, hx]
  · simp [hqp]

theorem gidAt_append_old (heap : List cacheHits) (x : cacheHits) (q : Nat)
    (hq : q < heap.length) : gidAt (heap ++ [x]) q = gidAt heap q := by
  unfold gidAt
  rw [heap_get_append_old heap x q hq]

theorem gidAt_append_new (heap : List cacheHits) (x : cacheHits) :
    gidAt (heap ++ [x]) heap.length = some x.gid := by
  unfold gidAt
  rw [heap_get_append_new]
  rfl

theorem inv_new (maxPending maxHits : Int) : Inv (newHitTrackerClient maxPending maxHits) where
  queueNodup := List.nodup_nil
  queueValid := by intro p hp; simp [newHitTrackerClient] at hp
  gidInj := by intro p hp; simp [newHitTrackerClient] at hp
  mapQueue := by intro g p; simp [newHitTrackerClient, mapLookup]
  bounded := by intro _ c hc; simp [newHitTrackerClient] at hc
  nonempty := by intro _ p hp; simp [newHitTrackerClient] at hp

theorem inv_enqueue_present (h : HitTrackerFactory)
    (ctx : Context) (hit : CacheHit) (p : Nat) (hinv : Inv h)
    (hl : mapLookup h.hitsByGroup (h.groupID ctx) = some p) :
    ∃ c, h.heap[p]? = some c ∧ c.gid = h.groupID ctx ∧ p ∈ h.hitsQueue ∧
      Inv { h with heap := h.heap.set p (c.enqueue hit ctx.authHeaders (originUsageHeaders ctx)).1
                   updates := h.updates ++ [(h.groupID ctx,
                     updateLabel (c.enqueue hit ctx.authHeaders (originUsageHeaders ctx)).2)] } := by
  obtain ⟨hpq, hg⟩ := (hinv.mapQueue _ _).mp hl
  obtain ⟨c, hc, hcg⟩ := gidAt_eq_some.mp hg
  refine ⟨c, hc, hcg, hpq, ?_⟩
  have hgid := cacheHits_enqueue_gid c hit ctx.authHeaders (originUsageHeaders ctx)
  have hmax := cacheHits_enqueue_max c hit ctx.authHeaders (originUsageHeaders ctx)
  have hhits := cacheHits_enqueue_hits c hit ctx.authHeaders (originUsageHeaders ctx)
  have hacc := cacheHits_enqueue_true_iff c hit ctx.authHeaders (originUsageHeaders ctx)
  generalize c.enqueue hit ctx.authHeaders (originUsageHeaders ctx) = r at hgid hmax hhits hacc
  refine
    { queueNodup := hinv.queueNodup
      queueValid := ?_
      gidInj := ?_
      mapQueue := ?_
      bounded := ?_
      nonempty := ?_ }
  · intro q hq
    simpa using hinv.queueValid q hq
  · intro q1 hq1 q2 hq2
    simp only [gidAt_set_same h.heap p _ c r.1 hc hgid]
    exact hinv.gidInj q1 hq1 q2 hq2
  · intro g q
    simp only [gidAt_set_same h.heap p _ c r.1 hc hgid]
    exact hinv.mapQueue g q
  · intro hp x hx
    have hcb := hinv.bounded hp c (heap_mem_of_get hc)
    rcases List.mem_or_eq_of_mem_set hx with hx | hx
    · exact hinv.bounded hp x hx
    · subst hx
      refine ⟨?_, by rw [hmax]; exact hcb.2⟩
      rw [hhits]
      by_cases hr : r.2 = true
      · have hlt := hacc.mp hr
        simp only [hr, if_true, List.length_append, List.length_singleton]
        rcases hcb.2 with h0 | h0
        · rw [h0] at hlt; omega
        · rw [h0] at hlt; push_cast; omega
      · simp only [hr]
        exact hcb.1
  · intro h1 q hq x hx
    simp only [heap_get_set_of_get h.heap p q c r.1 hc] at hx
    by_cases hqp : q = p
    · subst hqp
      simp only [if_true, Option.some.injEq] at hx
      subst hx
      rw [hhits]
      have := hinv.nonempty h1 q hq c hc
      split <;> simp [this]
    · simp only [hqp, if_false] at hx
      exact hinv.nonempty h1 q hq x hx


theorem inv_enqueue_absent (h : HitTrackerFactory) (ctx : Context) (hit : CacheHit)
    (hinv : Inv h)
    (hl : mapLookup h.hitsByGroup (h.groupID ctx) = none) :
    Inv { h with heap := h.heap ++ [((newCacheHits h.maxPendingHitsPerGroup (h.groupID ctx)).enqueue
                   hit ctx.authHeaders (originUsageHeaders ctx)).1]
                 hitsByGroup := mapInsert h.hitsByGroup (h.groupID ctx) h.heap.length
                 hitsQueue := h.hitsQueue ++ [h.heap.length]
                 updates := h.updates ++ [(h.groupID ctx,
                   updateLabel ((newCacheHits h.maxPendingHitsPerGroup (h.groupID ctx)).enqueue
                     hit ctx.authHeaders (originUsageHeaders ctx)).2)] } := by
  have hgid := cacheHits_enqueue_gid (newCacheHits h.maxPendingHitsPerGroup (h.groupID ctx)) hit
    ctx.authHeaders (originUsageHeaders ctx)
  have hmax := cacheHits_enqueue_max (newCacheHits h.maxPendingHitsPerGroup (h.groupID ctx)) hit
    ctx.authHeaders (originUsageHeaders ctx)
  have hhits := cacheHits_enqueue_hits (newCacheHits h.maxPendingHitsPerGroup (h.groupID ctx)) hit
    ctx.authHeaders (originUsageHeaders ctx)
  have hacc := cacheHits_enqueue_true_iff (newCacheHits h.maxPendingHitsPerGroup (h.groupID ctx))
    hit ctx.authHeaders (originUsageHeaders ctx)
  generalize (newCacheHits h.maxPendingHitsPerGroup (h.groupID ctx)).enqueue hit ctx.authHeaders
    (originUsageHeaders ctx) = r at hgid hmax hhits hacc
  simp only [newCacheHits, List.length_nil, Int.ofNat_zero, Nat.cast_zero] at hgid hmax hhits hacc
  generalize h.groupID ctx = g at *
  have hfresh : h.heap.length ∉ h.hitsQueue := fun hm =>
    Nat.lt_irrefl _ (hinv.queueValid _ hm)
  have hnog : ∀ q ∈ h.hitsQueue, gidAt h.heap q ≠ some g := by
    intro q hq hg
    have := (hinv.mapQueue g q).mpr ⟨hq, hg⟩
    rw [hl] at this
    cases this
  have hold : ∀ q ∈ h.hitsQueue, gidAt (h.heap ++ [r.1]) q = gidAt h.heap q := fun q hq =>
    gidAt_append_old h.heap r.1 q (hinv.queueValid q hq)
  have hnew : gidAt (h.heap ++ [r.1]) h.heap.length = some g := by
    rw [gidAt_append_new, hgid]
  refine
    { queueNodup := ?_
      queueValid := ?_
      gidInj := ?_
      mapQueue := ?_
      bounded := ?_
      nonempty := ?_ }
  · exact List.Nodup.append hinv.queueNodup (List.nodup_singleton _)
      (by simpa using hfresh)
  · intro q hq
    simp only [List.mem_append, List.mem_singleton] at hq
    simp only [List.length_append, List.length_singleton]
    rcases hq with hq | hq
    · have := hinv.queueValid q hq
      omega
    · omega
  · intro q1 hq1 q2 hq2 he
    simp only [List.mem_append, List.mem_singleton] at hq1 hq2
    rcases hq1 with hq1 | hq1 <;> rcases hq2 with hq2 | hq2
    · rw [hold q1 hq1, hold q2 hq2] at he
      exact hinv.gidInj q1 hq1 q2 hq2 he
    · subst hq2
      rw [hold q1 hq1, hnew] at he
      exact absurd he (hnog q1 hq1)
    · subst hq1
      rw [hold q2 hq2, hnew] at he
      exact absurd he.symm (hnog q2 hq2)
    · rw [hq1, hq2]
  · intro g' q
    simp only [List.mem_append, List.mem_singleton]
    by_cases hg : g' = g
    · subst hg
      rw [mapLookup_mapInsert_self]
      constructor
      · intro he
        cases he
        exact ⟨Or.inr rfl, hnew⟩
      · rintro ⟨hq | hq, he⟩
        · rw [hold q hq] at he
          exact absurd he (hnog q hq)
        · rw [hq]
    · rw [mapLookup_mapInsert_ne _ _ _ _ hg, hinv.mapQueue g' q]
      constructor
      · rintro ⟨hq, he⟩
        exact ⟨Or.inl hq, by rw [hold q hq]; exact he⟩
      · rintro ⟨hq | hq, he⟩
        · exact ⟨hq, by rw [← hold q hq]; exact he⟩
        · subst hq
          rw [hnew] at he
          cases he
          exact absurd rfl hg
  · intro hp x hx
    have hp : 0 ≤ h.maxPendingHitsPerGroup := hp
    simp only [List.mem_append, List.mem_singleton] at hx
    rcases hx with hx | hx
    · exact hinv.bounded hp x hx
    · subst hx
      refine ⟨?_, Or.inr hmax⟩
      rw [hhits]
      by_cases hr : r.2 = true
      · have hlt := hacc.mp hr
        simp only [hr, if_true, List.length_append, List.length_singleton, List.nil_append]
        show ((1 : Nat) : Int) ≤ _
        omega
      · simp only [hr]
        simpa using hp
  · intro h1 q hq x hx
    have h1' : 1 ≤ h.maxPendingHitsPerGroup := h1
    simp only [List.mem_append, List.mem_singleton] at hq
    rcases hq with hq | hq
    · rw [heap_get_append_old _ _ _ (hinv.queueValid q hq)] at hx
      exact hinv.nonempty h1 q hq x hx
    · subst hq
      rw [heap_get_append_new] at hx
      cases hx
      rw [hhits]
      have hr : r.2 = true := hacc.mpr (by omega)
      simp [hr]


theorem inv_head (h : HitTrackerFactory) (p : Nat) (rest : List Nat) (hinv : Inv h)
    (hq : h.hitsQueue = p :: rest) :
    p ∉ rest ∧ rest.Nodup ∧ (∃ c, h.heap[p]? = some c) ∧
      ∀ q ∈ rest, gidAt h.heap q ≠ gidAt h.heap p := by
  have hnd := hinv.queueNodup
  rw [hq] at hnd
  have hnot : p ∉ rest := (List.nodup_cons.mp hnd).1
  refine ⟨hnot, (List.nodup_cons.mp hnd).2, ?_, ?_⟩
  · exact heap_get_of_lt (hinv.queueValid p (by rw [hq]; exact List.mem_cons_self _ _))
  · intro q hqr he
    have hqp : q = p := hinv.gidInj q (by rw [hq]; exact List.mem_cons_of_mem _ hqr) p
      (by rw [hq]; exact List.mem_cons_self _ _) he
    exact hnot (hqp ▸ hqr)

theorem inv_send_whole (client : HitTrackerServiceClient) (h : HitTrackerFactory)
    (p : Nat) (rest : List Nat) (c : cacheHits) (hinv : Inv h)
    (hq : h.hitsQueue = p :: rest) (hc : h.heap[p]? = some c) :
    Inv { h with hitsQueue := rest
                 hitsByGroup := mapDelete h.hitsByGroup c.gid
                 trackCalls := h.trackCalls ++ [trackCallOf client c] } := by
  obtain ⟨hnot, hnd, _, hdiff⟩ := inv_head h p rest hinv hq
  have hsub : ∀ q ∈ rest, q ∈ h.hitsQueue := fun q hqr => by
    rw [hq]; exact List.mem_cons_of_mem _ hqr
  have hgp : gidAt h.heap p = some c.gid := gidAt_of_get hc
  refine
    { queueNodup := hnd
      queueValid := fun q hqr => hinv.queueValid q (hsub q hqr)
      gidInj := fun q1 h1 q2 h2 => hinv.gidInj q1 (hsub q1 h1) q2 (hsub q2 h2)
      mapQueue := ?_
      bounded := hinv.bounded
      nonempty := fun h1 q hqr => hinv.nonempty h1 q (hsub q hqr) }
  intro g q
  show mapLookup (mapDelete h.hitsByGroup c.gid) g = some q ↔ q ∈ rest ∧ gidAt h.heap q = some g
  by_cases hg : g = c.gid
  · subst hg
    rw [mapLookup_mapDelete_self]
    constructor
    · intro he; cases he
    · rintro ⟨hqr, he⟩
      exact absurd (he.trans hgp.symm) (hdiff q hqr)
  · rw [mapLookup_mapDelete_ne _ _ _ hg, hinv.mapQueue g q, hq]
    constructor
    · rintro ⟨hm, he⟩
      rcases List.mem_cons.mp hm with hm | hm
      · subst hm
        rw [hgp] at he
        cases he
        exact absurd rfl hg
      · exact ⟨hm, he⟩
    · rintro ⟨hm, he⟩
      exact ⟨List.mem_cons_of_mem _ hm, he⟩

theorem inv_send_split (client : HitTrackerServiceClient) (h : HitTrackerFactory)
    (p : Nat) (rest : List Nat) (c : cacheHits) (n : Nat) (hinv : Inv h)
    (hq : h.hitsQueue = p :: rest) (hc : h.heap[p]? = some c) (hn : n < c.hits.length) :
    Inv { h with heap := h.heap.set p { c with hits := c.hits.take n } ++
                   [remainderCacheHits c n]
                 hitsQueue := rest ++ [h.heap.length]
                 hitsByGroup := mapInsert h.hitsByGroup c.gid h.heap.length
                 trackCalls := h.trackCalls ++
                   [trackCallOf client { c with hits := c.hits.take n }] } := by
  obtain ⟨hnot, hnd, _, hdiff⟩ := inv_head h p rest hinv hq
  have hsub : ∀ q ∈ rest, q ∈ h.hitsQueue := fun q hqr => by
    rw [hq]; exact List.mem_cons_of_mem _ hqr
  have hgp : gidAt h.heap p = some c.gid := gidAt_of_get hc
  have hlen : (h.heap.set p { c with hits := c.hits.take n }).length = h.heap.length :=
    List.length_set _ _ _
  have hold : ∀ q, q < h.heap.length →
      gidAt (h.heap.set p { c with hits := c.hits.take n } ++ [remainderCacheHits c n]) q =
        gidAt h.heap q := by
    intro q hql
    rw [gidAt_append_old _ _ _ (by rw [hlen]; exact hql)]
    exact gidAt_set_same h.heap p q c _ hc rfl
  have hnew : gidAt (h.heap.set p { c with hits := c.hits.take n } ++ [remainderCacheHits c n])
      h.heap.length = some c.gid := by
    have := gidAt_append_new (h.heap.set p { c with hits := c.hits.take n })
      (remainderCacheHits c n)
    rw [hlen] at this
    exact this
  have hfresh : h.heap.length ∉ rest := fun hm =>
    Nat.lt_irrefl _ (hinv.queueValid _ (hsub _ hm))
  have hnog : ∀ q ∈ rest, gidAt h.heap q ≠ some c.gid := fun q hqr he =>
    hdiff q hqr (he.trans hgp.symm)
  have hv : ∀ q ∈ rest, q < h.heap.length := fun q hqr => hinv.queueValid q (hsub q hqr)
  refine
    { queueNodup := ?_
      queueValid := ?_
      gidInj := ?_
      mapQueue := ?_
      bounded := ?_
      nonempty := ?_ }
  · exact List.Nodup.append hnd (List.nodup_singleton _) (by simpa using hfresh)
  · intro q hqm
    simp only [List.mem_append, List.mem_singleton] at hqm
    simp only [List.length_append, List.length_singleton, hlen]
    rcases hqm with hqm | hqm
    · have := hv q hqm
      omega
    · omega
  · intro q1 hq1 q2 hq2 he
    simp only [List.mem_append, List.mem_singleton] at hq1 hq2
    rcases hq1 with hq1 | hq1 <;> rcases hq2 with hq2 | hq2
    · rw [hold q1 (hv q1 hq1), hold q2 (hv q2 hq2)] at he
      exact hinv.gidInj q1 (hsub q1 hq1) q2 (hsub q2 hq2) he
    · subst hq2
      rw [hold q1 (hv q1 hq1), hnew] at he
      exact absurd he (hnog q1 hq1)
    · subst hq1
      rw [hold q2 (hv q2 hq2), hnew] at he
      exact absurd he.symm (hnog q2 hq2)
    · rw [hq1, hq2]
  · intro g q
    simp only [List.mem_append, List.mem_singleton]
    by_cases hg : g = c.gid
    · subst hg
      rw [mapLookup_mapInsert_self]
      constructor
      · intro he
        cases he
        exact ⟨Or.inr rfl, hnew⟩
      · rintro ⟨hqm | hqm, he⟩
        · rw [hold q (hv q hqm)] at he
          exact absurd he (hnog q hqm)
        · rw [hqm]
    · rw [mapLookup_mapInsert_ne _ _ _ _ hg, hinv.mapQueue g q, hq]
      constructor
      · rintro ⟨hm, he⟩
        rcases List.mem_cons.mp hm with hm | hm
        · subst hm
          rw [hgp] at he
          cases he
          exact absurd rfl hg
        · exact ⟨Or.inl hm, by rw [hold q (hv q hm)]; exact he⟩
      · rintro ⟨hm | hm, he⟩
        · exact ⟨List.mem_cons_of_mem _ hm, by rw [← hold q (hv q hm)]; exact he⟩
        · subst hm
          rw [hnew] at he
          cases he
          exact absurd rfl hg
  · intro hp x hx
    have hcb := hinv.bounded hp c (heap_mem_of_get hc)
    simp only [List.mem_append, List.mem_singleton] at hx
    rcases hx with hx | hx
    · rcases List.mem_or_eq_of_mem_set hx with hx | hx
      · exact hinv.bounded hp x hx
      · subst hx
        refine ⟨?_, hcb.2⟩
        have : (c.hits.take n).length ≤ c.hits.length := by
          rw [List.length_take]; omega
        have h1 := hcb.1
        show ((c.hits.take n).length : Int) ≤ h.maxPendingHitsPerGroup
        omega
    · subst hx
      refine ⟨?_, Or.inl rfl⟩
      have : (c.hits.drop n).length ≤ c.hits.length := by
        rw [List.length_drop]; omega
      have h1 := hcb.1
      show ((c.hits.drop n).length : Int) ≤ h.maxPendingHitsPerGroup
      omega
  · intro h1 q hqm x hx
    simp only [List.mem_append, List.mem_singleton] at hqm
    rcases hqm with hqm | hqm
    · rw [heap_get_append_old _ _ _ (by rw [hlen]; exact hv q hqm),
        heap_get_set_of_get h.heap p q c _ hc] at hx
      have hqp : q ≠ p := fun e => hnot (e ▸ hqm)
      simp only [hqp, if_false] at hx
      exact hinv.nonempty h1 q (hsub q hqm) x hx
    · subst hqm
      have := heap_get_append_new (h.heap.set p { c with hits := c.hits.take n })
        (remainderCacheHits c n)
      rw [hlen] at this
      rw [this] at hx
      cases hx
      show c.hits.drop n ≠ []
      intro he
      have := congrArg List.length he
      rw [List.length_drop] at this
      simp at this
      omega


theorem open_new (mp mu : Int) : Open (newHitTrackerClient mp mu) mp mu :=
  ⟨inv_new mp mu, rfl, rfl, rfl⟩

theorem enqueue_ok (client : HitTrackerServiceClient) (h : HitTrackerFactory) (mp mu : Int)
    (ctx : Context) (hit : CacheHit) (ho : Open h mp mu) :
    ∃ h1, h.enqueue client ctx hit = .ok h1 ∧ Open h1 mp mu ∧
      h1.trackCalls = h.trackCalls := by
  obtain ⟨hinv, hq, hmp, hmu⟩ := ho
  cases hl : mapLookup h.hitsByGroup (h.groupID ctx) with
  | some p =>
    obtain ⟨c, hc, _, _, hinv1⟩ := inv_enqueue_present h ctx hit p hinv hl
    exact ⟨_, enqueue_eq_of_present client h ctx hit p c hq hl hc, ⟨hinv1, hq, hmp, hmu⟩, rfl⟩
  | none =>
    exact ⟨_, enqueue_eq_of_absent client h ctx hit hq hl,
      ⟨inv_enqueue_absent h ctx hit hinv hl, hq, hmp, hmu⟩, rfl⟩

theorem send_ok (client : HitTrackerServiceClient) (h : HitTrackerFactory) (mp mu : Int)
    (ho : Open h mp mu) (hu : 0 ≤ mu) :
    ∃ h1 k, h.sendTrackRequest client = .ok (h1, k) ∧ Open h1 mp mu := by
  obtain ⟨hinv, hq, hmp, hmu⟩ := ho
  cases hqu : h.hitsQueue with
  | nil => exact ⟨h, 0, send_eq_of_empty client h hqu, hinv, hq, hmp, hmu⟩
  | cons p rest =>
    obtain ⟨_, _, ⟨c, hc⟩, _⟩ := inv_head h p rest hinv hqu
    by_cases hle : (c.hits.length : Int) ≤ h.maxHitsPerUpdate
    · exact ⟨_, _, send_eq_of_whole client h p rest c hqu hc hle,
        inv_send_whole client h p rest c hinv hqu hc, hq, hmp, hmu⟩
    · have hgt : h.maxHitsPerUpdate < (c.hits.length : Int) := by omega
      have hu0 : 0 ≤ h.maxHitsPerUpdate := hmu ▸ hu
      exact ⟨_, _, send_eq_of_split client h p rest c hqu hc hgt hu0,
        inv_send_split client h p rest c _ hinv hqu hc (by omega), hq, hmp, hmu⟩

theorem step_ok (client : HitTrackerServiceClient) (h : HitTrackerFactory) (mp mu : Int)
    (op : Op) (ho : Open h mp mu) (hu : 0 ≤ mu) :
    ∃ h1, step client h op = .ok h1 ∧ Open h1 mp mu := by
  cases op with
  | enqueue ctx hit =>
    obtain ⟨h1, he, ho1, _⟩ := enqueue_ok client h mp mu ctx hit ho
    exact ⟨h1, he, ho1⟩
  | sendTrackRequest =>
    obtain ⟨h1, k, he, ho1⟩ := send_ok client h mp mu ho hu
    exact ⟨h1, by simp [step, he], ho1⟩

theorem run_ok (client : HitTrackerServiceClient) (ops : List Op) (h : HitTrackerFactory)
    (mp mu : Int) (ho : Open h mp mu) (hu : 0 ≤ mu) :
    ∃ h1, run client ops h = .ok h1 ∧ Open h1 mp mu := by
  induction ops generalizing h with
  | nil => exact ⟨h, rfl, ho⟩
  | cons op ops ih =>
    obtain ⟨h1, he, ho1⟩ := step_ok client h mp mu op ho hu
    obtain ⟨h2, hr, ho2⟩ := ih h1 ho1
    exact ⟨h2, by simp [run, he, hr], ho2⟩

theorem run_append (client : HitTrackerServiceClient) (ops1 ops2 : List Op)
    (h h1 : HitTrackerFactory) (hr : run client ops1 h = .ok h1) :
    run client (ops1 ++ ops2) h = run client ops2 h1 := by
  induction ops1 generalizing h with
  | nil =>
    simp only [run, Except.ok.injEq] at hr
    subst hr
    rfl
  | cons op ops ih =>
    simp only [run, List.cons_append] at hr ⊢
    cases hs : step client h op with
    | error e => simp [hs] at hr
    | ok h2 =>
      simp only [hs] at hr ⊢
      exact ih h2 hr

theorem send_open_of_ok (client : HitTrackerServiceClient) (h h1 : HitTrackerFactory)
    (mp mu : Int) (k : Nat) (ho : Open h mp mu)
    (hs : h.sendTrackRequest client = .ok (h1, k)) : Open h1 mp mu := by
  by_cases hu : 0 ≤ mu
  · obtain ⟨h2, k2, he, ho2⟩ := send_ok client h mp mu ho hu
    rw [he] at hs
    cases hs
    exact ho2
  · obtain ⟨hinv, hq, hmp, hmu⟩ := ho
    cases hqu : h.hitsQueue with
    | nil =>
      rw [send_eq_of_empty client h hqu] at hs
      cases hs
      exact ⟨hinv, hq, hmp, hmu⟩
    | cons p rest =>
      obtain ⟨_, _, ⟨c, hc⟩, _⟩ := inv_head h p rest hinv hqu
      rw [send_panics_of_negative client h p rest c hqu hc (by omega)] at hs
      cases hs

theorem step_open_of_ok (client : HitTrackerServiceClient) (h h1 : HitTrackerFactory)
    (mp mu : Int) (op : Op) (ho : Open h mp mu) (hs : step client h op = .ok h1) :
    Open h1 mp mu := by
  cases op with
  | enqueue ctx hit =>
    obtain ⟨h2, he, ho2, _⟩ := enqueue_ok client h mp mu ctx hit ho
    simp only [step] at hs
    rw [he] at hs
    cases hs
    exact ho2
  | sendTrackRequest =>
    simp only [step] at hs
    cases he : h.sendTrackRequest client with
    | error e => simp [he] at hs
    | ok r =>
      obtain ⟨h2, k⟩ := r
      simp only [he, Except.ok.injEq] at hs
      subst hs
      exact send_open_of_ok client h h2 mp mu k ho he


/-! ## Provenance of the hits -/

theorem enqueuedUnder_mono (f f1 : HitTrackerFactory) (ops : List Op) (op : Op) (g : groupID)
    (xs : List CacheHit) (hx : EnqueuedUnder f ops g xs) :
    EnqueuedUnder f1 (ops ++ [op]) g xs := by
  intro x hxm
  obtain ⟨ctx, hm, hg⟩ := hx x hxm
  exact ⟨ctx, List.mem_append_left _ hm, hg⟩

theorem enqueuedUnder_sub (f : HitTrackerFactory) (ops : List Op) (g : groupID)
    (xs ys : List CacheHit) (hsub : ∀ x ∈ ys, x ∈ xs) (hx : EnqueuedUnder f ops g xs) :
    EnqueuedUnder f ops g ys :=
  fun x hxm => hx x (hsub x hxm)

theorem enqueuedUnder_cell_enqueue (f f1 : HitTrackerFactory) (ops : List Op) (ctx : Context)
    (hit : CacheHit) (c : cacheHits) (a u : Headers) (hg : c.gid = f.groupID ctx)
    (hx : EnqueuedUnder f ops c.gid c.hits) :
    EnqueuedUnder f1 (ops ++ [.enqueue ctx hit]) (c.enqueue hit a u).1.gid
      (c.enqueue hit a u).1.hits := by
  rw [cacheHits_enqueue_gid, cacheHits_enqueue_hits]
  intro x hxm
  have hcases : x ∈ c.hits ∨ x = hit := by
    split at hxm
    · simpa using hxm
    · exact Or.inl hxm
  rcases hcases with hold | hnew
  · obtain ⟨ctx1, hm, hg1⟩ := hx x hold
    exact ⟨ctx1, List.mem_append_left _ hm, hg1⟩
  · subst hnew
    exact ⟨ctx, by simp, hg.symm⟩

theorem hist_enqueue (client : HitTrackerServiceClient) (ops : List Op)
    (h h1 : HitTrackerFactory) (mp mu : Int) (ctx : Context) (hit : CacheHit)
    (ho : Open h mp mu) (hh : Hist ops h) (he : h.enqueue client ctx hit = .ok h1) :
    Hist (ops ++ [.enqueue ctx hit]) h1 := by
  obtain ⟨hinv, hq, _, _⟩ := ho
  obtain ⟨hcells, hcalls⟩ := hh
  cases hl : mapLookup h.hitsByGroup (h.groupID ctx) with
  | some p =>
    obtain ⟨c, hc, hcg, _, _⟩ := inv_enqueue_present h ctx hit p hinv hl
    rw [enqueue_eq_of_present client h ctx hit p c hq hl hc] at he
    cases he
    constructor
    · intro x hx
      rcases List.mem_or_eq_of_mem_set hx with hx | hx
      · exact enqueuedUnder_mono h _ ops _ _ _ (hcells x hx)
      · subst hx
        exact enqueuedUnder_cell_enqueue h _ ops ctx hit c _ _ hcg
          (hcells c (heap_mem_of_get hc))
    · intro r hr hcaller
      exact enqueuedUnder_mono h _ ops _ _ _ (hcalls r hr hcaller)
  | none =>
    rw [enqueue_eq_of_absent client h ctx hit hq hl] at he
    cases he
    constructor
    · intro x hx
      simp only [List.mem_append, List.mem_singleton] at hx
      rcases hx with hx | hx
      · exact enqueuedUnder_mono h _ ops _ _ _ (hcells x hx)
      · subst hx
        refine enqueuedUnder_cell_enqueue h _ ops ctx hit
          (newCacheHits h.maxPendingHitsPerGroup (h.groupID ctx)) _ _ rfl ?_
        intro y hy
        simp [newCacheHits] at hy
    · intro r hr hcaller
      exact enqueuedUnder_mono h _ ops _ _ _ (hcalls r hr hcaller)

theorem hist_send (client : HitTrackerServiceClient) (ops : List Op)
    (h h1 : HitTrackerFactory) (mp mu : Int) (k : Nat)
    (ho : Open h mp mu) (hh : Hist ops h) (he : h.sendTrackRequest client = .ok (h1, k)) :
    Hist (ops ++ [.sendTrackRequest]) h1 := by
  obtain ⟨hinv, hq, _, _⟩ := ho
  obtain ⟨hcells, hcalls⟩ := hh
  cases hqu : h.hitsQueue with
  | nil =>
    rw [send_eq_of_empty client h hqu] at he
    cases he
    exact ⟨fun c hc => enqueuedUnder_mono h _ ops _ _ _ (hcells c hc),
      fun r hr hcaller => enqueuedUnder_mono h _ ops _ _ _ (hcalls r hr hcaller)⟩
  | cons p rest =>
    obtain ⟨_, _, ⟨c, hc⟩, _⟩ := inv_head h p rest hinv hqu
    have hcell := hcells c (heap_mem_of_get hc)
    by_cases hle : (c.hits.length : Int) ≤ h.maxHitsPerUpdate
    · rw [send_eq_of_whole client h p rest c hqu hc hle] at he
      cases he
      constructor
      · exact fun x hx => enqueuedUnder_mono h _ ops _ _ _ (hcells x hx)
      · intro r hr hcaller
        simp only [List.mem_append, List.mem_singleton] at hr
        rcases hr with hr | hr
        · exact enqueuedUnder_mono h _ ops _ _ _ (hcalls r hr hcaller)
        · subst hr
          exact enqueuedUnder_mono h _ ops _ _ _ hcell
    · by_cases hu : h.maxHitsPerUpdate < 0
      · rw [send_panics_of_negative client h p rest c hqu hc hu] at he
        cases he
      · rw [send_eq_of_split client h p rest c hqu hc (by omega) (by omega)] at he
        cases he
        have htake : EnqueuedUnder h ops c.gid (c.hits.take h.maxHitsPerUpdate.toNat) :=
          enqueuedUnder_sub h ops _ _ _ (fun x hx => List.mem_of_mem_take hx) hcell
        have hdrop : EnqueuedUnder h ops c.gid (c.hits.drop h.maxHitsPerUpdate.toNat) :=
          enqueuedUnder_sub h ops _ _ _ (fun x hx => List.mem_of_mem_drop hx) hcell
        constructor
        · intro x hx
          simp only [List.mem_append, List.mem_singleton] at hx
          rcases hx with hx | hx
          · rcases List.mem_or_eq_of_mem_set hx with hx | hx
            · exact enqueuedUnder_mono h _ ops _ _ _ (hcells x hx)
            · subst hx
              exact enqueuedUnder_mono h _ ops _ _ _ htake
          · subst hx
            exact enqueuedUnder_mono h _ ops _ _ _ hdrop
        · intro r hr hcaller
          simp only [List.mem_append, List.mem_singleton] at hr
          rcases hr with hr | hr
          · exact enqueuedUnder_mono h _ ops _ _ _ (hcalls r hr hcaller)
          · subst hr
            exact enqueuedUnder_mono h _ ops _ _ _ htake

theorem hist_run (client : HitTrackerServiceClient) (ops pre : List Op)
    (h h1 : HitTrackerFactory) (mp mu : Int)
    (ho : Open h mp mu) (hh : Hist pre h) (hr : run client ops h = .ok h1) :
    Hist (pre ++ ops) h1 := by
  induction ops generalizing h pre with
  | nil =>
    simp only [run, Except.ok.injEq] at hr
    subst hr
    simpa using hh
  | cons op ops ih =>
    simp only [run] at hr
    cases hs : step client h op with
    | error e => simp [hs] at hr
    | ok h2 =>
      simp only [hs] at hr
      have ho2 := step_open_of_ok client h h2 mp mu op ho hs
      have hh2 : Hist (pre ++ [op]) h2 := by
        cases op with
        | enqueue ctx hit => exact hist_enqueue client pre h h2 mp mu ctx hit ho hh hs
        | sendTrackRequest =>
          simp only [step] at hs
          cases he : h.sendTrackRequest client with
          | error e => simp [he] at hs
          | ok r =>
            obtain ⟨h3, k⟩ := r
            simp only [he, Except.ok.injEq] at hs
            subst hs
            exact hist_send client pre h h3 mp mu k ho hh he
      have := ih (pre ++ [op]) h2 ho2 hh2 hr
      simpa using this


/-! ## Consecutive flushes -/

theorem take_eq_self_of_le (c : cacheHits) (n : Nat) (hle : c.hits.length ≤ n) :
    ({ c with hits := c.hits.take n } : cacheHits) = c := by
  cases c with
  | mk m g a u hits =>
    simp only [cacheHits.mk.injEq, true_and]
    exact List.take_of_length_le hle

/-- What one `sendTrackRequest` does on a queue `p :: rest` of valid pointers: it
sends the first `maxHitsPerUpdate` hits of the batch at `p`, keeps `rest` at the
front of the queue in order, and leaves the group of every existing batch as it
was. -/
theorem send_summary (client : HitTrackerServiceClient) (h : HitTrackerFactory)
    (p : Nat) (rest : List Nat) (hu : 0 ≤ h.maxHitsPerUpdate)
    (hq : h.hitsQueue = p :: rest) (hv : ∀ q ∈ h.hitsQueue, q < h.heap.length) :
    ∃ h1 k c extra, h.heap[p]? = some c ∧ h.sendTrackRequest client = .ok (h1, k) ∧
      h1.hitsQueue = rest ++ extra ∧
      h1.trackCalls = h.trackCalls ++
        [trackCallOf client { c with hits := c.hits.take h.maxHitsPerUpdate.toNat }] ∧
      h1.maxHitsPerUpdate = h.maxHitsPerUpdate ∧
      (∀ q ∈ h1.hitsQueue, q < h1.heap.length) ∧
      (∀ q, q < h.heap.length → gidAt h1.heap q = gidAt h.heap q) := by
  obtain ⟨c, hc⟩ := heap_get_of_lt (hv p (by rw [hq]; exact List.mem_cons_self _ _))
  have hvr : ∀ q ∈ rest, q < h.heap.length := fun q hqr =>
    hv q (by rw [hq]; exact List.mem_cons_of_mem _ hqr)
  by_cases hle : (c.hits.length : Int) ≤ h.maxHitsPerUpdate
  · refine ⟨_, _, c, [], hc, send_eq_of_whole client h p rest c hq hc hle, by simp, ?_, rfl,
      hvr, fun q _ => rfl⟩
    rw [take_eq_self_of_le c _ (by omega)]
  · have hgt : h.maxHitsPerUpdate < (c.hits.length : Int) := by omega
    have hlen : (h.heap.set p { c with hits := c.hits.take h.maxHitsPerUpdate.toNat }).length =
        h.heap.length := List.length_set _ _ _
    refine ⟨_, _, c, [h.heap.length], hc, send_eq_of_split client h p rest c hq hc hgt hu,
      rfl, rfl, rfl, ?_, ?_⟩
    · intro q hqm
      simp only [List.mem_append, List.mem_singleton] at hqm
      simp only [List.length_append, List.length_singleton, hlen]
      rcases hqm with hqm | hqm
      · have := hvr q hqm
        omega
      · omega
    · intro q hql
      show gidAt (h.heap.set p { c with hits := c.hits.take h.maxHitsPerUpdate.toNat } ++
        [remainderCacheHits c h.maxHitsPerUpdate.toNat]) q = gidAt h.heap q
      rw [gidAt_append_old _ _ _ (by rw [hlen]; exact hql)]
      exact gidAt_set_same h.heap p q c _ hc rfl

theorem sends_follow_queue (client : HitTrackerServiceClient) (q1 : List Nat) :
    ∀ (h : HitTrackerFactory) (q2 : List Nat), 0 ≤ h.maxHitsPerUpdate →
      h.hitsQueue = q1 ++ q2 → (∀ q ∈ h.hitsQueue, q < h.heap.length) →
      ∃ h1 calls, run client (List.replicate q1.length .sendTrackRequest) h = .ok h1 ∧
        h1.trackCalls = h.trackCalls ++ calls ∧
        calls.map (fun r => some r.gid) = q1.map (gidAt h.heap) ∧
        (∀ r ∈ calls, r.caller = .sendTrackRequest) := by
  induction q1 with
  | nil =>
    intro h q2 _ _ _
    exact ⟨h, [], rfl, by simp, rfl, by simp⟩
  | cons p q1 ih =>
    intro h q2 hu hq hv
    obtain ⟨h1, k, c, extra, hc, hs, hq1, hcalls, hmu, hv1, hgid⟩ :=
      send_summary client h p (q1 ++ q2) hu hq hv
    obtain ⟨h2, calls, hr, hcalls2, hmap, hcaller⟩ :=
      ih h1 (q2 ++ extra) (hmu ▸ hu) (by rw [hq1, List.append_assoc]) hv1
    refine ⟨h2, trackCallOf client { c with hits := c.hits.take h.maxHitsPerUpdate.toNat } ::
      calls, ?_, ?_, ?_, ?_⟩
    · simp only [List.length_cons, List.replicate_succ, run, step, hs]
      exact hr
    · rw [hcalls2, hcalls]
      simp
    · simp only [List.map_cons, hmap]
      congr 1
      · exact (gidAt_of_get hc).symm
      · apply List.map_congr_left
        intro q hqm
        exact hgid q (hv q (by rw [hq]; simp [hqm]))
    · intro r hr
      rcases List.mem_cons.mp hr with hr | hr
      · subst hr; rfl
      · exact hcaller r hr


/-! ## Enqueues for one group, no flush in between -/

theorem run_snoc (client : HitTrackerServiceClient) (ops : List Op) (op : Op)
    (h h1 : HitTrackerFactory) (hr : run client ops h = .ok h1) :
    run client (ops ++ [op]) h = step client h1 op := by
  rw [run_append client ops [op] h h1 hr]
  simp only [run]
  cases step client h1 op <;> rfl

theorem enqueueOps_snoc (es : List (Context × CacheHit)) (e : Context × CacheHit) :
    enqueueOps (es ++ [e]) = enqueueOps es ++ [Op.enqueue e.1 e.2] := by
  simp [enqueueOps]

/-- The state after enqueueing `es`, all for group `g`, on an empty factory with
cap `c`: nothing was sent, the counter was incremented as "enqueued" for the
first `min n c` calls and as dropped for the others, and (after at least one
call) the heap is one batch of `g` that holds the first `min n c` hits. -/
theorem one_group_state (client : HitTrackerServiceClient) (c u : Int) (hc : 0 ≤ c)
    (g : groupID) (es : List (Context × CacheHit))
    (hg : ∀ e ∈ es, (newHitTrackerClient c u).groupID e.1 = g) :
    ∃ h, run client (enqueueOps es) (newHitTrackerClient c u) = .ok h ∧
      h.quitClosed = false ∧ h.maxHitsPerUpdate = u ∧ h.maxPendingHitsPerGroup = c ∧
      h.trackCalls = [] ∧
      h.updates = List.replicate (min es.length c.toNat) (g, "enqueued") ++
        List.replicate (es.length - min es.length c.toNat) (g, "dropped_too_many_updates") ∧
      (es = [] → h = newHitTrackerClient c u) ∧
      (es ≠ [] → h.hitsQueue = [0] ∧ h.hitsByGroup = [(g, 0)] ∧
        ∃ b, h.heap = [b] ∧ b.gid = g ∧ b.maxPendingHitsPerGroup = c ∧
          b.hits = (es.map (fun e => e.2)).take (min es.length c.toNat)) := by
  induction es using List.reverseRecOn with
  | nil =>
    exact ⟨_, rfl, rfl, rfl, rfl, rfl, by simp [newHitTrackerClient], fun _ => rfl,
      fun hne => absurd rfl hne⟩
  | append_singleton es e ih =>
    obtain ⟨h, hr, hq, hmu, hmp, hcalls, hupd, hnil, hcons⟩ :=
      ih (fun x hx => hg x (List.mem_append_left _ hx))
    have hge : h.groupID e.1 = g := hg e (by simp)
    rw [enqueueOps_snoc, run_snoc client _ _ _ h hr]
    simp only [step]
    by_cases hes : es = []
    · subst hes
      have hh := hnil rfl
      subst hh
      have hl : mapLookup (newHitTrackerClient c u).hitsByGroup
          ((newHitTrackerClient c u).groupID e.1) = none := rfl
      have hmp0 : (newHitTrackerClient c u).maxPendingHitsPerGroup = c := rfl
      rw [enqueue_eq_of_absent client _ e.1 e.2 rfl hl, hge, hmp0]
      by_cases hpos : 0 < c
      · have hacc := cacheHits_enqueue_accept (newCacheHits c g) e.2 e.1.authHeaders
          (originUsageHeaders e.1) (by simpa [newCacheHits] using hpos)
        have hmin : min 1 c.toNat = 1 := by omega
        refine ⟨_, rfl, rfl, rfl, rfl, rfl, ?_, by simp, fun _ => ⟨rfl, rfl, _, rfl, ?_, ?_, ?_⟩⟩
        · rw [hacc]
          simp [newHitTrackerClient, updateLabel, hmin]
        · exact cacheHits_enqueue_gid _ _ _ _
        · exact cacheHits_enqueue_max _ _ _ _
        · rw [hacc]
          simp [newCacheHits, hmin]
      · have hdrop := cacheHits_enqueue_drop (newCacheHits c g) e.2 e.1.authHeaders
          (originUsageHeaders e.1) (by simp only [newCacheHits, List.length_nil]; omega)
        have hmin : min 1 c.toNat = 0 := by omega
        refine ⟨_, rfl, rfl, rfl, rfl, rfl, ?_, by simp, fun _ => ⟨rfl, rfl, _, rfl, ?_, ?_, ?_⟩⟩
        · rw [hdrop]
          simp [newHitTrackerClient, updateLabel, hmin]
        · exact cacheHits_enqueue_gid _ _ _ _
        · exact cacheHits_enqueue_max _ _ _ _
        · rw [hdrop]
          simp [newCacheHits, hmin]
    · obtain ⟨hqu, hmap, b, hheap, hbg, hbm, hbh⟩ := hcons hes
      have hl : mapLookup h.hitsByGroup (h.groupID e.1) = some 0 := by
        rw [hmap, hge]
        simp [mapLookup]
      have hb : h.heap[0]? = some b := by rw [hheap]; rfl
      rw [enqueue_eq_of_present client h e.1 e.2 0 b hq hl hb, hge]
      have hblen : b.hits.length = min es.length c.toNat := by
        rw [hbh, List.length_take, List.length_map]
        omega
      have hne : es ++ [e] ≠ [] := by simp
      by_cases hlt : es.length < c.toNat
      · have hacc := cacheHits_enqueue_accept b e.2 e.1.authHeaders (originUsageHeaders e.1)
          (by rw [hbm, hblen]; omega)
        have hmin0 : min es.length c.toNat = es.length := by omega
        have hmin1 : min (es.length + 1) c.toNat = es.length + 1 := by omega
        refine ⟨_, rfl, hq, hmu, hmp, hcalls, ?_, fun he => absurd he hne,
          fun _ => ⟨hqu, hmap, (b.enqueue e.2 e.1.authHeaders (originUsageHeaders e.1)).1,
            ?_, ?_, ?_, ?_⟩⟩
        · simp only [hupd, hacc, updateLabel, if_true, List.length_append, List.length_singleton,
            hmin0, hmin1, Nat.sub_self, List.replicate_zero, List.append_nil]
          rw [List.replicate_succ']
        · simp only [hheap]
          rfl
        · rw [cacheHits_enqueue_gid, hbg]
        · rw [cacheHits_enqueue_max, hbm]
        · simp only [hacc, hbh, List.length_append, List.length_singleton, hmin0, hmin1,
            List.map_append, List.map_cons, List.map_nil]
          rw [List.take_of_length_le (by simp), List.take_of_length_le (by simp)]
      · have hdrop := cacheHits_enqueue_drop b e.2 e.1.authHeaders (originUsageHeaders e.1)
          (by rw [hbm, hblen]; omega)
        have hmin0 : min es.length c.toNat = c.toNat := by omega
        have hmin1 : min (es.length + 1) c.toNat = c.toNat := by omega
        refine ⟨_, rfl, hq, hmu, hmp, hcalls, ?_, fun he => absurd he hne,
          fun _ => ⟨hqu, hmap, (b.enqueue e.2 e.1.authHeaders (originUsageHeaders e.1)).1,
            ?_, ?_, ?_, ?_⟩⟩
        · simp only [hupd, hdrop, updateLabel, List.length_append, List.length_singleton,
            hmin0, hmin1]
          have : es.length + 1 - c.toNat = (es.length - c.toNat) + 1 := by omega
          rw [this, List.replicate_succ', List.append_assoc]
          rfl
        · simp only [hheap]
          rfl
        · rw [cacheHits_enqueue_gid, hbg]
        · rw [cacheHits_enqueue_max, hbm]
        · simp only [hdrop, hbh, List.length_append, List.length_singleton, hmin0, hmin1,
            List.map_append, List.map_cons, List.map_nil]
          rw [List.take_append_of_le_length (by simp; omega)]


/-! ## Enqueues for any groups, no flush in between -/

theorem pendingOf_of_lookup (h : HitTrackerFactory) (g : groupID) (p : Nat) (c : cacheHits)
    (hl : mapLookup h.hitsByGroup g = some p) (hc : h.heap[p]? = some c) :
    pendingOf h g = c.hits := by
  simp [pendingOf, hl, hc]

theorem pendingOf_of_none (h : HitTrackerFactory) (g : groupID)
    (hl : mapLookup h.hitsByGroup g = none) : pendingOf h g = [] := by
  simp [pendingOf, hl]

theorem take_snoc (xs : List CacheHit) (x : CacheHit) (m : Nat) :
    (xs ++ [x]).take m = if (xs.take m).length < m then xs.take m ++ [x] else xs.take m := by
  by_cases hlt : xs.length < m
  · have h1 : xs.take m = xs := List.take_of_length_le (by omega)
    have h2 : (xs ++ [x]).take m = xs ++ [x] := List.take_of_length_le (by simp; omega)
    rw [h1, h2, if_pos hlt]
  · have h1 : (xs.take m).length = m := by rw [List.length_take]; omega
    rw [h1, if_neg (Nat.lt_irrefl m), List.take_append_of_le_length (by omega)]

theorem hitsFor_snoc (f : HitTrackerFactory) (g : groupID) (es : List (Context × CacheHit))
    (e : Context × CacheHit) :
    hitsFor f g (es ++ [e]) = hitsFor f g es ++ (if f.groupID e.1 = g then [e.2] else []) := by
  unfold hitsFor
  rw [List.filter_append, List.map_append]
  by_cases hg : f.groupID e.1 = g
  · simp [List.filter, hg]
  · simp [List.filter, hg]

theorem lookup_ne_of_gid_ne (h : HitTrackerFactory) (hinv : Inv h) (g g0 : groupID) (p q : Nat)
    (hne : g ≠ g0) (hl0 : mapLookup h.hitsByGroup g0 = some p)
    (hl : mapLookup h.hitsByGroup g = some q) : q ≠ p := by
  intro e
  subst e
  have h1 := ((hinv.mapQueue g0 q).mp hl0).2
  have h2 := ((hinv.mapQueue g q).mp hl).2
  rw [h1] at h2
  cases h2
  exact hne rfl

/-- The state after enqueueing `es` (any groups) on an empty factory with a
positive cap: nothing was sent, every queued batch carries the factory's cap, and
the batch of each group holds the first `maxPendingHitsPerGroup` hits enqueued
under that group, in arrival order. -/
theorem enqueues_state (client : HitTrackerServiceClient) (mp mu : Int) (hp : 1 ≤ mp)
    (es : List (Context × CacheHit)) :
    ∃ h, run client (enqueueOps es) (newHitTrackerClient mp mu) = .ok h ∧
      Open h mp mu ∧ h.trackCalls = [] ∧
      (∀ p ∈ h.hitsQueue, ∀ c, h.heap[p]? = some c → c.maxPendingHitsPerGroup = mp) ∧
      ∀ g, pendingOf h g = (hitsFor (newHitTrackerClient mp mu) g es).take mp.toNat := by
  induction es using List.reverseRecOn with
  | nil =>
    refine ⟨_, rfl, open_new mp mu, rfl, ?_, ?_⟩
    · intro p hpq
      simp [newHitTrackerClient] at hpq
    · intro g
      simp [pendingOf, newHitTrackerClient, mapLookup, hitsFor]
  | append_singleton es e ih =>
    obtain ⟨h, hr, ho, hcalls, hcap, hpend⟩ := ih
    obtain ⟨hinv, hq, hmp, hmu⟩ := ho
    rw [enqueueOps_snoc, run_snoc client _ _ _ h hr]
    simp only [step]
    have hgf : ∀ g, hitsFor (newHitTrackerClient mp mu) g (es ++ [e]) =
        hitsFor (newHitTrackerClient mp mu) g es ++
          (if h.groupID e.1 = g then [e.2] else []) :=
      fun g => hitsFor_snoc _ g es e
    cases hl : mapLookup h.hitsByGroup (h.groupID e.1) with
    | some p =>
      obtain ⟨c, hc, hcg, hpq, hinv1⟩ := inv_enqueue_present h e.1 e.2 p hinv hl
      have hcm : c.maxPendingHitsPerGroup = mp := hcap p hpq c hc
      have hch : c.hits = (hitsFor (newHitTrackerClient mp mu) (h.groupID e.1) es).take mp.toNat := by
        rw [← hpend, pendingOf_of_lookup h _ p c hl hc]
      have hhits := cacheHits_enqueue_hits c e.2 e.1.authHeaders (originUsageHeaders e.1)
      have hacc := cacheHits_enqueue_true_iff c e.2 e.1.authHeaders (originUsageHeaders e.1)
      have hmax := cacheHits_enqueue_max c e.2 e.1.authHeaders (originUsageHeaders e.1)
      refine ⟨_, enqueue_eq_of_present client h e.1 e.2 p c hq hl hc, ⟨hinv1, hq, hmp, hmu⟩,
        hcalls, ?_, ?_⟩
      · intro q hqm d hd
        have hd1 : (h.heap.set p (c.enqueue e.2 e.1.authHeaders (originUsageHeaders e.1)).1)[q]? =
            some d := hd
        rw [heap_get_set_of_get h.heap p q c _ hc] at hd1
        by_cases hqp : q = p
        · simp only [hqp, if_true, Option.some.injEq] at hd1
          rw [← hd1, hmax, hcm]
        · simp only [hqp, if_false] at hd1
          exact hcap q hqm d hd1
      · intro g
        rw [hgf g]
        by_cases hg : h.groupID e.1 = g
        · subst hg
          have hget : (h.heap.set p (c.enqueue e.2 e.1.authHeaders (originUsageHeaders e.1)).1)[p]? =
              some (c.enqueue e.2 e.1.authHeaders (originUsageHeaders e.1)).1 := by
            rw [heap_get_set_of_get h.heap p p c _ hc]
            simp
          rw [if_pos rfl, take_snoc, ← hch]
          unfold pendingOf
          simp only [hl, hget]
          rw [hhits]
          by_cases hlt : c.hits.length < mp.toNat
          · have : (c.enqueue e.2 e.1.authHeaders (originUsageHeaders e.1)).2 = true :=
              hacc.mpr (by rw [hcm]; omega)
            simp [this, hlt]
          · have : ¬ (c.enqueue e.2 e.1.authHeaders (originUsageHeaders e.1)).2 = true := by
              rw [hacc, hcm]; omega
            simp [this, hlt]
        · rw [if_neg hg, List.append_nil, ← hpend g]
          cases hlg : mapLookup h.hitsByGroup g with
          | none =>
            unfold pendingOf
            simp only [hlg]
          | some q =>
            have hqp : q ≠ p := lookup_ne_of_gid_ne h hinv g _ p q (fun e => hg e.symm) hl hlg
            unfold pendingOf
            simp only [hlg]
            rw [heap_get_set_of_get h.heap p q c _ hc, if_neg hqp]
    | none =>
      have hinv1 := inv_enqueue_absent h e.1 e.2 hinv hl
      have hpos : ((newCacheHits h.maxPendingHitsPerGroup (h.groupID e.1)).hits.length : Int) <
          (newCacheHits h.maxPendingHitsPerGroup (h.groupID e.1)).maxPendingHitsPerGroup := by
        simp only [newCacheHits, List.length_nil]
        rw [hmp]
        omega
      have hacc := cacheHits_enqueue_accept (newCacheHits h.maxPendingHitsPerGroup (h.groupID e.1))
        e.2 e.1.authHeaders (originUsageHeaders e.1) hpos
      refine ⟨_, enqueue_eq_of_absent client h e.1 e.2 hq hl, ⟨hinv1, hq, hmp, hmu⟩,
        hcalls, ?_, ?_⟩
      · intro q hqm d hd
        have hqm1 : q ∈ h.hitsQueue ++ [h.heap.length] := hqm
        have hd1 : (h.heap ++ [((newCacheHits h.maxPendingHitsPerGroup (h.groupID e.1)).enqueue
            e.2 e.1.authHeaders (originUsageHeaders e.1)).1])[q]? = some d := hd
        simp only [List.mem_append, List.mem_singleton] at hqm1
        rcases hqm1 with hold | hnew
        · rw [heap_get_append_old _ _ _ (hinv.queueValid q hold)] at hd1
          exact hcap q hold d hd1
        · subst hnew
          rw [heap_get_append_new] at hd1
          cases hd1
          rw [cacheHits_enqueue_max]
          exact hmp
      · intro g
        rw [hgf g]
        by_cases hg : h.groupID e.1 = g
        · subst hg
          have hempty : (hitsFor (newHitTrackerClient mp mu) (h.groupID e.1) es).take mp.toNat =
              [] := by
            rw [← hpend, pendingOf_of_none h _ hl]
          have hnil : hitsFor (newHitTrackerClient mp mu) (h.groupID e.1) es = [] := by
            cases hx : hitsFor (newHitTrackerClient mp mu) (h.groupID e.1) es with
            | nil => rfl
            | cons a l =>
              rw [hx] at hempty
              have h1 : mp.toNat = (mp.toNat - 1) + 1 := by omega
              rw [h1, List.take_succ_cons] at hempty
              cases hempty
          rw [hnil, if_pos rfl]
          unfold pendingOf
          simp only [mapLookup_mapInsert_self, heap_get_append_new, hacc]
          have h1 : mp.toNat = (mp.toNat - 1) + 1 := by omega
          rw [h1]
          simp [newCacheHits]
        · rw [if_neg hg, List.append_nil, ← hpend g]
          have hlg : mapLookup (mapInsert h.hitsByGroup (h.groupID e.1) h.heap.length) g =
              mapLookup h.hitsByGroup g := mapLookup_mapInsert_ne _ _ _ _ (fun e => hg e.symm)
          cases hlq : mapLookup h.hitsByGroup g with
          | none =>
            unfold pendingOf
            simp only [hlg, hlq]
          | some q =>
            have hqv : q < h.heap.length := hinv.queueValid q ((hinv.mapQueue g q).mp hlq).1
            unfold pendingOf
            simp only [hlg, hlq]
            rw [heap_get_append_old _ _ _ hqv]


/-! ## The flush loop -/

theorem sentFor_cons (g : groupID) (r : TrackCall) (rs : List TrackCall) :
    sentFor g (r :: rs) =
      if r.caller = .sendTrackRequest ∧ r.gid = g then r.hits ++ sentFor g rs
      else sentFor g rs := rfl

theorem sentFor_append (g : groupID) (xs ys : List TrackCall) :
    sentFor g (xs ++ ys) = sentFor g xs ++ sentFor g ys := by
  induction xs with
  | nil => rfl
  | cons r xs ih =>
    rw [List.cons_append, sentFor_cons, sentFor_cons]
    by_cases hr : r.caller = .sendTrackRequest ∧ r.gid = g
    · rw [if_pos hr, if_pos hr, ih, List.append_assoc]
    · rw [if_neg hr, if_neg hr, ih]

theorem lookup_head (h : HitTrackerFactory) (hinv : Inv h) (p : Nat) (rest : List Nat)
    (c : cacheHits) (hq : h.hitsQueue = p :: rest) (hc : h.heap[p]? = some c) :
    mapLookup h.hitsByGroup c.gid = some p :=
  (hinv.mapQueue c.gid p).mpr ⟨by rw [hq]; exact List.mem_cons_self _ _, gidAt_of_get hc⟩

theorem pendingOf_empty_queue (h : HitTrackerFactory) (hinv : Inv h) (hq : h.hitsQueue = [])
    (g : groupID) : pendingOf h g = [] := by
  cases hl : mapLookup h.hitsByGroup g with
  | none => exact pendingOf_of_none h g hl
  | some p =>
    have := ((hinv.mapQueue g p).mp hl).1
    rw [hq] at this
    cases this

/-- One `sendTrackRequest` on a non-empty queue of a factory that satisfies the
invariant, with both flags positive: it sends at least one hit, lowers the total
number of queued hits by the number it returns, and what it sends for a group
followed by what stays pending for that group is what was pending before. -/
theorem send_step (client : HitTrackerServiceClient) (h : HitTrackerFactory)
    (p : Nat) (rest : List Nat) (hinv : Inv h) (hmp : 1 ≤ h.maxPendingHitsPerGroup)
    (hmu : 1 ≤ h.maxHitsPerUpdate) (hq : h.hitsQueue = p :: rest) :
    ∃ h1 k r, h.sendTrackRequest client = .ok (h1, k) ∧ 0 < k ∧ Inv h1 ∧
      h1.maxPendingHitsPerGroup = h.maxPendingHitsPerGroup ∧
      h1.maxHitsPerUpdate = h.maxHitsPerUpdate ∧
      totalHits h1 + k = totalHits h ∧
      h1.trackCalls = h.trackCalls ++ [r] ∧ r.caller = .sendTrackRequest ∧
      k = r.hits.length ∧
      (∀ g, (if r.gid = g then r.hits else []) ++ pendingOf h1 g = pendingOf h g) := by
  obtain ⟨hnot, _, ⟨c, hc⟩, _⟩ := inv_head h p rest hinv hq
  have hpm : p ∈ h.hitsQueue := by rw [hq]; exact List.mem_cons_self _ _
  have hne : c.hits ≠ [] := hinv.nonempty hmp p hpm c hc
  have hpos : 0 < c.hits.length := List.length_pos.mpr hne
  have hlp : mapLookup h.hitsByGroup c.gid = some p := lookup_head h hinv p rest c hq hc
  have hpc : pendingOf h c.gid = c.hits := pendingOf_of_lookup h c.gid p c hlp hc
  have htot : totalHits h = c.hits.length + (rest.map (lenAt h.heap)).sum := by
    simp [totalHits, hq, lenAt, hc]
  by_cases hle : (c.hits.length : Int) ≤ h.maxHitsPerUpdate
  · refine ⟨_, _, trackCallOf client c, send_eq_of_whole client h p rest c hq hc hle, hpos,
      inv_send_whole client h p rest c hinv hq hc, rfl, rfl, ?_, rfl, rfl, rfl, ?_⟩
    · rw [htot]
      simp only [totalHits]
      omega
    · intro g
      by_cases hg : c.gid = g
      · subst hg
        rw [hpc]
        unfold pendingOf
        simp [trackCallOf, mapLookup_mapDelete_self]
      · have hgs : g ≠ c.gid := fun e => hg e.symm
        unfold pendingOf
        simp [trackCallOf, hg, mapLookup_mapDelete_ne _ _ _ hgs]
  · have hgt : h.maxHitsPerUpdate < (c.hits.length : Int) := by omega
    have hu : 0 ≤ h.maxHitsPerUpdate := by omega
    have hlen : (h.heap.set p { c with hits := c.hits.take h.maxHitsPerUpdate.toNat }).length =
        h.heap.length := List.length_set _ _ _
    have hnew := heap_get_append_new
      (h.heap.set p { c with hits := c.hits.take h.maxHitsPerUpdate.toNat })
      (remainderCacheHits c h.maxHitsPerUpdate.toNat)
    rw [hlen] at hnew
    have hold : ∀ q, q ≠ p → q < h.heap.length →
        (h.heap.set p { c with hits := c.hits.take h.maxHitsPerUpdate.toNat } ++
          [remainderCacheHits c h.maxHitsPerUpdate.toNat])[q]? = h.heap[q]? := by
      intro q hqp hql
      rw [heap_get_append_old _ _ _ (by rw [hlen]; exact hql),
        heap_get_set_of_get h.heap p q c _ hc, if_neg hqp]
    have hvr : ∀ q ∈ rest, q < h.heap.length := fun q hqr =>
      hinv.queueValid q (by rw [hq]; exact List.mem_cons_of_mem _ hqr)
    have htk : (c.hits.take h.maxHitsPerUpdate.toNat).length = h.maxHitsPerUpdate.toNat := by
      rw [List.length_take]; omega
    refine ⟨_, _, trackCallOf client { c with hits := c.hits.take h.maxHitsPerUpdate.toNat },
      send_eq_of_split client h p rest c hq hc hgt hu, by omega,
      inv_send_split client h p rest c _ hinv hq hc (by omega), rfl, rfl, ?_, rfl, rfl,
      htk.symm, ?_⟩
    · rw [htot]
      simp only [totalHits, List.map_append, List.map_cons, List.map_nil, List.sum_append,
        List.sum_cons, List.sum_nil]
      have hrest : rest.map (lenAt (h.heap.set p
          { c with hits := c.hits.take h.maxHitsPerUpdate.toNat } ++
            [remainderCacheHits c h.maxHitsPerUpdate.toNat])) = rest.map (lenAt h.heap) := by
        apply List.map_congr_left
        intro q hqr
        unfold lenAt
        rw [hold q (fun e => hnot (e ▸ hqr)) (hvr q hqr)]
      have hlast : lenAt (h.heap.set p { c with hits := c.hits.take h.maxHitsPerUpdate.toNat } ++
          [remainderCacheHits c h.maxHitsPerUpdate.toNat]) h.heap.length =
            c.hits.length - h.maxHitsPerUpdate.toNat := by
        unfold lenAt
        rw [hnew]
        simp [remainderCacheHits]
      rw [hrest, hlast]
      omega
    · intro g
      by_cases hg : c.gid = g
      · subst hg
        rw [hpc]
        unfold pendingOf
        simp only [mapLookup_mapInsert_self, hnew]
        simp [trackCallOf, remainderCacheHits]
      · have hgs : g ≠ c.gid := fun e => hg e.symm
        have hif : (trackCallOf client
            { c with hits := c.hits.take h.maxHitsPerUpdate.toNat }).gid ≠ g := hg
        rw [if_neg hif, List.nil_append]
        unfold pendingOf
        simp only [mapLookup_mapInsert_ne _ _ _ _ hgs]
        cases hlg : mapLookup h.hitsByGroup g with
        | none => rfl
        | some q =>
          have hqp : q ≠ p := lookup_ne_of_gid_ne h hinv g c.gid p q hgs hlp hlg
          have hql : q < h.heap.length := hinv.queueValid q ((hinv.mapQueue g q).mp hlg).1
          simp only [hold q hqp hql]


theorem flushLoop_succ (client : HitTrackerServiceClient) (fuel : Nat)
    (h h1 : HitTrackerFactory) (k : Nat) (hs : h.sendTrackRequest client = .ok (h1, k)) :
    flushLoop client (fuel + 1) h = if k > 0 then flushLoop client fuel h1 else .ok h1 := by
  simp [flushLoop, hs]

/-- The flush loop terminates on every factory that satisfies the invariant with
both flags positive: given more fuel than there are queued hits it returns, the
queue is then empty, and the requests it issued for a group carry, concatenated
in order, exactly the hits that were pending for that group. -/
theorem flushLoop_spec (client : HitTrackerServiceClient) (n : Nat) :
    ∀ h : HitTrackerFactory, Inv h → 1 ≤ h.maxPendingHitsPerGroup → 1 ≤ h.maxHitsPerUpdate →
      totalHits h ≤ n →
      ∃ h1 calls, (∀ fuel, n + 1 ≤ fuel → flushLoop client fuel h = .ok h1) ∧
        h1.hitsQueue = [] ∧ Inv h1 ∧ h1.trackCalls = h.trackCalls ++ calls ∧
        (∀ r ∈ calls, r.caller = .sendTrackRequest) ∧
        (∀ g, sentFor g calls = pendingOf h g) := by
  induction n with
  | zero =>
    intro h hinv hmp hmu htot
    cases hq : h.hitsQueue with
    | nil =>
      refine ⟨h, [], ?_, hq, hinv, by simp, by simp, ?_⟩
      · intro fuel hf
        obtain ⟨f, rfl⟩ : ∃ f, fuel = f + 1 := ⟨fuel - 1, by omega⟩
        rw [flushLoop_succ client f h h 0 (send_eq_of_empty client h hq)]
        simp
      · intro g
        rw [pendingOf_empty_queue h hinv hq g]
        rfl
    | cons p rest =>
      obtain ⟨h1, k, r, _, hk, _, _, _, hdec, _⟩ := send_step client h p rest hinv hmp hmu hq
      omega
  | succ n ih =>
    intro h hinv hmp hmu htot
    cases hq : h.hitsQueue with
    | nil =>
      refine ⟨h, [], ?_, hq, hinv, by simp, by simp, ?_⟩
      · intro fuel hf
        obtain ⟨f, rfl⟩ : ∃ f, fuel = f + 1 := ⟨fuel - 1, by omega⟩
        rw [flushLoop_succ client f h h 0 (send_eq_of_empty client h hq)]
        simp
      · intro g
        rw [pendingOf_empty_queue h hinv hq g]
        rfl
    | cons p rest =>
      obtain ⟨h1, k, r, hs, hk, hinv1, hmp1, hmu1, hdec, hcalls, hcaller, _, hpend⟩ :=
        send_step client h p rest hinv hmp hmu hq
      obtain ⟨h2, calls, hloop, hq2, hinv2, hcalls2, hcallers2, hsent2⟩ :=
        ih h1 hinv1 (hmp1 ▸ hmp) (hmu1 ▸ hmu) (by omega)
      refine ⟨h2, r :: calls, ?_, hq2, hinv2, ?_, ?_, ?_⟩
      · intro fuel hf
        obtain ⟨f, rfl⟩ : ∃ f, fuel = f + 1 := ⟨fuel - 1, by omega⟩
        rw [flushLoop_succ client f h h1 k hs, if_pos hk]
        exact hloop f (by omega)
      · rw [hcalls2, hcalls]
        simp
      · intro x hx
        rcases List.mem_cons.mp hx with hx | hx
        · rw [hx]; exact hcaller
        · exact hcallers2 x hx
      · intro g
        rw [sentFor_cons, hsent2 g, ← hpend g]
        by_cases hg : r.gid = g
        · rw [if_pos ⟨hcaller, hg⟩, if_pos hg]
        · rw [if_neg (fun hc => hg hc.2), if_neg hg, List.nil_append]


/-! ## Claims -/

/-- C1: from an empty factory with non-negative flags, every sequence of
`enqueue` and `sendTrackRequest` calls returns, and in the state it reaches every
group's pending batch (the batch `hitsByGroup` points to, and likewise every
batch in `hitsQueue`) holds at most `maxPendingHitsPerGroup` hits. -/
theorem pending_batch_within_cap (client : HitTrackerServiceClient) (mp mu : Int)
    (hp : 0 ≤ mp) (hu : 0 ≤ mu) (ops : List Op) :
    ∃ h, run client ops (newHitTrackerClient mp mu) = .ok h ∧
      (∀ g p, mapLookup h.hitsByGroup g = some p →
        ∃ c, h.heap[p]? = some c ∧ c.gid = g ∧ (c.hits.length : Int) ≤ mp) ∧
      (∀ p ∈ h.hitsQueue, ∃ c, h.heap[p]? = some c ∧ (c.hits.length : Int) ≤ mp) := by
  obtain ⟨h, hr, hinv, _, hmp, _⟩ := run_ok client ops _ mp mu (open_new mp mu) hu
  have hb := hinv.bounded (by rw [hmp]; exact hp)
  refine ⟨h, hr, ?_, ?_⟩
  · intro g p hl
    obtain ⟨_, hg⟩ := (hinv.mapQueue g p).mp hl
    obtain ⟨c, hc, hcg⟩ := gidAt_eq_some.mp hg
    exact ⟨c, hc, hcg, hmp ▸ (hb c (heap_mem_of_get hc)).1⟩
  · intro p hpq
    obtain ⟨c, hc⟩ := heap_get_of_lt (hinv.queueValid p hpq)
    exact ⟨c, hc, hmp ▸ (hb c (heap_mem_of_get hc)).1⟩

theorem pending_batch_within_cap_witness :
    (0 : Int) ≤ 2 ∧ (0 : Int) ≤ 1 ∧
    ∃ h, run okClient
        [.enqueue (ctxG "a") (hitN 1), .enqueue (ctxG "a") (hitN 2),
         .enqueue (ctxG "a") (hitN 3), .sendTrackRequest, .enqueue (ctxG "a") (hitN 4)]
        (newHitTrackerClient 2 1) = .ok h ∧
      (∀ g p, mapLookup h.hitsByGroup g = some p →
        ∃ c, h.heap[p]? = some c ∧ c.gid = g ∧ (c.hits.length : Int) ≤ 2) ∧
      (∀ p ∈ h.hitsQueue, ∃ c, h.heap[p]? = some c ∧ (c.hits.length : Int) ≤ 2) :=
  ⟨by decide, by decide, pending_batch_within_cap okClient 2 1 (by decide) (by decide) _⟩

/-- C2, evaluated where it fails: with cap 5 and one hit per update, two hits
are enqueued for group "g" and one flush splits the batch; the group then has one
pending hit, four below the cap, yet the next `enqueue` for "g" is counted as
dropped and leaves the batch as it was, because the remainder batch was created
with `maxPendingHitsPerGroup` zero. -/
theorem enqueue_dropped_below_cap_after_split :
    ∃ h h1, run okClient
        [.enqueue (ctxG "g") (hitN 1), .enqueue (ctxG "g") (hitN 2), .sendTrackRequest]
        (newHitTrackerClient 5 1) = .ok h ∧
      h.quitClosed = false ∧ h.maxPendingHitsPerGroup = 5 ∧
      mapLookup h.hitsByGroup "g" = some 1 ∧
      h.heap[1]? = some { maxPendingHitsPerGroup := 0, gid := "g",
                          authHeaders := [("authorization", ["g"])], usageHeaders := [],
                          hits := [hitN 2] } ∧
      h.enqueue okClient (ctxG "g") (hitN 3) = .ok h1 ∧
      h1.updates = h.updates ++ [("g", "dropped_too_many_updates")] ∧
      h1.heap = h.heap ∧ h1.trackCalls = h.trackCalls :=
  ⟨_, _, rfl, rfl, rfl, rfl, rfl, rfl, rfl, rfl, rfl⟩


/-- C3: in the state reached from an empty factory by any sequence of `enqueue`
and `sendTrackRequest` calls, every hit of a `Track` request that
`sendTrackRequest` issued for the batch of a group was enqueued under that
group; so for groups `t1 ≠ t2`, a hit that was only ever enqueued under `t1` is
in no request issued for `t2`. -/
theorem track_request_hits_belong_to_group (client : HitTrackerServiceClient) (mp mu : Int)
    (ops : List Op) (h : HitTrackerFactory)
    (hrun : run client ops (newHitTrackerClient mp mu) = .ok h)
    (r : TrackCall) (hr : r ∈ h.trackCalls) (hcaller : r.caller = .sendTrackRequest) :
    (∀ x ∈ r.hits, ∃ ctx, Op.enqueue ctx x ∈ ops ∧ h.groupID ctx = r.gid) ∧
    (∀ t1 t2 : groupID, t1 ≠ t2 → r.gid = t2 →
      ∀ x, (∀ ctx, Op.enqueue ctx x ∈ ops → h.groupID ctx = t1) → x ∉ r.hits) := by
  have hh0 : Hist [] (newHitTrackerClient mp mu) := by
    constructor
    · intro c hc; simp [newHitTrackerClient] at hc
    · intro c hc; simp [newHitTrackerClient] at hc
  have hh := hist_run client ops [] _ h mp mu (open_new mp mu) hh0 hrun
  simp only [List.nil_append] at hh
  have hmain := hh.2 r hr hcaller
  refine ⟨hmain, ?_⟩
  intro t1 t2 hne hg x hall hx
  obtain ⟨ctx, hm, hgx⟩ := hmain x hx
  exact hne ((hall ctx hm).symm.trans (hgx.trans hg))

theorem track_request_hits_belong_to_group_witness :
    ∃ h r, run okClient sampleOps (newHitTrackerClient 5 1) = .ok h ∧
      r ∈ h.trackCalls ∧ r.caller = .sendTrackRequest ∧ r.gid = "b" ∧ r.hits = [hitN 2] ∧
      ((∀ x ∈ r.hits, ∃ ctx, Op.enqueue ctx x ∈ sampleOps ∧ h.groupID ctx = r.gid) ∧
       (∀ t1 t2 : groupID, t1 ≠ t2 → r.gid = t2 →
          ∀ x, (∀ ctx, Op.enqueue ctx x ∈ sampleOps → h.groupID ctx = t1) → x ∉ r.hits)) :=
  ⟨_, trackCallOf okClient
      { maxPendingHitsPerGroup := 5, gid := "b", authHeaders := [("authorization", ["b"])],
        usageHeaders := [], hits := [hitN 2] },
    rfl, by decide, rfl, rfl, rfl,
    track_request_hits_belong_to_group okClient 5 1 sampleOps _ rfl _ (by decide) rfl⟩


/-- C4: with both flags at least 1, after any sequence of enqueues (which all
return) `shutdown` returns `nil` once it is given enough fuel, leaving the queue
empty; every request it issued came from `sendTrackRequest`; and for every group
the hit lists of the requests issued for that group, concatenated in the order
issued, are exactly the group's accepted hits in arrival order, that is the
first `maxPendingHitsPerGroup` hits enqueued under the group: each is sent once,
none is lost, duplicated, merged or reordered. -/
theorem drain_sends_accepted_hits_in_order (client : HitTrackerServiceClient) (mp mu : Int)
    (hp : 1 ≤ mp) (hu : 1 ≤ mu) (es : List (Context × CacheHit)) :
    ∃ h fuel0 h1, run client (enqueueOps es) (newHitTrackerClient mp mu) = .ok h ∧
      (∀ fuel, fuel0 ≤ fuel → h.shutdown client fuel = .ok (h1, none)) ∧
      h1.hitsQueue = [] ∧
      (∀ r ∈ h1.trackCalls, r.caller = .sendTrackRequest) ∧
      ∀ g, sentFor g h1.trackCalls =
        (hitsFor (newHitTrackerClient mp mu) g es).take mp.toNat := by
  obtain ⟨h, hr, ⟨hinv, hq, hmp, hmu⟩, hcalls, _, hpend⟩ := enqueues_state client mp mu hp es
  have hinv0 : Inv { h with quitClosed := true } :=
    { queueNodup := hinv.queueNodup
      queueValid := hinv.queueValid
      gidInj := hinv.gidInj
      mapQueue := hinv.mapQueue
      bounded := hinv.bounded
      nonempty := hinv.nonempty }
  obtain ⟨h1, calls, hloop, hq1, _, hcalls1, hcallers, hsent⟩ :=
    flushLoop_spec client (totalHits h) { h with quitClosed := true } hinv0
      (by rw [← hmp] at hp; exact hp) (by rw [← hmu] at hu; exact hu) (Nat.le_refl _)
  have hcalls2 : h1.trackCalls = calls := by
    rw [hcalls1]
    show h.trackCalls ++ calls = calls
    rw [hcalls, List.nil_append]
  refine ⟨h, totalHits h + 1, h1, hr, ?_, hq1, ?_, ?_⟩
  · intro fuel hf
    unfold HitTrackerFactory.shutdown
    rw [if_neg (by rw [hq]; simp), hloop fuel hf]
  · intro r hrm
    rw [hcalls2] at hrm
    exact hcallers r hrm
  · intro g
    rw [hcalls2, hsent g, ← hpend g]
    rfl

theorem drain_sends_accepted_hits_in_order_witness :
    ∃ h fuel0 h1, run okClient (enqueueOps fiveHits) (newHitTrackerClient 3 2) = .ok h ∧
      (∀ fuel, fuel0 ≤ fuel → h.shutdown okClient fuel = .ok (h1, none)) ∧
      h1.hitsQueue = [] ∧
      (∀ r ∈ h1.trackCalls, r.caller = .sendTrackRequest) ∧
      ∀ g, sentFor g h1.trackCalls =
        (hitsFor (newHitTrackerClient 3 2) g fiveHits).take (3 : Int).toNat :=
  drain_sends_accepted_hits_in_order okClient 3 2 (by decide) (by decide) fiveHits


theorem send_quit (client : HitTrackerServiceClient) (h h1 : HitTrackerFactory) (k : Nat)
    (hs : h.sendTrackRequest client = .ok (h1, k)) : h1.quitClosed = h.quitClosed := by
  unfold HitTrackerFactory.sendTrackRequest at hs
  split at hs
  · cases hs; rfl
  · split at hs
    · cases hs
    · split at hs
      · cases hs; rfl
      · split at hs
        · cases hs
        · cases hs; rfl

theorem flushLoop_quit (client : HitTrackerServiceClient) (fuel : Nat)
    (h h1 : HitTrackerFactory) (hs : flushLoop client fuel h = .ok h1) :
    h1.quitClosed = h.quitClosed := by
  induction fuel generalizing h with
  | zero => cases hs
  | succ fuel ih =>
    unfold flushLoop at hs
    cases he : h.sendTrackRequest client with
    | error e => simp [he] at hs
    | ok r =>
      obtain ⟨h2, k⟩ := r
      simp only [he] at hs
      have hq := send_quit client h h2 k he
      by_cases hk : k > 0
      · simp only [hk, if_true] at hs
        rw [ih h2 hs, hq]
      · simp only [hk, if_false, Except.ok.injEq] at hs
        rw [← hs, hq]

/-- C5, as the code has it, at a concrete input: the first `shutdown` of a fresh
factory returns `nil` and leaves the quit channel closed; a second `shutdown` of
that state does not return, it panics. -/
theorem second_shutdown_panics_on_fresh_factory :
    (newHitTrackerClient 1 1).shutdown okClient 1 =
        .ok ({ newHitTrackerClient 1 1 with quitClosed := true }, none) ∧
      ({ newHitTrackerClient 1 1 with quitClosed := true }).shutdown okClient 1 =
        .error .panic :=
  ⟨rfl, rfl⟩

/-- C5, amended: `shutdown` is single-use.  Whenever a first call has returned,
it returned `nil` and left the quit channel closed, and a second call on the
state it left panics (on closing the closed channel) whatever fuel it is given,
so it neither returns nor changes the state. -/
theorem shutdown_returns_once (client : HitTrackerServiceClient) (fuel : Nat)
    (h h1 : HitTrackerFactory) (e : Option String)
    (hs : h.shutdown client fuel = .ok (h1, e)) :
    e = none ∧ h1.quitClosed = true ∧
      ∀ fuel2, h1.shutdown client fuel2 = .error .panic := by
  unfold HitTrackerFactory.shutdown at hs
  by_cases hq : h.quitClosed = true
  · simp [hq] at hs
  · simp only [hq] at hs
    cases hf : flushLoop client fuel { h with quitClosed := true } with
    | error err => simp [hf] at hs
    | ok h2 =>
      simp only [hf] at hs
      cases hs
      have hq1 : h1.quitClosed = true := flushLoop_quit client fuel _ h1 hf
      refine ⟨rfl, hq1, ?_⟩
      intro fuel2
      simp [HitTrackerFactory.shutdown, hq1]

theorem shutdown_returns_once_witness :
    (none : Option String) = none ∧
      ({ newHitTrackerClient 1 1 with quitClosed := true } : HitTrackerFactory).quitClosed = true ∧
      ∀ fuel2, ({ newHitTrackerClient 1 1 with quitClosed := true } :
        HitTrackerFactory).shutdown okClient fuel2 = .error .panic :=
  shutdown_returns_once okClient 1 (newHitTrackerClient 1 1)
    { newHitTrackerClient 1 1 with quitClosed := true } none rfl


/-- C7: for a non-negative `maxHitsPerUpdate` and every factory state whose
queue holds valid pointers, `sendTrackRequest` returns; it issues no `Track`
request and returns 0 when the queue is empty, and otherwise issues exactly one
request, which carries at most `maxHitsPerUpdate` hits, and returns the number of
hits of that request. -/
theorem sendTrackRequest_one_bounded_request (client : HitTrackerServiceClient)
    (h : HitTrackerFactory) (hu : 0 ≤ h.maxHitsPerUpdate)
    (hv : ∀ p ∈ h.hitsQueue, p < h.heap.length) :
    ∃ h1 k, h.sendTrackRequest client = .ok (h1, k) ∧
      ((h.hitsQueue = [] ∧ h1.trackCalls = h.trackCalls ∧ k = 0) ∨
       (h.hitsQueue ≠ [] ∧ ∃ r, h1.trackCalls = h.trackCalls ++ [r] ∧
          r.caller = .sendTrackRequest ∧
          (r.hits.length : Int) ≤ h.maxHitsPerUpdate ∧ k = r.hits.length)) := by
  cases hq : h.hitsQueue with
  | nil => exact ⟨h, 0, send_eq_of_empty client h hq, Or.inl ⟨rfl, rfl, rfl⟩⟩
  | cons p rest =>
    obtain ⟨c, hc⟩ := heap_get_of_lt (hv p (by rw [hq]; exact List.mem_cons_self _ _))
    by_cases hle : (c.hits.length : Int) ≤ h.maxHitsPerUpdate
    · exact ⟨_, _, send_eq_of_whole client h p rest c hq hc hle,
        Or.inr ⟨List.cons_ne_nil _ _, trackCallOf client c, rfl, rfl, hle, rfl⟩⟩
    · have hgt : h.maxHitsPerUpdate < (c.hits.length : Int) := by omega
      refine ⟨_, _, send_eq_of_split client h p rest c hq hc hgt hu,
        Or.inr ⟨List.cons_ne_nil _ _, _, rfl, rfl, ?_, ?_⟩⟩
      · show ((c.hits.take h.maxHitsPerUpdate.toNat).length : Int) ≤ h.maxHitsPerUpdate
        rw [List.length_take]
        omega
      · show h.maxHitsPerUpdate.toNat = (c.hits.take h.maxHitsPerUpdate.toNat).length
        rw [List.length_take]
        omega

theorem sendTrackRequest_one_bounded_request_witness :
    0 ≤ sampleFactory.maxHitsPerUpdate ∧
    (∀ p ∈ sampleFactory.hitsQueue, p < sampleFactory.heap.length) ∧
    ∃ h1 k, sampleFactory.sendTrackRequest okClient = .ok (h1, k) ∧
      ((sampleFactory.hitsQueue = [] ∧ h1.trackCalls = sampleFactory.trackCalls ∧ k = 0) ∨
       (sampleFactory.hitsQueue ≠ [] ∧ ∃ r, h1.trackCalls = sampleFactory.trackCalls ++ [r] ∧
          r.caller = .sendTrackRequest ∧
          (r.hits.length : Int) ≤ sampleFactory.maxHitsPerUpdate ∧ k = r.hits.length)) :=
  ⟨by decide, by decide,
    sendTrackRequest_one_bounded_request okClient sampleFactory (by decide) (by decide)⟩


/-- C8: on a queue of valid pointers and with a non-negative cap per update,
(1) when `sendTrackRequest` pops a batch holding more than `maxHitsPerUpdate`
hits it sends the first `maxHitsPerUpdate` of them and appends the remaining
hits as a fresh batch of the same group at the tail of the queue, behind every
batch that was waiting, and the map points the group to that fresh batch;
(2) hence the first `n` calls on a queue of `n` batches issue exactly one
request per batch, for the groups of those batches in queue order. -/
theorem split_remainder_goes_to_tail (client : HitTrackerServiceClient)
    (h : HitTrackerFactory) (hu : 0 ≤ h.maxHitsPerUpdate)
    (hv : ∀ q ∈ h.hitsQueue, q < h.heap.length) :
    (∀ p rest c, h.hitsQueue = p :: rest → h.heap[p]? = some c →
      h.maxHitsPerUpdate < (c.hits.length : Int) →
      ∃ h1, h.sendTrackRequest client = .ok (h1, h.maxHitsPerUpdate.toNat) ∧
        (∃ r, h1.trackCalls = h.trackCalls ++ [r] ∧ r.gid = c.gid ∧
          r.hits = c.hits.take h.maxHitsPerUpdate.toNat) ∧
        h1.hitsQueue = rest ++ [h.heap.length] ∧
        h1.heap[h.heap.length]? = some
          { maxPendingHitsPerGroup := 0, gid := c.gid, authHeaders := c.authHeaders,
            usageHeaders := c.usageHeaders, hits := c.hits.drop h.maxHitsPerUpdate.toNat } ∧
        mapLookup h1.hitsByGroup c.gid = some h.heap.length) ∧
    (∃ h1 calls,
      run client (List.replicate h.hitsQueue.length .sendTrackRequest) h = .ok h1 ∧
      h1.trackCalls = h.trackCalls ++ calls ∧
      calls.length = h.hitsQueue.length ∧
      calls.map (fun r => some r.gid) = h.hitsQueue.map (gidAt h.heap) ∧
      (∀ r ∈ calls, r.caller = .sendTrackRequest)) := by
  constructor
  · intro p rest c hq hc hgt
    refine ⟨_, send_eq_of_split client h p rest c hq hc hgt hu, ⟨_, rfl, rfl, rfl⟩, rfl, ?_, ?_⟩
    · have := heap_get_append_new
        (h.heap.set p { c with hits := c.hits.take h.maxHitsPerUpdate.toNat })
        (remainderCacheHits c h.maxHitsPerUpdate.toNat)
      rw [List.length_set] at this
      exact this
    · exact mapLookup_mapInsert_self _ _ _
  · obtain ⟨h1, calls, hr, hcalls, hmap, hcaller⟩ :=
      sends_follow_queue client h.hitsQueue h [] hu (by simp) hv
    refine ⟨h1, calls, hr, hcalls, ?_, hmap, hcaller⟩
    have := congrArg List.length hmap
    simpa using this

theorem split_remainder_goes_to_tail_witness :
    0 ≤ sampleFactory.maxHitsPerUpdate ∧
    (∀ q ∈ sampleFactory.hitsQueue, q < sampleFactory.heap.length) ∧
    ((∀ p rest c, sampleFactory.hitsQueue = p :: rest → sampleFactory.heap[p]? = some c →
      sampleFactory.maxHitsPerUpdate < (c.hits.length : Int) →
      ∃ h1, sampleFactory.sendTrackRequest okClient =
          .ok (h1, sampleFactory.maxHitsPerUpdate.toNat) ∧
        (∃ r, h1.trackCalls = sampleFactory.trackCalls ++ [r] ∧ r.gid = c.gid ∧
          r.hits = c.hits.take sampleFactory.maxHitsPerUpdate.toNat) ∧
        h1.hitsQueue = rest ++ [sampleFactory.heap.length] ∧
        h1.heap[sampleFactory.heap.length]? = some
          { maxPendingHitsPerGroup := 0, gid := c.gid, authHeaders := c.authHeaders,
            usageHeaders := c.usageHeaders,
            hits := c.hits.drop sampleFactory.maxHitsPerUpdate.toNat } ∧
        mapLookup h1.hitsByGroup c.gid = some sampleFactory.heap.length) ∧
    (∃ h1 calls,
      run okClient (List.replicate sampleFactory.hitsQueue.length .sendTrackRequest)
        sampleFactory = .ok h1 ∧
      h1.trackCalls = sampleFactory.trackCalls ++ calls ∧
      calls.length = sampleFactory.hitsQueue.length ∧
      calls.map (fun r => some r.gid) = sampleFactory.hitsQueue.map (gidAt sampleFactory.heap) ∧
      (∀ r ∈ calls, r.caller = .sendTrackRequest))) :=
  ⟨by decide, by decide,
    split_remainder_goes_to_tail okClient sampleFactory (by decide) (by decide)⟩


/-- C9, as the code has it, at a concrete input: with cap 5 and two hits per
update, group "a" enqueues three hits and group "b" one.  The first flush sends
the first two hits of "a"; the next flush sends the batch of "b", not the
remainder of "a", which is left waiting at the tail of the queue. -/
theorem remainder_is_not_sent_next :
    (run okClient
        [.enqueue (ctxG "a") (hitN 1), .enqueue (ctxG "a") (hitN 2),
         .enqueue (ctxG "a") (hitN 3), .enqueue (ctxG "b") (hitN 4),
         .sendTrackRequest, .sendTrackRequest]
        (newHitTrackerClient 5 2)).toOption.map
      (fun h => (h.trackCalls.map (fun r => (r.gid, r.hits)),
                 h.hitsQueue.map (fun p => (h.heap[p]?).map (fun c => (c.gid, c.hits))))) =
      some ([("a", [hitN 1, hitN 2]), ("b", [hitN 4])], [some ("a", [hitN 3])]) := by
  decide

/-- C9, amended: when the popped batch exceeds the per-update cap, the excess
hits are re-queued at the tail of the ready queue, so that the next call to
`sendTrackRequest` sends the batch that was next in the queue when there is one,
and the remainder stays queued behind the batches that were waiting; the next
call sends that same group's remainder only when no other batch was waiting. -/
theorem remainder_waits_behind_queue (client : HitTrackerServiceClient)
    (h : HitTrackerFactory) (p : Nat) (rest : List Nat) (c : cacheHits)
    (hu : 0 ≤ h.maxHitsPerUpdate) (hnd : h.hitsQueue.Nodup)
    (hv : ∀ q ∈ h.hitsQueue, q < h.heap.length)
    (hq : h.hitsQueue = p :: rest) (hc : h.heap[p]? = some c)
    (hgt : h.maxHitsPerUpdate < (c.hits.length : Int)) :
    ∃ h1, h.sendTrackRequest client = .ok (h1, h.maxHitsPerUpdate.toNat) ∧
      h1.hitsQueue = rest ++ [h.heap.length] ∧
      h1.heap[h.heap.length]? = some (remainderCacheHits c h.maxHitsPerUpdate.toNat) ∧
      (∀ q rest2 d, rest = q :: rest2 → h.heap[q]? = some d →
        ∃ h2 k, h1.sendTrackRequest client = .ok (h2, k) ∧
          h2.trackCalls = h1.trackCalls ++
            [trackCallOf client { d with hits := d.hits.take h.maxHitsPerUpdate.toNat }] ∧
          rest2 ++ [h.heap.length] <+: h2.hitsQueue) ∧
      (rest = [] →
        ∃ h2 k, h1.sendTrackRequest client = .ok (h2, k) ∧
          h2.trackCalls = h1.trackCalls ++
            [trackCallOf client
              { remainderCacheHits c h.maxHitsPerUpdate.toNat with
                hits := (c.hits.drop h.maxHitsPerUpdate.toNat).take
                  h.maxHitsPerUpdate.toNat }]) := by
  have hlen : (h.heap.set p { c with hits := c.hits.take h.maxHitsPerUpdate.toNat }).length =
      h.heap.length := List.length_set _ _ _
  have key : ∃ h1, h.sendTrackRequest client = .ok (h1, h.maxHitsPerUpdate.toNat) ∧
      h1.hitsQueue = rest ++ [h.heap.length] ∧
      h1.heap = h.heap.set p { c with hits := c.hits.take h.maxHitsPerUpdate.toNat } ++
        [remainderCacheHits c h.maxHitsPerUpdate.toNat] ∧
      h1.maxHitsPerUpdate = h.maxHitsPerUpdate :=
    ⟨_, send_eq_of_split client h p rest c hq hc hgt hu, rfl, rfl, rfl⟩
  obtain ⟨h1, hs, hq1, hheap1, hmu1⟩ := key
  have hnew : h1.heap[h.heap.length]? = some (remainderCacheHits c h.maxHitsPerUpdate.toNat) := by
    have := heap_get_append_new
      (h.heap.set p { c with hits := c.hits.take h.maxHitsPerUpdate.toNat })
      (remainderCacheHits c h.maxHitsPerUpdate.toNat)
    rw [hlen] at this
    rw [hheap1]
    exact this
  have hv1 : ∀ x ∈ h1.hitsQueue, x < h1.heap.length := by
    intro x hx
    rw [hq1] at hx
    rw [hheap1]
    simp only [List.mem_append, List.mem_singleton] at hx
    simp only [List.length_append, List.length_singleton, hlen]
    rcases hx with hx | hx
    · have := hv x (by rw [hq]; exact List.mem_cons_of_mem _ hx)
      omega
    · omega
  have hu1 : 0 ≤ h1.maxHitsPerUpdate := by rw [hmu1]; exact hu
  refine ⟨h1, hs, hq1, hnew, ?_, ?_⟩
  · intro q rest2 d hrest hd
    subst hrest
    have hqp : q ≠ p := by
      intro e
      rw [hq, e] at hnd
      exact (List.nodup_cons.mp hnd).1 (List.mem_cons_self _ _)
    have hql : q < h.heap.length := heap_lt_of_get hd
    have hd1 : h1.heap[q]? = some d := by
      rw [hheap1, heap_get_append_old _ _ _ (by rw [hlen]; exact hql),
        heap_get_set_of_get h.heap p q c _ hc]
      simp [hqp, hd]
    obtain ⟨h2, k, d1, extra, hd2, hs2, hq2, hcalls2, _, _, _⟩ :=
      send_summary client h1 q (rest2 ++ [h.heap.length]) hu1 hq1 hv1
    rw [hd1] at hd2
    cases hd2
    rw [hmu1] at hcalls2
    refine ⟨h2, k, hs2, hcalls2, ?_⟩
    rw [hq2]
    exact List.prefix_append _ _
  · intro hrest
    subst hrest
    obtain ⟨h2, k, d1, extra, hd2, hs2, _, hcalls2, _, _, _⟩ :=
      send_summary client h1 h.heap.length [] hu1 hq1 hv1
    rw [hnew] at hd2
    cases hd2
    rw [hmu1] at hcalls2
    exact ⟨h2, k, hs2, hcalls2⟩

theorem remainder_waits_behind_queue_witness :
    ∃ h1, sampleFactory.sendTrackRequest okClient = .ok (h1, 2) ∧
      h1.hitsQueue = [1] ++ [2] ∧
      h1.heap[2]? = some
        (remainderCacheHits
          { maxPendingHitsPerGroup := 5, gid := "a", authHeaders := [], usageHeaders := [],
            hits := [hitN 1, hitN 2, hitN 3] } 2) ∧
      (∀ q rest2 d, [1] = q :: rest2 → sampleFactory.heap[q]? = some d →
        ∃ h2 k, h1.sendTrackRequest okClient = .ok (h2, k) ∧
          h2.trackCalls = h1.trackCalls ++
            [trackCallOf okClient { d with hits := d.hits.take 2 }] ∧
          rest2 ++ [2] <+: h2.hitsQueue) ∧
      (([1] : List Nat) = [] →
        ∃ h2 k, h1.sendTrackRequest okClient = .ok (h2, k) ∧
          h2.trackCalls = h1.trackCalls ++
            [trackCallOf okClient
              { remainderCacheHits
                  { maxPendingHitsPerGroup := 5, gid := "a", authHeaders := [],
                    usageHeaders := [], hits := [hitN 1, hitN 2, hitN 3] } 2 with
                hits := ([hitN 1, hitN 2, hitN 3].drop 2).take 2 }]) :=
  remainder_waits_behind_queue okClient sampleFactory 0 [1]
    { maxPendingHitsPerGroup := 5, gid := "a", authHeaders := [], usageHeaders := [],
      hits := [hitN 1, hitN 2, hitN 3] }
    (by decide) (by decide) (by decide) rfl rfl (by decide)


/-- C6: once the quit channel is closed, `enqueue` issues exactly one `Track`
request whose hit list is `[hit]` and changes nothing else: map, queue, heap and
the enqueue counters stay as they were, whatever the client answers. -/
theorem enqueue_after_quit_sends_single_hit (client : HitTrackerServiceClient)
    (h : HitTrackerFactory) (ctx : Context) (hit : CacheHit) (hq : h.quitClosed = true) :
    ∃ h1 r, h.enqueue client ctx hit = .ok h1 ∧
      h1.trackCalls = h.trackCalls ++ [r] ∧ r.hits = [hit] ∧ r.caller = .enqueue ∧
      r.failed = client ctx.authHeaders ctx.usageHeaders [hit] ∧
      h1.hitsByGroup = h.hitsByGroup ∧ h1.hitsQueue = h.hitsQueue ∧ h1.heap = h.heap ∧
      h1.updates = h.updates ∧ h1.quitClosed = true := by
  refine ⟨{ h with trackCalls := h.trackCalls ++
      [{ caller := .enqueue, gid := h.groupID ctx, authHeaders := ctx.authHeaders,
         usageHeaders := ctx.usageHeaders, hits := [hit],
         failed := client ctx.authHeaders ctx.usageHeaders [hit] }] }, _, ?_,
    rfl, rfl, rfl, rfl, rfl, rfl, rfl, rfl, hq⟩
  simp [HitTrackerFactory.enqueue, HitTrackerFactory.shouldFlushSynchronously, hq]

theorem enqueue_after_quit_sends_single_hit_witness :
    ∃ h1 r, ({ newHitTrackerClient 2 1 with quitClosed := true }).enqueue failingClient
        (ctxG "g") (hitN 7) = .ok h1 ∧
      h1.trackCalls = [] ++ [r] ∧ r.hits = [hitN 7] ∧ r.caller = .enqueue ∧
      r.failed = failingClient (ctxG "g").authHeaders (ctxG "g").usageHeaders [hitN 7] ∧
      h1.hitsByGroup = [] ∧ h1.hitsQueue = [] ∧ h1.heap = [] ∧
      h1.updates = [] ∧ h1.quitClosed = true :=
  enqueue_after_quit_sends_single_hit failingClient
    { newHitTrackerClient 2 1 with quitClosed := true } (ctxG "g") (hitN 7) rfl


/-- C10: from an empty factory with per-group cap `c ≥ 0`, `n` consecutive
enqueues for one group `g` (no flush in between) all return; the enqueue counter
records the first `min n c` calls as "enqueued" and the remaining
`n - min n c` as dropped; after at least one call the group's batch holds
exactly the first `min n c` hits in order; and when `min n c ≤ maxHitsPerUpdate`
the next `sendTrackRequest` sends one request for `g` with exactly those hits. -/
theorem first_cap_hits_accepted (client : HitTrackerServiceClient) (c u : Int) (hc : 0 ≤ c)
    (g : groupID) (es : List (Context × CacheHit))
    (hg : ∀ e ∈ es, (newHitTrackerClient c u).groupID e.1 = g) :
    ∃ h, run client (enqueueOps es) (newHitTrackerClient c u) = .ok h ∧
      h.updates = List.replicate (min es.length c.toNat) (g, "enqueued") ++
        List.replicate (es.length - min es.length c.toNat) (g, "dropped_too_many_updates") ∧
      (es ≠ [] → h.hitsQueue = [0] ∧ mapLookup h.hitsByGroup g = some 0 ∧
        ∃ b, h.heap = [b] ∧ b.gid = g ∧
          b.hits = (es.map (fun e => e.2)).take (min es.length c.toNat)) ∧
      (es ≠ [] → ((min es.length c.toNat : Nat) : Int) ≤ u →
        ∃ h1 r, h.sendTrackRequest client = .ok (h1, min es.length c.toNat) ∧
          h1.trackCalls = [r] ∧ r.gid = g ∧
          r.hits = (es.map (fun e => e.2)).take (min es.length c.toNat)) := by
  obtain ⟨h, hr, _, hmu, _, hcalls, hupd, _, hcons⟩ := one_group_state client c u hc g es hg
  refine ⟨h, hr, hupd, ?_, ?_⟩
  · intro hne
    obtain ⟨hqu, hmap, b, hheap, hbg, _, hbh⟩ := hcons hne
    exact ⟨hqu, by rw [hmap]; simp [mapLookup], b, hheap, hbg, hbh⟩
  · intro hne hle
    obtain ⟨hqu, hmap, b, hheap, hbg, _, hbh⟩ := hcons hne
    have hb : h.heap[0]? = some b := by rw [hheap]; rfl
    have hblen : b.hits.length = min es.length c.toNat := by
      rw [hbh, List.length_take, List.length_map]
      omega
    have hs := send_eq_of_whole client h 0 [] b hqu hb (by rw [hmu, hblen]; exact hle)
    rw [hblen] at hs
    exact ⟨_, trackCallOf client b, hs, by simp [hcalls], hbg, hbh⟩

theorem first_cap_hits_accepted_witness :
    ∃ h, run okClient (enqueueOps fiveHits) (newHitTrackerClient 2 10) = .ok h ∧
      h.updates = List.replicate 2 ("g", "enqueued") ++
        List.replicate 3 ("g", "dropped_too_many_updates") ∧
      (fiveHits ≠ [] → h.hitsQueue = [0] ∧ mapLookup h.hitsByGroup "g" = some 0 ∧
        ∃ b, h.heap = [b] ∧ b.gid = "g" ∧ b.hits = [hitN 1, hitN 2]) ∧
      (fiveHits ≠ [] → ((2 : Nat) : Int) ≤ 10 →
        ∃ h1 r, h.sendTrackRequest okClient = .ok (h1, 2) ∧
          h1.trackCalls = [r] ∧ r.gid = "g" ∧ r.hits = [hitN 1, hitN 2]) :=
  first_cap_hits_accepted okClient 2 10 (by decide) "g" fiveHits (by decide)


/-- C11: `Register` installs the no-op factory exactly when the target is empty
or the worker count is below 1, and then it dials nothing and returns no error
(otherwise it dials the target); every tracker of the no-op factory is a
`NoOpHitTracker`, whose `TrackMiss` returns `nil`, whose `TrackDownload` and
`TrackUpload` give a `NoOpTransferTimer`, and that timer returns `nil` from
`CloseWithBytesTransferred` and `Record` and leaves every factory state as it
is: nothing is enqueued, nothing is sent. -/
theorem register_installs_noop_iff_disabled (target : String) (workers mp mu : Int)
    (dial : String → Option Status.Error) (ctx : Context) (md d lbl : String)
    (now comp dur : Nat) (bc bcl : Int) (client : HitTrackerServiceClient)
    (h : HitTrackerFactory) :
    ((Register target workers mp mu dial).installed = some .NoOpHitTrackerFactory ↔
      (target = "" ∨ workers < 1)) ∧
    ((Register target workers mp mu dial).dialed = [] ↔ (target = "" ∨ workers < 1)) ∧
    ((Register target workers mp mu dial).installed ≠ some .NoOpHitTrackerFactory ∨
      (Register target workers mp mu dial).err = none) ∧
    AnyHitTrackerFactory.NoOpHitTrackerFactory.NewACHitTracker ctx md = (.NoOpHitTracker, false) ∧
    AnyHitTrackerFactory.NoOpHitTrackerFactory.NewCASHitTracker ctx md = .NoOpHitTracker ∧
    AnyHitTracker.NoOpHitTracker.TrackMiss h d = (h, none) ∧
    AnyHitTracker.NoOpHitTracker.TrackDownload d now = .NoOpTransferTimer ∧
    AnyHitTracker.NoOpHitTracker.TrackUpload d now = .NoOpTransferTimer ∧
    AnyTransferTimer.NoOpTransferTimer.CloseWithBytesTransferred client h bc bcl comp lbl now =
      .ok (h, none) ∧
    AnyTransferTimer.NoOpTransferTimer.Record bc dur comp = none := by
  refine ⟨?_, ?_, ?_, rfl, rfl, rfl, rfl, rfl, rfl, rfl⟩
  · unfold Register
    by_cases hc : target = "" ∨ workers < 1
    · simp [hc]
    · rw [if_neg hc]
      cases dial target <;> simp [hc]
  · unfold Register
    by_cases hc : target = "" ∨ workers < 1
    · simp [hc]
    · rw [if_neg hc]
      cases dial target <;> simp [hc]
  · unfold Register
    by_cases hc : target = "" ∨ workers < 1
    · simp [hc]
    · rw [if_neg hc]
      cases dial target <;> simp


/-- C12: for a `HitTrackerClient`, closing the timer of `TrackUpload` runs
`enqueue` once, on a hit of request type WRITE, when the context has skip_remote
set, and leaves the factory untouched when it has not; closing the timer of
`TrackDownload` runs `enqueue` once, on a hit of request type READ, in both
cases; `TrackMiss` and `SetExecutedActionMetadata` leave the factory as it is. -/
theorem timers_enqueue_by_request_type (client : HitTrackerServiceClient)
    (h : HitTrackerFactory) (c : HitTrackerClient) (d lbl : String) (start now comp : Nat)
    (bc bcl : Int) :
    ((AnyHitTracker.HitTrackerClient c).TrackUpload d start).CloseWithBytesTransferred
        client h bc bcl comp lbl now =
      (if c.ctx.skipRemote then
        match h.enqueue client c.ctx
          { requestMetadata := c.requestMetadata, digest := d, cacheType := c.cacheType,
            sizeBytes := bcl, duration := now - start, cacheRequestType := .WRITE } with
        | .error e => .error e
        | .ok h1 => .ok (h1, none)
      else .ok (h, none)) ∧
    ((AnyHitTracker.HitTrackerClient c).TrackDownload d start).CloseWithBytesTransferred
        client h bc bcl comp lbl now =
      (match h.enqueue client c.ctx
          { requestMetadata := c.requestMetadata, digest := d, cacheType := c.cacheType,
            sizeBytes := bcl, duration := now - start, cacheRequestType := .READ } with
        | .error e => .error e
        | .ok h1 => .ok (h1, none)) ∧
    ((AnyHitTracker.HitTrackerClient c).TrackMiss h d).1 = h ∧
    ((AnyHitTracker.HitTrackerClient c).SetExecutedActionMetadata h).1 = h := by
  refine ⟨?_, rfl, rfl, ?_⟩
  · by_cases hs : c.ctx.skipRemote = true
    · simp [AnyHitTracker.TrackUpload, SkipRemote, hs,
        AnyTransferTimer.CloseWithBytesTransferred, TransferTimer.cacheHit]
    · simp [AnyHitTracker.TrackUpload, SkipRemote, hs,
        AnyTransferTimer.CloseWithBytesTransferred]
  · unfold AnyHitTracker.SetExecutedActionMetadata
    by_cases hs : SkipRemote c.ctx = true
    · simp [hs]
    · simp [hs]


/-! ## The flush loop terminates for all non-negative flags -/

theorem enqueue_eq_of_quit (client : HitTrackerServiceClient) (h : HitTrackerFactory)
    (ctx : Context) (hit : CacheHit) (hq : h.quitClosed = true) :
    h.enqueue client ctx hit = .ok
      { h with trackCalls := h.trackCalls ++
          [{ caller := .enqueue, gid := h.groupID ctx, authHeaders := ctx.authHeaders,
             usageHeaders := ctx.usageHeaders, hits := [hit],
             failed := client ctx.authHeaders ctx.usageHeaders [hit] }] } := by
  simp [HitTrackerFactory.enqueue, HitTrackerFactory.shouldFlushSynchronously, hq]

theorem inv_of_heap_eq (h h1 : HitTrackerFactory) (hinv : Inv h)
    (hheap : h1.heap = h.heap) (hmap : h1.hitsByGroup = h.hitsByGroup)
    (hqueue : h1.hitsQueue = h.hitsQueue)
    (hmp : h1.maxPendingHitsPerGroup = h.maxPendingHitsPerGroup) : Inv h1 where
  queueNodup := by rw [hqueue]; exact hinv.queueNodup
  queueValid := by rw [hqueue, hheap]; exact hinv.queueValid
  gidInj := by rw [hqueue, hheap]; exact hinv.gidInj
  mapQueue := by rw [hqueue, hheap, hmap]; exact hinv.mapQueue
  bounded := by rw [hheap, hmp]; exact hinv.bounded
  nonempty := by rw [hqueue, hheap, hmp]; exact hinv.nonempty

/-- One `sendTrackRequest` on a factory that satisfies the invariant, with a
non-negative cap per update: it returns, keeps the invariant and the flags, and
lowers the total number of queued hits by exactly the count it returns. -/
theorem send_total (client : HitTrackerServiceClient) (h : HitTrackerFactory)
    (hinv : Inv h) (hu : 0 ≤ h.maxHitsPerUpdate) :
    ∃ h1 k, h.sendTrackRequest client = .ok (h1, k) ∧ Inv h1 ∧
      h1.maxPendingHitsPerGroup = h.maxPendingHitsPerGroup ∧
      h1.maxHitsPerUpdate = h.maxHitsPerUpdate ∧
      h1.quitClosed = h.quitClosed ∧
      totalHits h1 + k = totalHits h ∧
      (h.hitsQueue = [] → h1 = h) := by
  cases hq : h.hitsQueue with
  | nil =>
    exact ⟨h, 0, send_eq_of_empty client h hq, hinv, rfl, rfl, rfl, rfl, fun _ => rfl⟩
  | cons p rest =>
    obtain ⟨hnot, _, ⟨c, hc⟩, _⟩ := inv_head h p rest hinv hq
    have htot : totalHits h = c.hits.length + (rest.map (lenAt h.heap)).sum := by
      simp [totalHits, hq, lenAt, hc]
    by_cases hle : (c.hits.length : Int) ≤ h.maxHitsPerUpdate
    · refine ⟨_, _, send_eq_of_whole client h p rest c hq hc hle,
        inv_send_whole client h p rest c hinv hq hc, rfl, rfl, rfl, ?_, ?_⟩
      · rw [htot]
        simp only [totalHits]
        omega
      · intro hnil
        cases hnil
    · have hgt : h.maxHitsPerUpdate < (c.hits.length : Int) := by omega
      have hlen : (h.heap.set p { c with hits := c.hits.take h.maxHitsPerUpdate.toNat }).length =
          h.heap.length := List.length_set _ _ _
      have hnew := heap_get_append_new
        (h.heap.set p { c with hits := c.hits.take h.maxHitsPerUpdate.toNat })
        (remainderCacheHits c h.maxHitsPerUpdate.toNat)
      rw [hlen] at hnew
      have hvr : ∀ q ∈ rest, q < h.heap.length := fun q hqr =>
        hinv.queueValid q (by rw [hq]; exact List.mem_cons_of_mem _ hqr)
      refine ⟨_, _, send_eq_of_split client h p rest c hq hc hgt hu,
        inv_send_split client h p rest c _ hinv hq hc (by omega), rfl, rfl, rfl, ?_, ?_⟩
      · rw [htot]
        simp only [totalHits, List.map_append, List.map_cons, List.map_nil, List.sum_append,
          List.sum_cons, List.sum_nil]
        have hrest : rest.map (lenAt (h.heap.set p
            { c with hits := c.hits.take h.maxHitsPerUpdate.toNat } ++
              [remainderCacheHits c h.maxHitsPerUpdate.toNat])) = rest.map (lenAt h.heap) := by
          apply List.map_congr_left
          intro q hqr
          unfold lenAt
          rw [heap_get_append_old _ _ _ (by rw [hlen]; exact hvr q hqr),
            heap_get_set_of_get h.heap p q c _ hc, if_neg (fun e : q = p => hnot (e ▸ hqr))]
        have hlast : lenAt (h.heap.set p
            { c with hits := c.hits.take h.maxHitsPerUpdate.toNat } ++
              [remainderCacheHits c h.maxHitsPerUpdate.toNat]) h.heap.length =
              c.hits.length - h.maxHitsPerUpdate.toNat := by
          unfold lenAt
          rw [hnew]
          simp [remainderCacheHits]
        rw [hrest, hlast]
        omega
      · intro hnil
        cases hnil

theorem flushLoop_terminates (client : HitTrackerServiceClient) (n : Nat) :
    ∀ h : HitTrackerFactory, Inv h → 0 ≤ h.maxHitsPerUpdate → totalHits h ≤ n →
      ∃ h1, (∀ fuel, n + 1 ≤ fuel → flushLoop client fuel h = .ok h1) ∧ Inv h1 ∧
        h1.quitClosed = h.quitClosed := by
  induction n with
  | zero =>
    intro h hinv hu htot
    obtain ⟨h1, k, hs, hinv1, _, _, hq1, hdec, _⟩ := send_total client h hinv hu
    have hk : k = 0 := by omega
    subst hk
    refine ⟨h1, ?_, hinv1, hq1⟩
    intro fuel hf
    obtain ⟨f, rfl⟩ : ∃ f, fuel = f + 1 := ⟨fuel - 1, by omega⟩
    rw [flushLoop_succ client f h h1 0 hs]
    simp
  | succ n ih =>
    intro h hinv hu htot
    obtain ⟨h1, k, hs, hinv1, _, hmu1, hq1, hdec, _⟩ := send_total client h hinv hu
    by_cases hk : k > 0
    · obtain ⟨h2, hloop, hinv2, hq2⟩ := ih h1 hinv1 (hmu1 ▸ hu) (by omega)
      refine ⟨h2, ?_, hinv2, hq2.trans hq1⟩
      intro fuel hf
      obtain ⟨f, rfl⟩ : ∃ f, fuel = f + 1 := ⟨fuel - 1, by omega⟩
      rw [flushLoop_succ client f h h1 k hs, if_pos hk]
      exact hloop f (by omega)
    · refine ⟨h1, ?_, hinv1, hq1⟩
      intro fuel hf
      obtain ⟨f, rfl⟩ : ∃ f, fuel = f + 1 := ⟨fuel - 1, by omega⟩
      rw [flushLoop_succ client f h h1 k hs, if_neg hk]

theorem close_returns_nil (client : HitTrackerServiceClient) (h : HitTrackerFactory)
    (t : AnyTransferTimer) (bc bcl : Int) (comp : Nat) (lbl : String) (now : Nat)
    (hh : Inv h ∨ h.quitClosed = true) :
    ∃ h1, t.CloseWithBytesTransferred client h bc bcl comp lbl now = .ok (h1, none) := by
  cases t with
  | NoOpTransferTimer => exact ⟨h, rfl⟩
  | TransferTimer t =>
    simp only [AnyTransferTimer.CloseWithBytesTransferred]
    by_cases hq : h.quitClosed = true
    · rw [enqueue_eq_of_quit client h _ _ hq]
      exact ⟨_, rfl⟩
    · rcases hh with hinv | hq1
      · obtain ⟨h1, he, _⟩ := enqueue_ok client h h.maxPendingHitsPerGroup h.maxHitsPerUpdate
          t.ctx (t.cacheHit bcl now) ⟨hinv, by simpa using hq, rfl, rfl⟩
        rw [he]
        exact ⟨h1, rfl⟩
      · exact absurd hq1 hq


/-- C14: hit tracking never fails the foreground request.  In every state
reached from an empty factory (cap per update not negative) closing any timer
returns `nil`, whether the hit is enqueued or dropped; `shutdown` returns `nil`
once it has enough fuel, whatever the client answers to the `Track` calls it
issues (so also when all of them fail); and in the state `shutdown` leaves,
closing any timer still returns `nil`, whatever the client answers to the
synchronous `Track` call. -/
theorem hit_tracking_never_fails_request (client : HitTrackerServiceClient) (mp mu : Int)
    (hu : 0 ≤ mu) (ops : List Op) (t : AnyTransferTimer) (bc bcl : Int) (comp : Nat)
    (lbl : String) (now : Nat) :
    ∃ h, run client ops (newHitTrackerClient mp mu) = .ok h ∧
      (∃ h1, t.CloseWithBytesTransferred client h bc bcl comp lbl now = .ok (h1, none)) ∧
      ∃ fuel0 h2, (∀ fuel, fuel0 ≤ fuel → h.shutdown client fuel = .ok (h2, none)) ∧
        h2.quitClosed = true ∧
        ∃ h3, t.CloseWithBytesTransferred client h2 bc bcl comp lbl now = .ok (h3, none) := by
  obtain ⟨h, hr, hinv, hq, _, hmu⟩ := run_ok client ops _ mp mu (open_new mp mu) hu
  have hinv0 : Inv { h with quitClosed := true } := inv_of_heap_eq h _ hinv rfl rfl rfl rfl
  obtain ⟨h2, hloop, _, hq2⟩ := flushLoop_terminates client (totalHits h)
    { h with quitClosed := true } hinv0 (by rw [← hmu] at hu; exact hu) (Nat.le_refl _)
  have hq2 : h2.quitClosed = true := hq2
  refine ⟨h, hr, close_returns_nil client h t bc bcl comp lbl now (Or.inl hinv),
    totalHits h + 1, h2, ?_, hq2, close_returns_nil client h2 t bc bcl comp lbl now (Or.inr hq2)⟩
  intro fuel hf
  unfold HitTrackerFactory.shutdown
  rw [if_neg (by rw [hq]; simp), hloop fuel hf]

theorem hit_tracking_never_fails_request_witness :
    ∃ h, run failingClient sampleOps (newHitTrackerClient 1 1) = .ok h ∧
      (∃ h1, (AnyTransferTimer.TransferTimer
          { ctx := ctxG "a", requestMetadata := "md", digest := "d", start := 0,
            cacheType := .CAS, cacheRequestType := .READ }).CloseWithBytesTransferred
          failingClient h 10 20 0 "label" 5 = .ok (h1, none)) ∧
      ∃ fuel0 h2, (∀ fuel, fuel0 ≤ fuel → h.shutdown failingClient fuel = .ok (h2, none)) ∧
        h2.quitClosed = true ∧
        ∃ h3, (AnyTransferTimer.TransferTimer
          { ctx := ctxG "a", requestMetadata := "md", digest := "d", start := 0,
            cacheType := .CAS, cacheRequestType := .READ }).CloseWithBytesTransferred
          failingClient h2 10 20 0 "label" 5 = .ok (h3, none) :=
  hit_tracking_never_fails_request failingClient 1 1 (by decide) sampleOps _ 10 20 0 "label" 5


/-- C15: the hit that `CloseWithBytesTransferred` hands to `enqueue` has
`SizeBytes` equal to `bytesTransferredClient`, whatever `bytesTransferredCache`,
the compressor and the server label are; it carries the request metadata given
to the factory and the digest given to `TrackDownload` or `TrackUpload`; its
cache type is CAS for a tracker from `NewCASHitTracker` and AC for one from
`NewACHitTracker`. -/
theorem cache_hit_record_fields (client : HitTrackerServiceClient)
    (f h : HitTrackerFactory) (ctx : Context) (md d lbl : String) (start now comp : Nat)
    (bc bcl : Int) :
    (((AnyHitTrackerFactory.HitTrackerFactory f).NewCASHitTracker ctx md).TrackDownload d
        start).CloseWithBytesTransferred client h bc bcl comp lbl now =
      (match h.enqueue client ctx
          { requestMetadata := md, digest := d, cacheType := .CAS, sizeBytes := bcl,
            duration := now - start, cacheRequestType := .READ } with
        | .error e => .error e
        | .ok h1 => .ok (h1, none)) ∧
    (((AnyHitTrackerFactory.HitTrackerFactory f).NewACHitTracker ctx md).1.TrackDownload d
        start).CloseWithBytesTransferred client h bc bcl comp lbl now =
      (match h.enqueue client ctx
          { requestMetadata := md, digest := d, cacheType := .AC, sizeBytes := bcl,
            duration := now - start, cacheRequestType := .READ } with
        | .error e => .error e
        | .ok h1 => .ok (h1, none)) ∧
    (((AnyHitTrackerFactory.HitTrackerFactory f).NewCASHitTracker
        { ctx with skipRemote := true } md).TrackUpload d
        start).CloseWithBytesTransferred client h bc bcl comp lbl now =
      (match h.enqueue client { ctx with skipRemote := true }
          { requestMetadata := md, digest := d, cacheType := .CAS, sizeBytes := bcl,
            duration := now - start, cacheRequestType := .WRITE } with
        | .error e => .error e
        | .ok h1 => .ok (h1, none)) ∧
    (((AnyHitTrackerFactory.HitTrackerFactory f).NewACHitTracker
        { ctx with skipRemote := true } md).1.TrackUpload d
        start).CloseWithBytesTransferred client h bc bcl comp lbl now =
      (match h.enqueue client { ctx with skipRemote := true }
          { requestMetadata := md, digest := d, cacheType := .AC, sizeBytes := bcl,
            duration := now - start, cacheRequestType := .WRITE } with
        | .error e => .error e
        | .ok h1 => .ok (h1, none)) :=
  ⟨rfl, rfl, rfl, rfl⟩


/-! ## Header capture -/

theorem updateLabel_eq_true_iff (b : Bool) : updateLabel b = updateLabel true ↔ b = true := by
  cases b
  · simp only [updateLabel]
    decide
  · simp

theorem updates_snoc_iff (us : List (groupID × String)) (g0 g : groupID) (b : Bool) :
    us ++ [(g0, updateLabel b)] = us ++ [(g, updateLabel true)] ↔ (g0 = g ∧ b = true) := by
  rw [List.append_cancel_left_eq]
  simp only [List.cons.injEq, Prod.mk.injEq, and_true, updateLabel_eq_true_iff]

theorem headersOk_enqueue (client : HitTrackerServiceClient) (h h1 : HitTrackerFactory)
    (mp mu : Int) (ctx : Context) (hit : CacheHit) (g : groupID)
    (acc : Option (Headers × Headers)) (ho : Open h mp mu) (hok : HeadersOk acc h g)
    (he : h.enqueue client ctx hit = .ok h1) :
    HeadersOk
      (if h.groupID ctx = g ∧ h1.updates = h.updates ++ [(g, updateLabel true)] then
        some (ctx.authHeaders, originUsageHeaders ctx)
      else acc) h1 g := by
  obtain ⟨hinv, hq, _, _⟩ := ho
  cases hl : mapLookup h.hitsByGroup (h.groupID ctx) with
  | some p =>
    obtain ⟨c, hc, hcg, hpq, _⟩ := inv_enqueue_present h ctx hit p hinv hl
    rw [enqueue_eq_of_present client h ctx hit p c hq hl hc] at he
    cases he
    simp only [updates_snoc_iff]
    intro q d hlq hd hne
    have hd1 : (h.heap.set p (c.enqueue hit ctx.authHeaders (originUsageHeaders ctx)).1)[q]? =
        some d := hd
    have hlq1 : mapLookup h.hitsByGroup g = some q := hlq
    rw [heap_get_set_of_get h.heap p q c _ hc] at hd1
    by_cases hg : h.groupID ctx = g
    · subst hg
      rw [hl] at hlq1
      cases hlq1
      simp only [if_true, Option.some.injEq] at hd1
      by_cases hacc : (c.enqueue hit ctx.authHeaders (originUsageHeaders ctx)).2 = true
      · have hlt := (cacheHits_enqueue_true_iff c hit ctx.authHeaders
          (originUsageHeaders ctx)).mp hacc
        rw [cacheHits_enqueue_accept c hit _ _ hlt] at hd1
        rw [if_pos ⟨rfl, rfl, hacc⟩, ← hd1]
      · have hge : c.maxPendingHitsPerGroup ≤ (c.hits.length : Int) := by
          have := (cacheHits_enqueue_true_iff c hit ctx.authHeaders
            (originUsageHeaders ctx)).not.mp hacc
          omega
        rw [cacheHits_enqueue_drop c hit _ _ hge] at hd1
        rw [if_neg (fun hx => hacc hx.2.2)]
        simp only at hd1
        subst hd1
        exact hok p c hl hc hne
    · rw [if_neg (fun hx => hg hx.1)]
      have hqp : q ≠ p := lookup_ne_of_gid_ne h hinv g _ p q (fun e => hg e.symm) hl hlq1
      rw [if_neg hqp] at hd1
      exact hok q d hlq1 hd1 hne
  | none =>
    rw [enqueue_eq_of_absent client h ctx hit hq hl] at he
    cases he
    simp only [updates_snoc_iff]
    intro q d hlq hd hne
    have hd1 : (h.heap ++ [((newCacheHits h.maxPendingHitsPerGroup (h.groupID ctx)).enqueue hit
        ctx.authHeaders (originUsageHeaders ctx)).1])[q]? = some d := hd
    have hlq1 : mapLookup (mapInsert h.hitsByGroup (h.groupID ctx) h.heap.length) g = some q :=
      hlq
    by_cases hg : h.groupID ctx = g
    · subst hg
      rw [mapLookup_mapInsert_self] at hlq1
      cases hlq1
      rw [heap_get_append_new] at hd1
      cases hd1
      by_cases hacc : ((newCacheHits h.maxPendingHitsPerGroup (h.groupID ctx)).enqueue hit
          ctx.authHeaders (originUsageHeaders ctx)).2 = true
      · have hlt := (cacheHits_enqueue_true_iff _ hit ctx.authHeaders
          (originUsageHeaders ctx)).mp hacc
        rw [if_pos ⟨rfl, rfl, hacc⟩, cacheHits_enqueue_accept _ hit _ _ hlt]
      · have hge : (newCacheHits h.maxPendingHitsPerGroup (h.groupID ctx)).maxPendingHitsPerGroup ≤
            ((newCacheHits h.maxPendingHitsPerGroup (h.groupID ctx)).hits.length : Int) := by
          have := (cacheHits_enqueue_true_iff _ hit ctx.authHeaders
            (originUsageHeaders ctx)).not.mp hacc
          omega
        rw [cacheHits_enqueue_drop _ hit _ _ hge] at hne
        exact absurd rfl hne
    · rw [if_neg (fun hx => hg hx.1)]
      rw [mapLookup_mapInsert_ne _ _ _ _ (fun e => hg e.symm)] at hlq1
      have hqv : q < h.heap.length := hinv.queueValid q ((hinv.mapQueue g q).mp hlq1).1
      rw [heap_get_append_old _ _ _ hqv] at hd1
      exact hok q d hlq1 hd1 hne


/-! ## Reachable states, the flush loop and the batch cell -/

theorem run_open_of_ok (client : HitTrackerServiceClient) (ops : List Op)
    (h h1 : HitTrackerFactory) (mp mu : Int) (ho : Open h mp mu)
    (hr : run client ops h = .ok h1) : Open h1 mp mu := by
  induction ops generalizing h with
  | nil =>
    simp only [run, Except.ok.injEq] at hr
    subst hr
    exact ho
  | cons op ops ih =>
    simp only [run] at hr
    cases hs : step client h op with
    | error e => simp [hs] at hr
    | ok h2 =>
      simp only [hs] at hr
      exact ih h2 (step_open_of_ok client h h2 mp mu op ho hs) hr

theorem map_eq_nil_of_lookup_none (m : List (groupID × Nat))
    (hm : ∀ g, mapLookup m g = none) : m = [] := by
  cases m with
  | nil => rfl
  | cons kp rest =>
    obtain ⟨k, p⟩ := kp
    have := hm k
    simp [mapLookup] at this

theorem map_eq_nil_of_queue_nil (h : HitTrackerFactory) (hinv : Inv h)
    (hq : h.hitsQueue = []) : h.hitsByGroup = [] := by
  apply map_eq_nil_of_lookup_none
  intro g
  cases hl : mapLookup h.hitsByGroup g with
  | none => rfl
  | some p =>
    have := ((hinv.mapQueue g p).mp hl).1
    rw [hq] at this
    cases this

theorem totalHits_of_queue_nil (h : HitTrackerFactory) (hq : h.hitsQueue = []) :
    totalHits h = 0 := by
  simp [totalHits, hq]

/-- Any number of `sendTrackRequest` calls in a row return and keep the
invariant and the flags, whatever the state of the quit channel. -/
theorem sends_ok (client : HitTrackerServiceClient) (n : Nat) :
    ∀ s : HitTrackerFactory, Inv s → 0 ≤ s.maxHitsPerUpdate →
      ∃ s1, run client (List.replicate n Op.sendTrackRequest) s = .ok s1 ∧ Inv s1 ∧
        s1.maxPendingHitsPerGroup = s.maxPendingHitsPerGroup ∧
        s1.maxHitsPerUpdate = s.maxHitsPerUpdate ∧ s1.quitClosed = s.quitClosed := by
  induction n with
  | zero =>
    intro s hinv _
    exact ⟨s, rfl, hinv, rfl, rfl, rfl⟩
  | succ n ih =>
    intro s hinv hu
    obtain ⟨s1, k, hs, hinv1, hmp1, hmu1, hq1, _, _⟩ := send_total client s hinv hu
    obtain ⟨s2, hr2, hinv2, hmp2, hmu2, hq2⟩ := ih s1 hinv1 (by rw [hmu1]; exact hu)
    refine ⟨s2, ?_, hinv2, by rw [hmp2, hmp1], by rw [hmu2, hmu1], by rw [hq2, hq1]⟩
    simp only [List.replicate_succ, run, step, hs]
    exact hr2

/-- C24: with `maxPendingHitsPerGroup >= 1` and `maxHitsPerUpdate >= 1`, take
any state `s` reached from an empty factory by `enqueue` and `sendTrackRequest`
calls, then (for the loop of `shutdown`) optionally closing `quit`, then any
number of further `sendTrackRequest` calls (the states a flush loop passes
through).  In `s` a call of `sendTrackRequest` returns, lowers the total number
of pending hits by exactly the count it returns, and returns 0 exactly when the
ready queue is empty; and the loop `for sendTrackRequest() > 0` started in `s`
terminates (any fuel above the number of pending hits is enough) in a state
whose `hitsQueue` and `hitsByGroup` are both empty. -/
theorem flush_loop_terminates_with_nothing_left (client : HitTrackerServiceClient)
    (mp mu : Int) (hp : 1 ≤ mp) (hu : 1 ≤ mu) (ops : List Op) (q : Bool) (n : Nat) :
    ∃ h s, run client ops (newHitTrackerClient mp mu) = .ok h ∧
      run client (List.replicate n Op.sendTrackRequest) { h with quitClosed := q } = .ok s ∧
      (∃ s1 k, s.sendTrackRequest client = .ok (s1, k) ∧
        totalHits s1 + k = totalHits s ∧ (k = 0 ↔ s.hitsQueue = [])) ∧
      (∃ s1, (∀ fuel, totalHits s + 1 ≤ fuel → flushLoop client fuel s = .ok s1) ∧
        s1.hitsQueue = [] ∧ s1.hitsByGroup = [] ∧ totalHits s1 = 0) := by
  obtain ⟨h, hr, hinv, _, hmp, hmu⟩ :=
    run_ok client ops _ mp mu (open_new mp mu) (by omega)
  have hinvq : Inv { h with quitClosed := q } := inv_of_heap_eq h _ hinv rfl rfl rfl rfl
  have huq : (0 : Int) ≤ ({ h with quitClosed := q } : HitTrackerFactory).maxHitsPerUpdate := by
    show 0 ≤ h.maxHitsPerUpdate
    omega
  obtain ⟨s, hrs, hinvs, hmps, hmus, _⟩ := sends_ok client n _ hinvq huq
  have hmps1 : 1 ≤ s.maxPendingHitsPerGroup := by
    rw [hmps]
    show 1 ≤ h.maxPendingHitsPerGroup
    omega
  have hmus1 : 1 ≤ s.maxHitsPerUpdate := by
    rw [hmus]
    show 1 ≤ h.maxHitsPerUpdate
    omega
  refine ⟨h, s, hr, hrs, ?_, ?_⟩
  · cases hq : s.hitsQueue with
    | nil => exact ⟨s, 0, send_eq_of_empty client s hq, rfl, by simp⟩
    | cons p rest =>
      obtain ⟨s1, k, _, hs, hk, _, _, _, htot, _⟩ :=
        send_step client s p rest hinvs hmps1 hmus1 hq
      refine ⟨s1, k, hs, htot, ?_⟩
      constructor
      · intro hk0
        omega
      · intro hnil
        cases hnil
  · obtain ⟨s1, calls, hloop, hq1, hinv1, _, _, _⟩ :=
      flushLoop_spec client (totalHits s) s hinvs hmps1 hmus1 (Nat.le_refl _)
    exact ⟨s1, hloop, hq1, map_eq_nil_of_queue_nil s1 hinv1 hq1,
      totalHits_of_queue_nil s1 hq1⟩

theorem flush_loop_terminates_with_nothing_left_witness :
    (1 : Int) ≤ 5 ∧ (1 : Int) ≤ 2 ∧
    ∃ h s, run okClient
        [.enqueue (ctxG "a") (hitN 1), .enqueue (ctxG "a") (hitN 2),
         .enqueue (ctxG "a") (hitN 3), .enqueue (ctxG "b") (hitN 4)]
        (newHitTrackerClient 5 2) = .ok h ∧
      run okClient (List.replicate 1 Op.sendTrackRequest) { h with quitClosed := true } = .ok s ∧
      (∃ s1 k, s.sendTrackRequest okClient = .ok (s1, k) ∧
        totalHits s1 + k = totalHits s ∧ (k = 0 ↔ s.hitsQueue = [])) ∧
      (∃ s1, (∀ fuel, totalHits s + 1 ≤ fuel → flushLoop okClient fuel s = .ok s1) ∧
        s1.hitsQueue = [] ∧ s1.hitsByGroup = [] ∧ totalHits s1 = 0) :=
  ⟨by decide, by decide,
    flush_loop_terminates_with_nothing_left okClient 5 2 (by decide) (by decide) _ true 1⟩

/-- C26: in every state reached from an empty factory by `enqueue` and
`sendTrackRequest` calls, whatever the flags, the queue holds valid pointers to
batches of pairwise distinct group ids (no id occurs in two queued batches), a
group id is a key of `hitsByGroup` exactly when a queued batch carries that id,
and `hitsByGroup` maps the id to that very batch: the pointer stored under the
id is in the queue and points to a batch of that id, and it is the only queued
pointer that does. -/
theorem map_and_queue_hold_same_batches (client : HitTrackerServiceClient) (mp mu : Int)
    (ops : List Op) (h : HitTrackerFactory)
    (hr : run client ops (newHitTrackerClient mp mu) = .ok h) :
    (∀ p ∈ h.hitsQueue, ∃ c, h.heap[p]? = some c) ∧
    (h.hitsQueue.map (gidAt h.heap)).Nodup ∧
    (∀ g, (∃ p, mapLookup h.hitsByGroup g = some p) ↔
      ∃ p ∈ h.hitsQueue, gidAt h.heap p = some g) ∧
    (∀ g p, mapLookup h.hitsByGroup g = some p →
      p ∈ h.hitsQueue ∧ gidAt h.heap p = some g ∧
      ∀ q ∈ h.hitsQueue, gidAt h.heap q = some g → q = p) := by
  obtain ⟨hinv, _, _, _⟩ :=
    run_open_of_ok client ops _ h mp mu (open_new mp mu) hr
  refine ⟨?_, ?_, ?_, ?_⟩
  · intro p hp
    exact heap_get_of_lt (hinv.queueValid p hp)
  · exact List.Nodup.map_on (fun p hp q hq hpq => hinv.gidInj p hp q hq hpq) hinv.queueNodup
  · intro g
    constructor
    · rintro ⟨p, hl⟩
      exact ⟨p, (hinv.mapQueue g p).mp hl⟩
    · rintro ⟨p, hp, hg⟩
      exact ⟨p, (hinv.mapQueue g p).mpr ⟨hp, hg⟩⟩
  · intro g p hl
    obtain ⟨hp, hg⟩ := (hinv.mapQueue g p).mp hl
    refine ⟨hp, hg, ?_⟩
    intro q hq hqg
    exact hinv.gidInj q hq p hp (by rw [hqg, hg])

theorem map_and_queue_hold_same_batches_witness :
    ∃ h, run okClient
        [.enqueue (ctxG "a") (hitN 1), .enqueue (ctxG "a") (hitN 2),
         .enqueue (ctxG "b") (hitN 3), .sendTrackRequest, .enqueue (ctxG "a") (hitN 4)]
        (newHitTrackerClient 5 1) = .ok h ∧
      h.hitsQueue = [1, 2] ∧ h.hitsByGroup = [("a", 2), ("b", 1)] ∧
      (∀ p ∈ h.hitsQueue, ∃ c, h.heap[p]? = some c) ∧
      (h.hitsQueue.map (gidAt h.heap)).Nodup ∧
      (∀ g, (∃ p, mapLookup h.hitsByGroup g = some p) ↔
        ∃ p ∈ h.hitsQueue, gidAt h.heap p = some g) ∧
      (∀ g p, mapLookup h.hitsByGroup g = some p →
        p ∈ h.hitsQueue ∧ gidAt h.heap p = some g ∧
        ∀ q ∈ h.hitsQueue, gidAt h.heap q = some g → q = p) :=
  ⟨_, rfl, rfl, rfl,
    map_and_queue_hold_same_batches okClient 5 1
      [.enqueue (ctxG "a") (hitN 1), .enqueue (ctxG "a") (hitN 2),
       .enqueue (ctxG "b") (hitN 3), .sendTrackRequest, .enqueue (ctxG "a") (hitN 4)] _ rfl⟩

/-- C27: `cacheHits.enqueue` is all or nothing on the batch.  It returns false
exactly when the batch already holds `maxPendingHitsPerGroup` hits or more, and
then the batch (hit list, auth headers, usage headers, and the rest) is what it
was before the call; when it returns true the hit list is the old list with the
new hit appended at the end, both header fields are the arguments of the call,
and the group id and the cap are unchanged. -/
theorem dropped_enqueue_is_atomic (c : cacheHits) (hit : CacheHit)
    (authHeaders usageHeaders : Headers) :
    ((c.enqueue hit authHeaders usageHeaders).2 = false ↔
      c.maxPendingHitsPerGroup ≤ (c.hits.length : Int)) ∧
    ((c.enqueue hit authHeaders usageHeaders).2 = false →
      (c.enqueue hit authHeaders usageHeaders).1 = c) ∧
    ((c.enqueue hit authHeaders usageHeaders).2 = true →
      (c.enqueue hit authHeaders usageHeaders).1.hits = c.hits ++ [hit] ∧
      (c.enqueue hit authHeaders usageHeaders).1.authHeaders = authHeaders ∧
      (c.enqueue hit authHeaders usageHeaders).1.usageHeaders = usageHeaders ∧
      (c.enqueue hit authHeaders usageHeaders).1.gid = c.gid ∧
      (c.enqueue hit authHeaders usageHeaders).1.maxPendingHitsPerGroup =
        c.maxPendingHitsPerGroup) := by
  by_cases hge : c.maxPendingHitsPerGroup ≤ (c.hits.length : Int)
  · rw [cacheHits_enqueue_drop c hit authHeaders usageHeaders hge]
    simp [hge]
  · rw [cacheHits_enqueue_accept c hit authHeaders usageHeaders (by omega)]
    simp [hge]

theorem headersOk_send (client : HitTrackerServiceClient) (h h1 : HitTrackerFactory)
    (mp mu : Int) (k : Nat) (g : groupID) (acc : Option (Headers × Headers))
    (ho : Open h mp mu) (hok : HeadersOk acc h g)
    (hs : h.sendTrackRequest client = .ok (h1, k)) : HeadersOk acc h1 g := by
  obtain ⟨hinv, _, _, _⟩ := ho
  cases hq : h.hitsQueue with
  | nil =>
    rw [send_eq_of_empty client h hq] at hs
    cases hs
    exact hok
  | cons p rest =>
    obtain ⟨_, _, ⟨c, hc⟩, _⟩ := inv_head h p rest hinv hq
    have hlp : mapLookup h.hitsByGroup c.gid = some p := lookup_head h hinv p rest c hq hc
    by_cases hle : (c.hits.length : Int) ≤ h.maxHitsPerUpdate
    · rw [send_eq_of_whole client h p rest c hq hc hle] at hs
      cases hs
      intro q d hlq hd hne
      have hlq1 : mapLookup (mapDelete h.hitsByGroup c.gid) g = some q := hlq
      by_cases hg : g = c.gid
      · subst hg
        rw [mapLookup_mapDelete_self] at hlq1
        cases hlq1
      · rw [mapLookup_mapDelete_ne _ _ _ hg] at hlq1
        exact hok q d hlq1 hd hne
    · by_cases hu : h.maxHitsPerUpdate < 0
      · rw [send_panics_of_negative client h p rest c hq hc hu] at hs
        cases hs
      · rw [send_eq_of_split client h p rest c hq hc (by omega) (by omega)] at hs
        cases hs
        have hlen : (h.heap.set p { c with hits := c.hits.take h.maxHitsPerUpdate.toNat }).length =
            h.heap.length := List.length_set _ _ _
        intro q d hlq hd hne
        have hlq1 : mapLookup (mapInsert h.hitsByGroup c.gid h.heap.length) g = some q := hlq
        have hd1 : (h.heap.set p { c with hits := c.hits.take h.maxHitsPerUpdate.toNat } ++
            [remainderCacheHits c h.maxHitsPerUpdate.toNat])[q]? = some d := hd
        by_cases hg : g = c.gid
        · subst hg
          rw [mapLookup_mapInsert_self] at hlq1
          cases hlq1
          have hnew := heap_get_append_new
            (h.heap.set p { c with hits := c.hits.take h.maxHitsPerUpdate.toNat })
            (remainderCacheHits c h.maxHitsPerUpdate.toNat)
          rw [hlen] at hnew
          rw [hnew] at hd1
          cases hd1
          have hcne : c.hits ≠ [] := by
            intro hnil
            apply hne
            simp [remainderCacheHits, hnil]
          exact hok p c hlp hc hcne
        · rw [mapLookup_mapInsert_ne _ _ _ _ hg] at hlq1
          have hqp : q ≠ p := lookup_ne_of_gid_ne h hinv g c.gid p q hg hlp hlq1
          have hqv : q < h.heap.length := hinv.queueValid q ((hinv.mapQueue g q).mp hlq1).1
          rw [heap_get_append_old _ _ _ (by rw [hlen]; exact hqv),
            heap_get_set_of_get h.heap p q c _ hc, if_neg hqp] at hd1
          exact hok q d hlq1 hd1 hne

theorem headersOk_run (client : HitTrackerServiceClient) (g : groupID) (mp mu : Int)
    (ops : List Op) :
    ∀ (h h1 : HitTrackerFactory) (acc : Option (Headers × Headers)), Open h mp mu →
      HeadersOk acc h g → run client ops h = .ok h1 →
      HeadersOk (lastAcceptedHeaders client g ops h acc) h1 g := by
  induction ops with
  | nil =>
    intro h h1 acc _ hok hr
    simp only [run, Except.ok.injEq] at hr
    subst hr
    exact hok
  | cons op ops ih =>
    intro h h1 acc ho hok hr
    simp only [run] at hr
    cases hs : step client h op with
    | error e => simp [hs] at hr
    | ok h2 =>
      simp only [hs] at hr
      have ho2 := step_open_of_ok client h h2 mp mu op ho hs
      cases op with
      | enqueue ctx hit =>
        have hok2 := headersOk_enqueue client h h2 mp mu ctx hit g acc ho hok hs
        have := ih h2 h1 _ ho2 hok2 hr
        simp only [lastAcceptedHeaders, hs]
        split
        · rename_i hc
          rw [if_pos hc] at this
          exact this
        · rename_i hc
          rw [if_neg hc] at this
          exact this
      | sendTrackRequest =>
        have hs0 := hs
        simp only [step] at hs0
        cases he : h.sendTrackRequest client with
        | error e => simp [he] at hs0
        | ok r =>
          obtain ⟨h3, k⟩ := r
          simp only [he, Except.ok.injEq] at hs0
          subst hs0
          have hok2 := headersOk_send client h h3 mp mu k g acc ho hok he
          have := ih h3 h1 acc ho2 hok2 hr
          simp only [lastAcceptedHeaders, hs]
          exact this

/-- C13, as the code has it, at a concrete input: with cap 1, group "g" enqueues
a hit under the token "t1" and origin "o1", then a second hit under "t2" and
"o2", which is dropped because the batch is full.  The flush that follows is
sent with the headers of the first call, not with those of the most recent
one. -/
theorem dropped_enqueue_leaves_headers :
    (run okClient
        [.enqueue (ctxWith "g" "t1" "o1") (hitN 1), .enqueue (ctxWith "g" "t2" "o2") (hitN 2),
         .sendTrackRequest]
        (newHitTrackerClient 1 1)).toOption.map
      (fun h => (h.updates, h.trackCalls.map (fun r => (r.authHeaders, r.usageHeaders)))) =
      some ([("g", "enqueued"), ("g", "dropped_too_many_updates")],
            [([("authorization", ["t1"])], [(OriginHeaderName, ["o1"])])]) := by
  rfl

/-- C13, amended: header capture is last-accepted-writer-wins per group.  After
any sequence of calls on an empty factory (cap per update not negative), the
request that the next `sendTrackRequest` issues for a group is sent with the
auth headers and the origin usage header of the most recent `enqueue` for that
group that was accepted (counted as "enqueued", not dropped), also when the
group's batch was split by an earlier flush; this holds whenever the per-group
cap is at least 1 or the request carries a hit. -/
theorem flush_carries_last_accepted_headers (client : HitTrackerServiceClient) (mp mu : Int)
    (hu : 0 ≤ mu) (ops : List Op) :
    ∃ h, run client ops (newHitTrackerClient mp mu) = .ok h ∧
      (h.hitsQueue = [] ∨
        ∃ h1 k r, h.sendTrackRequest client = .ok (h1, k) ∧
          h1.trackCalls = h.trackCalls ++ [r] ∧ r.caller = .sendTrackRequest ∧
          ((1 ≤ mp ∨ r.hits ≠ []) →
            lastAcceptedHeaders client r.gid ops (newHitTrackerClient mp mu) none =
              some (r.authHeaders, r.usageHeaders))) := by
  obtain ⟨h, hr, ho⟩ := run_ok client ops _ mp mu (open_new mp mu) hu
  refine ⟨h, hr, ?_⟩
  obtain ⟨hinv, hq, hmp, hmu⟩ := ho
  cases hqu : h.hitsQueue with
  | nil => exact Or.inl rfl
  | cons p rest =>
    right
    have hv : ∀ q ∈ h.hitsQueue, q < h.heap.length := hinv.queueValid
    obtain ⟨h1, k, c, extra, hc, hs, _, hcalls, _, _, _⟩ :=
      send_summary client h p rest (by rw [hmu]; exact hu) hqu hv
    refine ⟨h1, k, _, hs, hcalls, rfl, ?_⟩
    intro hcond
    have hcne : c.hits ≠ [] := by
      rcases hcond with hpos | hne
      · exact hinv.nonempty (by rw [hmp]; exact hpos) p
          (by rw [hqu]; exact List.mem_cons_self _ _) c hc
      · intro hnil
        apply hne
        simp [trackCallOf, hnil]
    have hok0 : HeadersOk none (newHitTrackerClient mp mu) c.gid := by
      intro q d hlq
      simp [newHitTrackerClient, mapLookup] at hlq
    have hok := headersOk_run client c.gid mp mu ops _ h none (open_new mp mu) hok0 hr
    have := hok p c (lookup_head h hinv p rest c hqu hc) hc hcne
    exact this

theorem flush_carries_last_accepted_headers_witness :
    ∃ h, run okClient
        [.enqueue (ctxWith "g" "t1" "o1") (hitN 1), .enqueue (ctxWith "g" "t2" "o2") (hitN 2)]
        (newHitTrackerClient 1 1) = .ok h ∧
      (h.hitsQueue = [] ∨
        ∃ h1 k r, h.sendTrackRequest okClient = .ok (h1, k) ∧
          h1.trackCalls = h.trackCalls ++ [r] ∧ r.caller = .sendTrackRequest ∧
          ((1 ≤ (1 : Int) ∨ r.hits ≠ []) →
            lastAcceptedHeaders okClient r.gid
                [.enqueue (ctxWith "g" "t1" "o1") (hitN 1),
                 .enqueue (ctxWith "g" "t2" "o2") (hitN 2)]
                (newHitTrackerClient 1 1) none =
              some (r.authHeaders, r.usageHeaders))) :=
  flush_carries_last_accepted_headers okClient 1 1 (by decide) _


end HitTrackerClient


namespace Snaputil

open Status

/-- C16: when both sharing flags are off, which is exactly when
`IsChunkedSnapshotSharingEnabled` is false, `GetArtifact` and `Cache` return an
Unimplemented error for every input and make no call at all (no local-cache
operation, no file creation, no remote transfer); `GetArtifact` returns chunk
source 0, which is `ChunkSourceUnmapped`, and `Cache` returns 0 bytes. -/
theorem sharing_disabled_is_unimplemented (flags : Flags) (env : Env) (ctx : Context)
    (remoteEnabled : Bool) (d : Digest) (instanceName path label : String)
    (hl : flags.EnableLocalSnapshotSharing = false)
    (hr : flags.EnableRemoteSnapshotSharing = false) :
    (∀ fl : Flags, IsChunkedSnapshotSharingEnabled fl = false ↔
      (fl.EnableLocalSnapshotSharing = false ∧ fl.EnableRemoteSnapshotSharing = false)) ∧
    GetArtifact flags env ctx remoteEnabled d instanceName path =
      ((ChunkSourceUnmapped, some { code := .Unimplemented, msg := "Snapshot sharing not enabled" }),
        []) ∧
    Cache flags env ctx remoteEnabled d instanceName path label =
      ((0, some { code := .Unimplemented, msg := "Snapshot sharing not enabled" }), []) := by
  refine ⟨?_, ?_, ?_⟩
  · intro fl
    unfold IsChunkedSnapshotSharingEnabled
    cases fl.EnableLocalSnapshotSharing <;> cases fl.EnableRemoteSnapshotSharing <;> simp
  · simp [GetArtifact, hl, hr, UnimplementedError, ChunkSourceUnmapped]
  · simp [Cache, hl, hr, UnimplementedError]

theorem sharing_disabled_is_unimplemented_witness :
    (∀ fl : Flags, IsChunkedSnapshotSharingEnabled fl = false ↔
      (fl.EnableLocalSnapshotSharing = false ∧ fl.EnableRemoteSnapshotSharing = false)) ∧
    GetArtifact
        { EnableLocalSnapshotSharing := false, EnableRemoteSnapshotSharing := false,
          RemoteSnapshotReadonly := false, VerboseLogging := true,
          storeSnapshotsInLocalClusterOnly := false }
        happyEnv plainCtx true "abc" "inst" "/tmp/out" =
      ((ChunkSourceUnmapped, some { code := .Unimplemented, msg := "Snapshot sharing not enabled" }),
        []) ∧
    Cache
        { EnableLocalSnapshotSharing := false, EnableRemoteSnapshotSharing := false,
          RemoteSnapshotReadonly := false, VerboseLogging := true,
          storeSnapshotsInLocalClusterOnly := false }
        happyEnv plainCtx true "abc" "inst" "/tmp/out" "memory" =
      ((0, some { code := .Unimplemented, msg := "Snapshot sharing not enabled" }), []) :=
  sharing_disabled_is_unimplemented _ happyEnv plainCtx true "abc" "inst" "/tmp/out" "memory"
    rfl rfl

/-- C17, evaluated where it fails: with local sharing off, remote sharing on and
`remote_snapshot_readonly` set, `Cache` opens the file, uploads it to the remote
cache and returns the 42 bytes the upload reports, for `remoteEnabled` true and
false alike: the read-only test sits inside the branch for local sharing. -/
theorem readonly_ignored_without_local_sharing :
    Cache
        { EnableLocalSnapshotSharing := false, EnableRemoteSnapshotSharing := true,
          RemoteSnapshotReadonly := true, VerboseLogging := false,
          storeSnapshotsInLocalClusterOnly := false }
        happyEnv plainCtx true "abc" "inst" "/tmp/mem" "memory" =
      ((42, none),
        [.osOpen "/tmp/mem", .UploadFromReader plainCtx "abc" "inst" "/tmp/mem",
         .uploadSizeMetric "memory" 42]) ∧
    Cache
        { EnableLocalSnapshotSharing := false, EnableRemoteSnapshotSharing := true,
          RemoteSnapshotReadonly := true, VerboseLogging := false,
          storeSnapshotsInLocalClusterOnly := false }
        happyEnv plainCtx false "abc" "inst" "/tmp/mem" "memory" =
      ((42, none),
        [.osOpen "/tmp/mem", .UploadFromReader plainCtx "abc" "inst" "/tmp/mem",
         .uploadSizeMetric "memory" 42]) := by
  constructor <;> rfl

/-- C18, as the code has it, at a concrete input: with local sharing off and
remote sharing on, `Cache` does not return Unimplemented, yet it makes no call to
the local file cache; and with both sharing flags on but `remoteEnabled` false
it adds the file to the local cache and uploads nothing. -/
theorem cache_skips_local_or_remote :
    Cache
        { EnableLocalSnapshotSharing := false, EnableRemoteSnapshotSharing := true,
          RemoteSnapshotReadonly := false, VerboseLogging := false,
          storeSnapshotsInLocalClusterOnly := false }
        happyEnv plainCtx true "abc" "inst" "/tmp/mem" "memory" =
      ((42, none),
        [.osOpen "/tmp/mem", .UploadFromReader plainCtx "abc" "inst" "/tmp/mem",
         .uploadSizeMetric "memory" 42]) ∧
    Cache
        { EnableLocalSnapshotSharing := true, EnableRemoteSnapshotSharing := true,
          RemoteSnapshotReadonly := false, VerboseLogging := false,
          storeSnapshotsInLocalClusterOnly := false }
        happyEnv plainCtx false "abc" "inst" "/tmp/mem" "memory" =
      ((0, none), [.ContainsFile "abc", .AddFile "abc" "/tmp/mem"]) := by
  constructor <;> rfl

theorem cacheLocally_calls (flags : Flags) (env : Env) (ctx : Context) (d : Digest)
    (path : String) (hl : flags.EnableLocalSnapshotSharing = true) :
    (cacheLocally flags env ctx d path).2 =
      (if env.containsFile d then [.ContainsFile d] else [.ContainsFile d, .AddFile d path]) := by
  unfold cacheLocally
  cases hc : env.containsFile d <;> simp [hl]

/-- C18, amended: when local snapshot sharing is enabled, `Cache` first saves the
file at `path` to the local file cache (it asks `ContainsFile` and adds the file
unless it is already contained), these are its only local-cache calls, and it
goes on to upload the file exactly when remote sharing is enabled, remote writes
are not read-only, `remoteEnabled` is true and the file opens; otherwise it
returns 0 bytes with the local-cache error.  With local sharing disabled (the
same flags otherwise) `Cache` makes no local-cache call. -/
theorem cache_saves_locally_then_uploads (flags : Flags) (env : Env) (ctx : Context)
    (remoteEnabled : Bool) (d : Digest) (inst path label : String)
    (hl : flags.EnableLocalSnapshotSharing = true) :
    (cacheLocally flags env ctx d path).2 <+: (Cache flags env ctx remoteEnabled d inst path label).2 ∧
    (Cache flags env ctx remoteEnabled d inst path label).2.filter Call.isLocalCache =
      (if env.containsFile d then [.ContainsFile d] else [.ContainsFile d, .AddFile d path]) ∧
    ((Cache flags env ctx remoteEnabled d inst path label).2.any Call.isUpload = true ↔
      (flags.EnableRemoteSnapshotSharing = true ∧ flags.RemoteSnapshotReadonly = false ∧
        remoteEnabled = true ∧ env.osOpen path = none)) ∧
    (¬ (flags.EnableRemoteSnapshotSharing = true ∧ flags.RemoteSnapshotReadonly = false ∧
        remoteEnabled = true) →
      Cache flags env ctx remoteEnabled d inst path label =
        ((0, (cacheLocally flags env ctx d path).1), (cacheLocally flags env ctx d path).2)) ∧
    (Cache { flags with EnableLocalSnapshotSharing := false } env ctx remoteEnabled d inst path
      label).2.filter Call.isLocalCache = [] := by
  have hloc := cacheLocally_calls flags env ctx d path hl
  have hfl : (cacheLocally flags env ctx d path).2.filter Call.isLocalCache =
      (cacheLocally flags env ctx d path).2 := by
    rw [hloc]
    cases env.containsFile d <;> rfl
  have hup : (cacheLocally flags env ctx d path).2.any Call.isUpload = false := by
    rw [hloc]
    cases env.containsFile d <;> rfl
  by_cases hgo : flags.EnableRemoteSnapshotSharing = true ∧ flags.RemoteSnapshotReadonly = false ∧
      remoteEnabled = true
  · obtain ⟨h1, h2, h3⟩ := hgo
    cases ho : env.osOpen path with
    | some err =>
      have hC : Cache flags env ctx remoteEnabled d inst path label =
          ((0, some err), (cacheLocally flags env ctx d path).2 ++ [.osOpen path]) := by
        simp [Cache, hl, h1, h2, h3, ho]
      rw [hC]
      refine ⟨List.prefix_append _ _, ?_, ?_, ?_, ?_⟩
      · rw [List.filter_append, hfl, ← hloc]
        simp [Call.isLocalCache]
      · simp [List.any_append, hup, Call.isUpload, h1, h2, h3]
      · intro hn
        exact absurd ⟨h1, h2, h3⟩ hn
      · simp only [Cache]
        cases hr : flags.EnableRemoteSnapshotSharing <;> simp [ho, Call.isLocalCache]
    | none =>
      have hC : ∃ rest, Cache flags env ctx remoteEnabled d inst path label =
          (env.uploadFromReader (GetSnapshotAccessContext flags ctx) d inst path,
            (cacheLocally flags env ctx d path).2 ++
              ([.osOpen path, .UploadFromReader (GetSnapshotAccessContext flags ctx) d inst path]
                ++ rest)) ∧ rest.filter Call.isLocalCache = [] := by
        by_cases hm : (env.uploadFromReader (GetSnapshotAccessContext flags ctx) d inst path).2 =
            none ∧ (env.uploadFromReader (GetSnapshotAccessContext flags ctx) d inst path).1 > 0
        · refine ⟨[.uploadSizeMetric label
            (env.uploadFromReader (GetSnapshotAccessContext flags ctx) d inst path).1], ?_, rfl⟩
          simp [Cache, hl, h1, h2, h3, ho, hm]
        · refine ⟨[], ?_, rfl⟩
          simp [Cache, hl, h1, h2, h3, ho, hm]
      obtain ⟨rest, hC, hrest⟩ := hC
      rw [hC]
      refine ⟨List.prefix_append _ _, ?_, ?_, ?_, ?_⟩
      · rw [List.filter_append, List.filter_append, hfl, hrest, ← hloc]
        simp [Call.isLocalCache]
      · simp [List.any_append, Call.isUpload, h1, h2, h3]
      · intro hn
        exact absurd ⟨h1, h2, h3⟩ hn
      · simp only [Cache]
        cases hr : flags.EnableRemoteSnapshotSharing <;> simp [ho, Call.isLocalCache]
        split <;> simp [Call.isLocalCache]
  · have hcond : (!flags.EnableRemoteSnapshotSharing || flags.RemoteSnapshotReadonly ||
        !remoteEnabled) = true := by
      cases h1 : flags.EnableRemoteSnapshotSharing <;> cases h2 : flags.RemoteSnapshotReadonly <;>
        cases h3 : remoteEnabled <;> simp_all
    have hC : Cache flags env ctx remoteEnabled d inst path label =
        ((0, (cacheLocally flags env ctx d path).1), (cacheLocally flags env ctx d path).2) := by
      simp only [Cache, hl, hcond]
      simp
    rw [hC]
    refine ⟨List.prefix_refl _, ?_, ?_, fun _ => rfl, ?_⟩
    · rw [hfl, hloc]
    · rw [hup]
      constructor
      · intro hx; cases hx
      · rintro ⟨h1, h2, h3, _⟩
        exact absurd ⟨h1, h2, h3⟩ hgo
    · simp only [Cache]
      cases hr : flags.EnableRemoteSnapshotSharing <;> cases ho : env.osOpen path <;>
        simp [Call.isLocalCache]
      split <;> simp [Call.isLocalCache]

theorem cache_saves_locally_then_uploads_witness :
    (cacheLocally sharingFlags happyEnv plainCtx "abc" "/tmp/mem").2 <+:
      (Cache sharingFlags happyEnv plainCtx true "abc" "inst" "/tmp/mem" "memory").2 ∧
    (Cache sharingFlags happyEnv plainCtx true "abc" "inst" "/tmp/mem" "memory").2.filter
        Call.isLocalCache =
      (if happyEnv.containsFile "abc" then [.ContainsFile "abc"]
       else [.ContainsFile "abc", .AddFile "abc" "/tmp/mem"]) ∧
    ((Cache sharingFlags happyEnv plainCtx true "abc" "inst" "/tmp/mem" "memory").2.any
        Call.isUpload = true ↔
      (sharingFlags.EnableRemoteSnapshotSharing = true ∧
        sharingFlags.RemoteSnapshotReadonly = false ∧ true = true ∧
        happyEnv.osOpen "/tmp/mem" = none)) ∧
    (¬ (sharingFlags.EnableRemoteSnapshotSharing = true ∧
        sharingFlags.RemoteSnapshotReadonly = false ∧ true = true) →
      Cache sharingFlags happyEnv plainCtx true "abc" "inst" "/tmp/mem" "memory" =
        ((0, (cacheLocally sharingFlags happyEnv plainCtx "abc" "/tmp/mem").1),
          (cacheLocally sharingFlags happyEnv plainCtx "abc" "/tmp/mem").2)) ∧
    (Cache { sharingFlags with EnableLocalSnapshotSharing := false } happyEnv plainCtx true "abc"
      "inst" "/tmp/mem" "memory").2.filter Call.isLocalCache = [] :=
  cache_saves_locally_then_uploads sharingFlags happyEnv plainCtx true "abc" "inst" "/tmp/mem"
    "memory" rfl

theorem cacheLocally_transfersUnder (flags : Flags) (env : Env) (ctx cx : Context)
    (d : Digest) (path : String) :
    (cacheLocally flags env cx d path).2.all (Call.transfersUnder ctx) = true := by
  unfold cacheLocally
  cases flags.EnableLocalSnapshotSharing <;> cases env.containsFile d <;> rfl

theorem getArtifact_transfersUnder (flags : Flags) (env : Env) (ctx : Context)
    (remoteEnabled : Bool) (d : Digest) (inst path : String) :
    (GetArtifact flags env ctx remoteEnabled d inst path).2.all
      (Call.transfersUnder (GetSnapshotAccessContext flags ctx)) = true := by
  have hl := cacheLocally_transfersUnder flags env (GetSnapshotAccessContext flags ctx)
    (GetSnapshotAccessContext flags ctx) d path
  cases hL : flags.EnableLocalSnapshotSharing <;>
    cases hR : flags.EnableRemoteSnapshotSharing <;>
    cases hF : env.fastLinkFile d path <;>
    cases hE : remoteEnabled <;>
    cases hC : env.osCreate path <;>
    cases hG : env.getBlob (GetSnapshotAccessContext flags ctx) d inst <;>
    simp [-List.all_eq_true, GetArtifact, hL, hR, hF, hE, hC, hG, hl, Call.transfersUnder,
      Call.transferContext, List.all_append]

theorem cache_transfersUnder (flags : Flags) (env : Env) (ctx : Context)
    (remoteEnabled : Bool) (d : Digest) (inst path label : String) :
    (Cache flags env ctx remoteEnabled d inst path label).2.all
      (Call.transfersUnder (GetSnapshotAccessContext flags ctx)) = true := by
  have hl := cacheLocally_transfersUnder flags env (GetSnapshotAccessContext flags ctx) ctx d path
  by_cases hm : (env.uploadFromReader (GetSnapshotAccessContext flags ctx) d inst path).2 = none ∧
      (env.uploadFromReader (GetSnapshotAccessContext flags ctx) d inst path).1 > 0
  · cases hL : flags.EnableLocalSnapshotSharing <;>
      cases hR : flags.EnableRemoteSnapshotSharing <;>
      cases hO : flags.RemoteSnapshotReadonly <;>
      cases hE : remoteEnabled <;>
      cases hC : env.osOpen path <;>
      simp [-List.all_eq_true, Cache, hL, hR, hO, hE, hC, hm, hl, Call.transfersUnder,
        Call.transferContext, List.all_append]
  · cases hL : flags.EnableLocalSnapshotSharing <;>
      cases hR : flags.EnableRemoteSnapshotSharing <;>
      cases hO : flags.RemoteSnapshotReadonly <;>
      cases hE : remoteEnabled <;>
      cases hC : env.osOpen path <;>
      simp [-List.all_eq_true, Cache, hL, hR, hO, hE, hC, hm, hl, Call.transfersUnder,
        Call.transferContext, List.all_append]

/-- C19: when `store_snapshots_in_local_cluster_only` is set,
`GetSnapshotAccessContext` returns a context with skip_remote set, and when it
is unset it returns its argument unchanged; every byte-stream fetch that
`GetArtifact` issues and every upload that `Cache` issues is made under the
context `GetSnapshotAccessContext` returns, hence under a skip_remote context
when the flag is set. -/
theorem transfers_use_snapshot_access_context (flags : Flags) (env : Env) (ctx : Context)
    (remoteEnabled : Bool) (d : Digest) (inst path label : String) :
    (flags.storeSnapshotsInLocalClusterOnly = true →
      (GetSnapshotAccessContext flags ctx).skipRemote = true) ∧
    (flags.storeSnapshotsInLocalClusterOnly = false →
      GetSnapshotAccessContext flags ctx = ctx) ∧
    (∀ c ∈ (GetArtifact flags env ctx remoteEnabled d inst path).2, ∀ ctx1,
      c.transferContext = some ctx1 →
        ctx1 = GetSnapshotAccessContext flags ctx ∧
        (flags.storeSnapshotsInLocalClusterOnly = true → ctx1.skipRemote = true)) ∧
    (∀ c ∈ (Cache flags env ctx remoteEnabled d inst path label).2, ∀ ctx1,
      c.transferContext = some ctx1 →
        ctx1 = GetSnapshotAccessContext flags ctx ∧
        (flags.storeSnapshotsInLocalClusterOnly = true → ctx1.skipRemote = true)) := by
  have hset : flags.storeSnapshotsInLocalClusterOnly = true →
      (GetSnapshotAccessContext flags ctx).skipRemote = true := by
    intro hf
    simp [GetSnapshotAccessContext, hf, SetSkipRemote]
  have key : ∀ c : Call, c.transfersUnder (GetSnapshotAccessContext flags ctx) = true →
      ∀ ctx1, c.transferContext = some ctx1 →
        ctx1 = GetSnapshotAccessContext flags ctx ∧
          (flags.storeSnapshotsInLocalClusterOnly = true → ctx1.skipRemote = true) := by
    intro c hc ctx1 hctx
    unfold Call.transfersUnder at hc
    rw [hctx] at hc
    have he : ctx1 = GetSnapshotAccessContext flags ctx := by simpa using hc
    subst he
    exact ⟨rfl, hset⟩
  refine ⟨hset, ?_, ?_, ?_⟩
  · intro hf
    simp [GetSnapshotAccessContext, hf]
  · intro c hc
    exact key c (List.all_eq_true.mp
      (getArtifact_transfersUnder flags env ctx remoteEnabled d inst path) c hc)
  · intro c hc
    exact key c (List.all_eq_true.mp
      (cache_transfersUnder flags env ctx remoteEnabled d inst path label) c hc)

/-- C19 at a concrete input: with the flag set, the fetch of `GetArtifact` and the
upload of `Cache` are made under the context with skip_remote set. -/
theorem transfers_use_snapshot_access_context_witness :
    (GetArtifact localClusterFlags happyEnv plainCtx true "abc" "inst" "/tmp/out").2 =
      [.FastLinkFile "abc" "/tmp/out", .osCreate "/tmp/out",
       .GetBlob { plainCtx with skipRemote := true } "abc" "inst",
       .ContainsFile "abc", .AddFile "abc" "/tmp/out"] ∧
    (Cache localClusterFlags happyEnv plainCtx true "abc" "inst" "/tmp/mem" "memory").2 =
      [.ContainsFile "abc", .AddFile "abc" "/tmp/mem", .osOpen "/tmp/mem",
       .UploadFromReader { plainCtx with skipRemote := true } "abc" "inst" "/tmp/mem",
       .uploadSizeMetric "memory" 42] ∧
    (∀ c ∈ (GetArtifact localClusterFlags happyEnv plainCtx true "abc" "inst" "/tmp/out").2,
      ∀ ctx1, c.transferContext = some ctx1 →
        ctx1 = GetSnapshotAccessContext localClusterFlags plainCtx ∧
        (localClusterFlags.storeSnapshotsInLocalClusterOnly = true → ctx1.skipRemote = true)) :=
  ⟨rfl, rfl,
    (transfers_use_snapshot_access_context localClusterFlags happyEnv plainCtx true "abc" "inst"
      "/tmp/out" "memory").2.2.1⟩

theorem cacheLocally_no_remote (flags : Flags) (env : Env) (ctx : Context) (d : Digest)
    (path : String) :
    (cacheLocally flags env ctx d path).2.all
      (fun c => !c.isFetch && !c.isCreate && !c.isUpload) = true := by
  unfold cacheLocally
  split
  · simp [Call.isFetch, Call.isCreate, Call.isUpload]
  · split <;> simp [Call.isFetch, Call.isCreate, Call.isUpload]

/-- C28, evaluated where it fails, and where it holds: with local sharing off
and remote sharing on, a call with `remoteEnabled` false still creates the
output file and fetches from the remote cache (`GetArtifact`), and still uploads
to the remote cache (`Cache`); the test of `remoteEnabled` sits inside the branch
for local sharing.  For every other setting of the flags (local sharing on, or
remote sharing off) and every answer of the services, `remoteEnabled` false means
no fetch, no created file and no upload. -/
theorem remote_disabled_ignored_without_local_sharing :
    GetArtifact remoteOnlyFlags happyEnv plainCtx false "abc" "inst" "/tmp/out" =
      ((ChunkSourceRemoteCache, none),
        [.osCreate "/tmp/out", .GetBlob plainCtx "abc" "inst"]) ∧
    Cache remoteOnlyFlags happyEnv plainCtx false "abc" "inst" "/tmp/mem" "memory" =
      ((42, none),
        [.osOpen "/tmp/mem", .UploadFromReader plainCtx "abc" "inst" "/tmp/mem",
         .uploadSizeMetric "memory" 42]) ∧
    (∀ (flags : Flags) (env : Env) (ctx : Context) (d : Digest) (inst path label : String),
      flags.EnableLocalSnapshotSharing = true ∨ flags.EnableRemoteSnapshotSharing = false →
      (GetArtifact flags env ctx false d inst path).2.all
          (fun c => !c.isFetch && !c.isCreate) = true ∧
      (Cache flags env ctx false d inst path label).2.all (fun c => !c.isUpload) = true) := by
  refine ⟨rfl, rfl, ?_⟩
  intro flags env ctx d inst path label hfl
  have hl := cacheLocally_no_remote flags env ctx d path
  cases hloc : flags.EnableLocalSnapshotSharing with
  | false =>
    have hrem : flags.EnableRemoteSnapshotSharing = false := by
      rcases hfl with h | h
      · rw [hloc] at h
        cases h
      · exact h
    simp [GetArtifact, Cache, hloc, hrem]
  | true =>
    constructor
    · cases hf : env.fastLinkFile d path <;>
        simp [GetArtifact, hloc, hf, Call.isFetch, Call.isCreate]
    · simp only [Cache, hloc]
      simp only [Bool.not_true, Bool.false_and, Bool.not_false, Bool.or_true, if_true,
        Bool.false_eq_true, if_false]
      rw [List.all_eq_true] at hl ⊢
      intro c hc
      have := hl c hc
      simp only [Bool.and_eq_true, Bool.not_eq_true'] at this
      simp [this.2]

end Snaputil


namespace Api

open Status

/-- C20: for an authenticated caller, a request with an empty required selector
fails with InvalidArgument and makes no lookup at all (no database query, no
cache read, no event or log lookup): `GetInvocation` when both `invocation_id`
and `commit_sha` are empty, and `GetTarget`, `GetAction` and `GetLog` when
`invocation_id` is empty.  For a caller that fails authentication each of the
four returns the authentication error, whatever the selector holds, again
without any lookup: authentication is checked first. -/
theorem empty_selector_is_invalid_argument (env : Env) (ctx : Context)
    (ireq : GetInvocationRequest) (tsel : TargetSelector) (asel : ActionSelector)
    (lreq : GetLogRequest) :
    (∀ user, env.AuthenticatedUser ctx = .ok user →
      ((ireq.selector.invocationId = "" ∧ ireq.selector.commitSha = "") →
        GetInvocation env ctx ireq =
          (.error { code := .InvalidArgument,
                    msg := "InvocationSelector must contain a valid invocation_id or commit_sha" },
            [])) ∧
      (tsel.invocationId = "" →
        GetTarget env ctx tsel =
          (.error { code := .InvalidArgument,
                    msg := "TargetSelector must contain a valid invocation_id" }, [])) ∧
      (asel.invocationId = "" →
        GetAction env ctx asel =
          .ok (.error { code := .InvalidArgument,
                        msg := "ActionSelector must contain a valid invocation_id" }, [])) ∧
      (lreq.invocationId = "" →
        GetLog env ctx lreq =
          (.error { code := .InvalidArgument,
                    msg := "LogSelector must contain a valid invocation_id" }, []))) ∧
    (∀ err, env.AuthenticatedUser ctx = .error err →
      GetInvocation env ctx ireq = (.error err, []) ∧
      GetTarget env ctx tsel = (.error err, []) ∧
      GetAction env ctx asel = .ok (.error err, []) ∧
      GetLog env ctx lreq = (.error err, [])) := by
  constructor
  · intro user hu
    refine ⟨?_, ?_, ?_, ?_⟩
    · intro hsel
      simp [GetInvocation, hu, hsel, InvalidArgumentError]
    · intro hsel
      simp [GetTarget, hu, hsel, InvalidArgumentError]
    · intro hsel
      simp [GetAction, hu, hsel, InvalidArgumentError]
    · intro hsel
      simp [GetLog, hu, hsel, InvalidArgumentError]
  · intro err he
    refine ⟨?_, ?_, ?_, ?_⟩
    · simp [GetInvocation, he]
    · simp [GetTarget, he]
    · simp [GetAction, he]
    · simp [GetLog, he]

theorem empty_selector_is_invalid_argument_witness :
    GetInvocation emptyEnv Snaputil.plainCtx
        { selector := { invocationId := "", commitSha := "" }, includeMetadata := true,
          includeArtifacts := true } =
      (.error { code := .InvalidArgument,
                msg := "InvocationSelector must contain a valid invocation_id or commit_sha" },
        []) ∧
    GetAction anonymousEnv Snaputil.plainCtx
        { invocationId := "", targetId := "t", configurationId := "", actionId := "",
          targetLabel := "" } =
      .ok (.error { code := .Unauthenticated, msg := "no user" }, []) :=
  ⟨((empty_selector_is_invalid_argument emptyEnv Snaputil.plainCtx
        { selector := { invocationId := "", commitSha := "" }, includeMetadata := true,
          includeArtifacts := true }
        { invocationId := "", targetId := "", tag := "", label := "" }
        { invocationId := "", targetId := "t", configurationId := "", actionId := "",
          targetLabel := "" }
        { invocationId := "", pageToken := "" }).1 { groupID := "g1" } rfl).1 ⟨rfl, rfl⟩,
   ((empty_selector_is_invalid_argument anonymousEnv Snaputil.plainCtx
        { selector := { invocationId := "", commitSha := "" }, includeMetadata := true,
          includeArtifacts := true }
        { invocationId := "", targetId := "", tag := "", label := "" }
        { invocationId := "", targetId := "t", configurationId := "", actionId := "",
          targetLabel := "" }
        { invocationId := "", pageToken := "" }).2
      { code := .Unauthenticated, msg := "no user" } rfl).2.2.1⟩

theorem authorizeWrites_eq (env : FileEnv) (ctx : Context) :
    authorizeWrites env ctx =
      match env.IsGranted ctx .CACHE_WRITE with
      | .ok false =>
        some { code := .PermissionDenied,
               msg := "You do not have permission to perform this action." }
      | .ok true => none
      | .error err => some err := by
  unfold authorizeWrites
  cases hg : env.IsGranted ctx .CACHE_WRITE with
  | error err => rfl
  | ok b => cases b <;> rfl

/-- C21 as stated fails in its last sentence: when the capability check itself
fails with a PermissionDenied error (here the authenticator's "User logged
out"), `authorizeWrites` returns PermissionDenied although the check did not
succeed; the error is passed on as it is. -/
theorem authorizeWrites_passes_on_check_error :
    loggedOutEnv.IsGranted Snaputil.plainCtx .CACHE_WRITE =
      .error { code := .PermissionDenied, msg := "User logged out" } ∧
    authorizeWrites loggedOutEnv Snaputil.plainCtx =
      some { code := .PermissionDenied, msg := "User logged out" } ∧
    (authorizeWrites loggedOutEnv Snaputil.plainCtx).map (fun e => e.code) =
      some .PermissionDenied :=
  ⟨rfl, rfl, rfl⟩

/-- C21, amended: `DeleteFile` never deletes without write permission.  With
`enable_cache_delete_api` off it returns PermissionDenied for every request and
calls nothing; with the flag on, once the user prefix is attached and the caller
is authenticated, a caller that is not granted CACHE_WRITE gets PermissionDenied
and the cache's `Delete` is not called; and whenever `Delete` is called at all,
the flag is on, the caller is authenticated and the capability check has
answered "granted".  `authorizeWrites` returns its PermissionDenied error when
the check succeeds and reports not granted, nil when it reports granted, and the
error of the check unchanged when the check fails; so it returns
PermissionDenied exactly when the check reports not granted or itself fails
with PermissionDenied. -/
theorem deleteFile_never_deletes_without_permission (env : FileEnv) (ctx : Context)
    (req : DeleteFileRequest) :
    (env.enableCacheDeleteAPI = false →
      DeleteFile env ctx req =
        (.error { code := .PermissionDenied, msg := "DeleteFile API not enabled" }, [])) ∧
    (∀ ctx1 user, env.enableCacheDeleteAPI = true →
      env.AttachUserPrefixToContext ctx = .ok ctx1 → env.AuthenticatedUser ctx1 = .ok user →
      env.IsGranted ctx1 .CACHE_WRITE = .ok false →
      DeleteFile env ctx req =
        (.error { code := .PermissionDenied,
                  msg := "You do not have permission to perform this action." }, [])) ∧
    (∀ c ∈ (DeleteFile env ctx req).2,
      env.enableCacheDeleteAPI = true ∧
      ∃ ctx1, env.AttachUserPrefixToContext ctx = .ok ctx1 ∧
        (∃ user, env.AuthenticatedUser ctx1 = .ok user) ∧
        env.IsGranted ctx1 .CACHE_WRITE = .ok true ∧ ∃ r, c = .Delete ctx1 r) ∧
    (authorizeWrites env ctx =
      match env.IsGranted ctx .CACHE_WRITE with
      | .ok false =>
        some { code := .PermissionDenied,
               msg := "You do not have permission to perform this action." }
      | .ok true => none
      | .error err => some err) ∧
    ((authorizeWrites env ctx).map (fun e => e.code) = some .PermissionDenied ↔
      (env.IsGranted ctx .CACHE_WRITE = .ok false ∨
        ∃ err, env.IsGranted ctx .CACHE_WRITE = .error err ∧ err.code = .PermissionDenied)) := by
  refine ⟨?_, ?_, ?_, authorizeWrites_eq env ctx, ?_⟩
  · intro hoff
    simp [DeleteFile, hoff, PermissionDeniedError]
  · intro ctx1 user hon hat hau hg
    simp [DeleteFile, hon, hat, hau, authorizeWrites_eq, hg]
  · intro c hc
    cases hon : env.enableCacheDeleteAPI with
    | false => simp [DeleteFile, hon] at hc
    | true =>
      refine ⟨rfl, ?_⟩
      cases hat : env.AttachUserPrefixToContext ctx with
      | error err => simp [DeleteFile, hon, hat] at hc
      | ok ctx1 =>
        cases hau : env.AuthenticatedUser ctx1 with
        | error err => simp [DeleteFile, hon, hat, hau] at hc
        | ok user =>
          cases hg : env.IsGranted ctx1 .CACHE_WRITE with
          | error err => simp [DeleteFile, hon, hat, hau, authorizeWrites_eq, hg] at hc
          | ok b =>
            cases b with
            | false => simp [DeleteFile, hon, hat, hau, authorizeWrites_eq, hg] at hc
            | true =>
              refine ⟨ctx1, rfl, ⟨user, hau⟩, hg, ?_⟩
              simp only [DeleteFile, hon, hat, hau, authorizeWrites_eq, hg] at hc
              cases hu : env.urlRequestURI req.uri with
              | error err => simp [hu] at hc
              | ok uri =>
                cases hrn : resourceNameOf env (TrimPrefix uri "/") with
                | error err => simp [hu, hrn] at hc
                | ok r =>
                  refine ⟨r, ?_⟩
                  cases hd : env.cacheDelete ctx1 r with
                  | none => simpa [hu, hrn, hd] using hc
                  | some err =>
                    cases hnf : IsNotFoundError err <;> simpa [hu, hrn, hd, hnf] using hc
  · rw [authorizeWrites_eq]
    cases hg : env.IsGranted ctx .CACHE_WRITE with
    | error err => simp
    | ok b => cases b <;> simp

theorem idFieldMatches_eq_true_iff (action : Action) (sel : String) (F : ActionId → String) :
    idFieldMatches action sel F = .ok true ↔
      (sel = "" ∨ ∃ id, action.id = some id ∧ sel = F id) := by
  unfold idFieldMatches
  by_cases hs : sel = ""
  · simp [hs]
  · cases hid : action.id with
    | none => simp [hs]
    | some id => simp [hs]

theorem idFieldMatches_of_id (action : Action) (sel : String) (F : ActionId → String)
    (id : ActionId) (hid : action.id = some id) :
    idFieldMatches action sel F = .ok (decide (sel = "" ∨ sel = F id)) := by
  unfold idFieldMatches
  by_cases hs : sel = ""
  · simp [hs]
  · by_cases he : sel = F id <;> simp [hs, hid, he]

theorem label_test_eq (action : Action) (selector : ActionSelector) :
    (selector.targetLabel == "" || selector.targetLabel == action.targetLabel) =
      decide (selector.targetLabel = "" ∨ selector.targetLabel = action.targetLabel) := by
  by_cases h1 : selector.targetLabel = "" <;>
    by_cases h2 : selector.targetLabel = action.targetLabel <;> simp [h1, h2]

theorem actionMatches_of_id (action : Action) (selector : ActionSelector) (id : ActionId)
    (hid : action.id = some id) :
    actionMatchesActionSelector action selector = .ok (decide
      ((selector.targetId = "" ∨ selector.targetId = id.targetId) ∧
       (selector.targetLabel = "" ∨ selector.targetLabel = action.targetLabel) ∧
       (selector.configurationId = "" ∨ selector.configurationId = id.configurationId) ∧
       (selector.actionId = "" ∨ selector.actionId = id.actionId))) := by
  unfold actionMatchesActionSelector
  simp only [idFieldMatches_of_id action _ _ id hid, label_test_eq]
  by_cases h1 : selector.targetId = "" ∨ selector.targetId = id.targetId <;>
    by_cases h2 : selector.targetLabel = "" ∨ selector.targetLabel = action.targetLabel <;>
    by_cases h3 : selector.configurationId = "" ∨ selector.configurationId = id.configurationId <;>
    by_cases h4 : selector.actionId = "" ∨ selector.actionId = id.actionId <;>
    simp [h1, h2, h3, h4]

/-- C25: `actionMatchesActionSelector(action, selector)` returns true if and
only if each of the selector's four fields (`target_id`, `target_label`,
`configuration_id`, `action_id`) is empty or equal to the corresponding field of
the action (for the three fields read from the action's id, equal to the field
of an id the action has).  For an action that has an id the function returns,
and returns whether this holds.  In particular a selector whose four fields are
empty matches every action, and a selector with a non-empty field that differs
from the action's never yields true, and yields false for an action that has
an id. -/
theorem actionMatchesActionSelector_iff (action : Action) (selector : ActionSelector) :
    (actionMatchesActionSelector action selector = .ok true ↔
      (selector.targetId = "" ∨
        ∃ id, action.id = some id ∧ selector.targetId = id.targetId) ∧
      (selector.targetLabel = "" ∨ selector.targetLabel = action.targetLabel) ∧
      (selector.configurationId = "" ∨
        ∃ id, action.id = some id ∧ selector.configurationId = id.configurationId) ∧
      (selector.actionId = "" ∨
        ∃ id, action.id = some id ∧ selector.actionId = id.actionId)) ∧
    (∀ id, action.id = some id →
      actionMatchesActionSelector action selector = .ok (decide
        ((selector.targetId = "" ∨ selector.targetId = id.targetId) ∧
         (selector.targetLabel = "" ∨ selector.targetLabel = action.targetLabel) ∧
         (selector.configurationId = "" ∨ selector.configurationId = id.configurationId) ∧
         (selector.actionId = "" ∨ selector.actionId = id.actionId)))) ∧
    (selector.targetId = "" → selector.targetLabel = "" → selector.configurationId = "" →
      selector.actionId = "" → actionMatchesActionSelector action selector = .ok true) ∧
    (((selector.targetId ≠ "" ∧
          ∀ id, action.id = some id → selector.targetId ≠ id.targetId) ∨
        (selector.targetLabel ≠ "" ∧ selector.targetLabel ≠ action.targetLabel) ∨
        (selector.configurationId ≠ "" ∧
          ∀ id, action.id = some id → selector.configurationId ≠ id.configurationId) ∨
        (selector.actionId ≠ "" ∧
          ∀ id, action.id = some id → selector.actionId ≠ id.actionId)) →
      actionMatchesActionSelector action selector ≠ .ok true ∧
      (∀ id, action.id = some id →
        actionMatchesActionSelector action selector = .ok false)) := by
  have hiff : actionMatchesActionSelector action selector = .ok true ↔
      (selector.targetId = "" ∨
        ∃ id, action.id = some id ∧ selector.targetId = id.targetId) ∧
      (selector.targetLabel = "" ∨ selector.targetLabel = action.targetLabel) ∧
      (selector.configurationId = "" ∨
        ∃ id, action.id = some id ∧ selector.configurationId = id.configurationId) ∧
      (selector.actionId = "" ∨
        ∃ id, action.id = some id ∧ selector.actionId = id.actionId) := by
    cases hid : action.id with
    | some id =>
      rw [actionMatches_of_id action selector id hid]
      simp
    | none =>
      unfold actionMatchesActionSelector idFieldMatches
      simp only [label_test_eq]
      by_cases h1 : selector.targetId = "" <;>
        by_cases h2 : selector.targetLabel = "" ∨ selector.targetLabel = action.targetLabel <;>
        by_cases h3 : selector.configurationId = "" <;>
        by_cases h4 : selector.actionId = "" <;>
        simp [hid, h1, h2, h3, h4]
  refine ⟨hiff, ?_, ?_, ?_⟩
  · intro id hid
    exact actionMatches_of_id action selector id hid
  · intro h1 h2 h3 h4
    rw [hiff]
    exact ⟨Or.inl h1, Or.inl h2, Or.inl h3, Or.inl h4⟩
  · intro hdiff
    have hne : actionMatchesActionSelector action selector ≠ .ok true := by
      rw [Ne, hiff]
      rintro ⟨a1, a2, a3, a4⟩
      rcases hdiff with ⟨hn, hd⟩ | ⟨hn, hd⟩ | ⟨hn, hd⟩ | ⟨hn, hd⟩
      · rcases a1 with a1 | ⟨id, hid, he⟩
        · exact hn a1
        · exact hd id hid he
      · rcases a2 with a2 | a2
        · exact hn a2
        · exact hd a2
      · rcases a3 with a3 | ⟨id, hid, he⟩
        · exact hn a3
        · exact hd id hid he
      · rcases a4 with a4 | ⟨id, hid, he⟩
        · exact hn a4
        · exact hd id hid he
    refine ⟨hne, ?_⟩
    intro id hid
    rw [actionMatches_of_id action selector id hid] at hne ⊢
    cases hdec : decide
      ((selector.targetId = "" ∨ selector.targetId = id.targetId) ∧
       (selector.targetLabel = "" ∨ selector.targetLabel = action.targetLabel) ∧
       (selector.configurationId = "" ∨ selector.configurationId = id.configurationId) ∧
       (selector.actionId = "" ∨ selector.actionId = id.actionId)) with
    | false => rfl
    | true => rw [hdec] at hne; exact absurd rfl hne

theorem deleteFile_of_permitted (env : FileEnv) (ctx ctx1 : Context) (user : UserInfo)
    (req : DeleteFileRequest) (hon : env.enableCacheDeleteAPI = true)
    (hat : env.AttachUserPrefixToContext ctx = .ok ctx1)
    (hau : env.AuthenticatedUser ctx1 = .ok user)
    (hg : env.IsGranted ctx1 .CACHE_WRITE = .ok true) :
    DeleteFile env ctx req =
      match env.urlRequestURI req.uri with
      | .error _ => (.error (InvalidArgumentError "Invalid URL"), [])
      | .ok requestURI =>
        match resourceNameOf env (TrimPrefix requestURI "/") with
        | .error err => (.error err, [])
        | .ok resourceName =>
          match env.cacheDelete ctx1 resourceName with
          | none => (.ok {}, [.Delete ctx1 resourceName])
          | some err =>
            if !IsNotFoundError err then (.error err, [.Delete ctx1 resourceName])
            else (.ok {}, [.Delete ctx1 resourceName]) := by
  simp [DeleteFile, hon, hat, hau, authorizeWrites_eq, hg]

/-- C29: for a permitted caller (delete API on, user prefix attached, caller
authenticated and granted CACHE_WRITE), `DeleteFile` builds an action-cache
resource name when the trimmed URI parses as one and otherwise a CAS resource
name when it parses as a download resource name, calls the cache's `Delete` on it
once, and returns the empty success response when `Delete` succeeds or reports
NotFound and any other `Delete` error unchanged; when the URI parses as neither,
or not as a URL at all, it returns InvalidArgument and `Delete` is not called. -/
theorem deleteFile_succeeds_for_missing_entry (env : FileEnv) (ctx ctx1 : Context)
    (user : UserInfo) (req : DeleteFileRequest) (hon : env.enableCacheDeleteAPI = true)
    (hat : env.AttachUserPrefixToContext ctx = .ok ctx1)
    (hau : env.AuthenticatedUser ctx1 = .ok user)
    (hg : env.IsGranted ctx1 .CACHE_WRITE = .ok true) :
    (∀ err, env.urlRequestURI req.uri = .error err →
      DeleteFile env ctx req =
        (.error { code := .InvalidArgument, msg := "Invalid URL" }, [])) ∧
    (∀ requestURI, env.urlRequestURI req.uri = .ok requestURI →
      (∀ e1 e2, env.ParseActionCacheResourceName (TrimPrefix requestURI "/") = .error e1 →
        env.ParseDownloadResourceName (TrimPrefix requestURI "/") = .error e2 →
        DeleteFile env ctx req =
          (.error { code := .InvalidArgument,
                    msg := "Invalid URL. Only actioncache and CAS URIs supported." }, [])) ∧
      (∀ r : ResourceName,
        ((∃ n, env.ParseActionCacheResourceName (TrimPrefix requestURI "/") = .ok n ∧
            r = { digest := n.digest, instanceName := n.instanceName, cacheType := .AC,
                  digestFunction := n.digestFunction }) ∨
          (∃ e n, env.ParseActionCacheResourceName (TrimPrefix requestURI "/") = .error e ∧
            env.ParseDownloadResourceName (TrimPrefix requestURI "/") = .ok n ∧
            r = { digest := n.digest, instanceName := n.instanceName, cacheType := .CAS,
                  digestFunction := n.digestFunction })) →
        (env.cacheDelete ctx1 r = none →
          DeleteFile env ctx req = (.ok {}, [.Delete ctx1 r])) ∧
        (∀ err, env.cacheDelete ctx1 r = some err → err.code = .NotFound →
          DeleteFile env ctx req = (.ok {}, [.Delete ctx1 r])) ∧
        (∀ err, env.cacheDelete ctx1 r = some err → err.code ≠ .NotFound →
          DeleteFile env ctx req = (.error err, [.Delete ctx1 r])))) := by
  have hd := deleteFile_of_permitted env ctx ctx1 user req hon hat hau hg
  refine ⟨?_, ?_⟩
  · intro err hu
    rw [hd, hu]
    rfl
  · intro requestURI hu
    rw [hu] at hd
    refine ⟨?_, ?_⟩
    · intro e1 e2 h1 h2
      rw [hd]
      simp [resourceNameOf, h1, h2, InvalidArgumentError]
    · intro r hr
      have hrn : resourceNameOf env (TrimPrefix requestURI "/") = .ok r := by
        rcases hr with ⟨n, h1, rfl⟩ | ⟨e, n, h1, h2, rfl⟩
        · simp [resourceNameOf, h1]
        · simp [resourceNameOf, h1, h2]
      simp only [hrn] at hd
      refine ⟨?_, ?_, ?_⟩
      · intro hdel
        rw [hd, hdel]
      · intro err hdel hnf
        rw [hd, hdel]
        simp [IsNotFoundError, hnf]
      · intro err hdel hnf
        rw [hd, hdel]
        simp [IsNotFoundError, hnf]

theorem deleteFile_succeeds_for_missing_entry_witness :
    DeleteFile permitEnv Snaputil.plainCtx { uri := "/ac/abc" } =
      (.ok {}, [.Delete Snaputil.plainCtx
        { digest := "ac/abc", instanceName := "", cacheType := .AC,
          digestFunction := "SHA256" }]) :=
  ((((deleteFile_succeeds_for_missing_entry permitEnv Snaputil.plainCtx Snaputil.plainCtx
        { groupID := "g1" } { uri := "/ac/abc" } rfl rfl rfl rfl).2 "/ac/abc" rfl).2
      { digest := "ac/abc", instanceName := "", cacheType := .AC, digestFunction := "SHA256" }
      (Or.inl ⟨{ digest := "ac/abc", instanceName := "", digestFunction := "SHA256" },
        rfl, rfl⟩)).2.1
    { code := .NotFound, msg := "no such entry" } rfl rfl)

theorem redisCachedActions_all_equal (env : Env) (ctx : Context) (userInfo : UserInfo)
    (iid targetLabel : String) (actions : List Action)
    (hr : (redisCachedActions env ctx userInfo iid targetLabel).1 = .ok actions) :
    ∀ x ∈ actions, ∀ y ∈ actions, x = y := by
  unfold redisCachedActions at hr
  cases hc : env.enableCache with
  | false =>
    simp [hc] at hr
    subst hr
    intro x hx
    cases hx
  | true =>
    cases hm : env.metricsCollector with
    | none =>
      simp [hc, hm] at hr
      subst hr
      intro x hx
      cases hx
    | some mc =>
      simp only [hc, hm] at hr
      split at hr
      · simp at hr
        subst hr
        intro x hx
        cases hx
      · generalize mc.ListRange (env.ActionLabelKey userInfo.groupID iid targetLabel) 0
            (100000 - 1) = res at hr
        cases res with
        | error err => simp at hr
        | ok blobs =>
          dsimp only at hr
          generalize unmarshalLoop env blobs { id := none, targetLabel := "", files := [] } 0 =
            looped at hr
          cases looped with
          | error err => simp at hr
          | ok r =>
            obtain ⟨aFinal, n⟩ := r
            simp only [Except.ok.injEq] at hr
            subst hr
            intro x hx y hy
            rw [List.eq_of_mem_replicate hx, List.eq_of_mem_replicate hy]

theorem unmarshalLoop_count (env : Env) (blobs : List String) :
    ∀ (a aFinal : Action) (n m : Nat), unmarshalLoop env blobs a n = .ok (aFinal, m) →
      m = n + blobs.length := by
  induction blobs with
  | nil =>
    intro a aFinal n m hu
    simp only [unmarshalLoop, Except.ok.injEq, Prod.mk.injEq] at hu
    simp [hu.2]
  | cons blob rest ih =>
    intro a aFinal n m hu
    simp only [unmarshalLoop] at hu
    cases hd : env.unmarshalActionInto blob a with
    | error err => simp [hd] at hu
    | ok a1 =>
      simp only [hd] at hu
      have := ih a1 aFinal (n + 1) m hu
      simp only [List.length_cons]
      omega

theorem redisCachedActions_length (env : Env) (ctx : Context) (userInfo : UserInfo)
    (iid targetLabel : String) (mc : MetricsCollector) (blobs : List String)
    (actions : List Action) (hc : env.enableCache = true)
    (hm : env.metricsCollector = some mc) (hne : targetLabel ≠ "")
    (hl : mc.ListRange (env.ActionLabelKey userInfo.groupID iid targetLabel) 0 99999 =
      .ok blobs)
    (hr : (redisCachedActions env ctx userInfo iid targetLabel).1 = .ok actions) :
    actions.length = blobs.length := by
  unfold redisCachedActions at hr
  simp only [hc, hm, if_neg hne] at hr
  have h9 : ((100000 : Int) - 1) = 99999 := by norm_num
  rw [h9, hl] at hr
  dsimp only at hr
  cases hu : unmarshalLoop env blobs { id := none, targetLabel := "", files := [] } 0 with
  | error err =>
    rw [hu] at hr
    simp at hr
  | ok r =>
    obtain ⟨aFinal, n⟩ := r
    rw [hu] at hr
    simp only [Except.ok.injEq] at hr
    subst hr
    have := unmarshalLoop_count env blobs _ aFinal 0 n hu
    simp [this]

/-- C30, evaluated where it fails: the cache holds the serialized actions "a1"
and "a2" for the target, which decode to two different actions; the slice
`redisCachedActions` returns has length two but holds the action of "a2" twice,
not the action of "a1" followed by that of "a2", because the loop unmarshals into
one message and appends the same pointer each time.  `GetAction` for the target
then answers with the action "a2" twice, and a selector for the action "a1"
finds nothing in the cache.  For every environment the returned slice has one
element per serialized action, and all its elements are equal. -/
theorem cached_actions_repeat_last_decoded :
    redisCachedActions cachedEnv Snaputil.plainCtx { groupID := "g1" } "i1" "t" =
      (.ok [cachedAction "a2", cachedAction "a2"],
        [.metricsListRange "g1/i1/t" 0 99999]) ∧
    cachedEnv.unmarshalActionInto "a1" { id := none, targetLabel := "", files := [] } =
      .ok (cachedAction "a1") ∧
    cachedAction "a1" ≠ cachedAction "a2" ∧
    GetAction cachedEnv Snaputil.plainCtx
        { invocationId := "i1", targetId := "t", configurationId := "", actionId := "",
          targetLabel := "" } =
      .ok (.ok [cachedAction "a2", cachedAction "a2"],
        [.metricsListRange "g1/i1/t" 0 99999]) ∧
    GetAction cachedEnv Snaputil.plainCtx
        { invocationId := "i1", targetId := "t", configurationId := "", actionId := "a1",
          targetLabel := "" } =
      .ok (.ok [], [.metricsListRange "g1/i1/t" 0 99999, .invocationEvents "i1"]) ∧
    (∀ (env : Env) (ctx : Context) (userInfo : UserInfo) (iid targetLabel : String)
        (actions : List Action),
      (redisCachedActions env ctx userInfo iid targetLabel).1 = .ok actions →
      (∀ x ∈ actions, ∀ y ∈ actions, x = y) ∧
      (∀ mc blobs, env.enableCache = true → env.metricsCollector = some mc →
        targetLabel ≠ "" →
        mc.ListRange (env.ActionLabelKey userInfo.groupID iid targetLabel) 0 99999 =
          .ok blobs →
        actions.length = blobs.length)) :=
  ⟨rfl, rfl, by decide, rfl, rfl, fun env ctx userInfo iid targetLabel actions hr =>
    ⟨redisCachedActions_all_equal env ctx userInfo iid targetLabel actions hr,
      fun mc blobs hc hm hne hl =>
        redisCachedActions_length env ctx userInfo iid targetLabel mc blobs actions hc hm hne
          hl hr⟩⟩

end Api

namespace CasProxy

theorem getBlob_putBlob_self (s : Blobs) (d : Digest) (data : String) :
    getBlob (putBlob s d data) d = some data := by
  simp [putBlob, getBlob]

theorem getBlob_putBlob_ne (s : Blobs) (d k : Digest) (data : String) (hne : k ≠ d) :
    getBlob (putBlob s k data) d = getBlob s d := by
  simp [putBlob, getBlob, hne]

theorem mem_missing_iff (s : Blobs) (digests : List Digest) (d : Digest) :
    d ∈ digests.filter (fun d => (getBlob s d).isNone) ↔ d ∈ digests ∧ getBlob s d = none := by
  simp [List.mem_filter]

/-- C22: for every list of requested digests, `FindMissingBlobs` on the proxy
returns, under `skip_remote`, exactly the requested digests absent from the local
store (in request order, with no RPC to the remote), and without `skip_remote`
(the remote being reachable) exactly the requested digests absent from the
remote, whatever the local store holds.  With the remote holding A and B and the
local store holding B and C, the request [A, C] gives [C] without `skip_remote`
and [A] with it. -/
theorem findMissing_is_local_under_skip_remote (p : Proxy) (ctx : Context)
    (digests : List Digest) :
    (ctx.skipRemote = true →
      ∃ missing, (FindMissingBlobs p ctx digests).1 = .ok missing ∧
        missing = digests.filter (fun d => (getBlob p.localBlobs d).isNone) ∧
        (∀ d, d ∈ missing ↔ d ∈ digests ∧ getBlob p.localBlobs d = none) ∧
        (FindMissingBlobs p ctx digests).2.remoteRPCs = p.remoteRPCs) ∧
    (ctx.skipRemote = false → p.remoteAvailable = true →
      ∃ missing, (FindMissingBlobs p ctx digests).1 = .ok missing ∧
        missing = digests.filter (fun d => (getBlob p.remoteBlobs d).isNone) ∧
        (∀ d, d ∈ missing ↔ d ∈ digests ∧ getBlob p.remoteBlobs d = none) ∧
        (∀ localBlobs : Blobs,
          (FindMissingBlobs { p with localBlobs := localBlobs } ctx digests).1 = .ok missing)) ∧
    (FindMissingBlobs splitProxy testContext [digestA, digestC]).1 = .ok [digestC] ∧
    (FindMissingBlobs splitProxy skipRemoteCtx [digestA, digestC]).1 = .ok [digestA] := by
  refine ⟨?_, ?_, rfl, rfl⟩
  · intro hs
    refine ⟨_, ?_, rfl, fun d => mem_missing_iff _ _ d, ?_⟩
    · simp [FindMissingBlobs, HitTrackerClient.SkipRemote, hs]
    · simp [FindMissingBlobs, HitTrackerClient.SkipRemote, hs]
  · intro hs ha
    refine ⟨_, ?_, rfl, fun d => mem_missing_iff _ _ d, ?_⟩
    · simp [FindMissingBlobs, HitTrackerClient.SkipRemote, hs, ha]
    · intro localBlobs
      simp [FindMissingBlobs, HitTrackerClient.SkipRemote, hs, ha]

theorem update_responses (p : Proxy) (ctx : Context) (entries : List (Digest × String)) :
    (BatchUpdateBlobs p ctx entries).1 =
      entries.map (fun e => { digest := e.1, status := p.localPut e.1 e.2 }) := by
  unfold BatchUpdateBlobs
  cases HitTrackerClient.SkipRemote ctx <;> cases p.remoteAvailable <;> rfl

theorem update_localBlobs (p : Proxy) (ctx : Context) (entries : List (Digest × String)) :
    (BatchUpdateBlobs p ctx entries).2.localBlobs =
      writeAllLocal p.localPut p.localBlobs entries := by
  unfold BatchUpdateBlobs
  cases HitTrackerClient.SkipRemote ctx <;> cases p.remoteAvailable <;> rfl

theorem read_of_local_hit (q : Proxy) (ctx : Context) (d : Digest) (data : String)
    (hd : getBlob q.localBlobs d = some data) :
    (BatchReadBlobs q ctx [d]).1 = .ok [{ digest := d, status := .OK, data := data }] ∧
    (BatchReadBlobs q ctx [d]).2.remoteRPCs = q.remoteRPCs := by
  simp [BatchReadBlobs, hd, readOne]

theorem readOne_digest (localBlobs : Blobs) (remote : Option Blobs) (d : Digest) :
    (readOne localBlobs remote d).digest = d := by
  unfold readOne
  cases getBlob localBlobs d with
  | some data => rfl
  | none =>
    cases remote with
    | none => rfl
    | some rb => dsimp only; cases getBlob rb d <;> rfl

theorem readOne_notFound (localBlobs remoteBlobs : Blobs) (remote : Option Blobs) (d : Digest)
    (hr : remote = none ∨ remote = some remoteBlobs)
    (hl : getBlob localBlobs d = none) (hrem : getBlob remoteBlobs d = none) :
    (readOne localBlobs remote d).status = .error .NotFound := by
  unfold readOne
  rcases hr with rfl | rfl
  · simp [hl]
  · simp [hl, hrem]

theorem read_responses (q : Proxy) (ctx : Context) (digests : List Digest)
    (rs : List ReadResponse) (hrs : (BatchReadBlobs q ctx digests).1 = .ok rs) :
    ∃ remote, (remote = none ∨ remote = some q.remoteBlobs) ∧
      rs = digests.map (readOne q.localBlobs remote) := by
  unfold BatchReadBlobs at hrs
  dsimp only at hrs
  split at hrs
  · simp only [Except.ok.injEq] at hrs
    exact ⟨none, Or.inl rfl, hrs.symm⟩
  · split at hrs
    · simp only [Except.ok.injEq] at hrs
      exact ⟨some q.remoteBlobs, Or.inr rfl, hrs.symm⟩
    · cases hrs

theorem read_returns (q : Proxy) (ctx : Context) (digests : List Digest)
    (h : ctx.skipRemote = true ∨ q.remoteAvailable = true) :
    ∃ rs, (BatchReadBlobs q ctx digests).1 = .ok rs := by
  unfold BatchReadBlobs
  dsimp only
  split
  · exact ⟨_, rfl⟩
  · rename_i hc
    rcases h with h | h
    · simp [HitTrackerClient.SkipRemote, h] at hc
    · rw [if_pos h]
      exact ⟨_, rfl⟩

/-- C23: round trip on the proxy.  When `BatchUpdateBlobs` of the single entry
(D, B) answers OK, a following `BatchReadBlobs([D])` on the same proxy returns
the one response (D, OK, B) and adds no RPC to the log of remote RPCs, with or
without `skip_remote` on either call and whatever has become of the remote in
between (reachable or not, holding any blobs).  And whenever `BatchReadBlobs`
returns responses, there is exactly one per requested digest, in request order
(so a digest requested twice is answered twice), with status NotFound for every
digest present neither locally nor remotely; it does return responses whenever
`skip_remote` is set or the remote is reachable. -/
theorem update_then_read_returns_blob (p : Proxy) (ctx ctx2 : Context) (D : Digest)
    (B : String)
    (hok : (BatchUpdateBlobs p ctx [(D, B)]).1 = [{ digest := D, status := .OK }]) :
    (∀ (available : Bool) (remoteBlobs : Blobs),
      (BatchReadBlobs
          { (BatchUpdateBlobs p ctx [(D, B)]).2 with
            remoteAvailable := available, remoteBlobs := remoteBlobs } ctx2 [D]).1 =
        .ok [{ digest := D, status := .OK, data := B }] ∧
      (BatchReadBlobs
          { (BatchUpdateBlobs p ctx [(D, B)]).2 with
            remoteAvailable := available, remoteBlobs := remoteBlobs } ctx2 [D]).2.remoteRPCs =
        (BatchUpdateBlobs p ctx [(D, B)]).2.remoteRPCs) ∧
    (BatchReadBlobs (BatchUpdateBlobs p ctx [(D, B)]).2 ctx2 [D]).1 =
      .ok [{ digest := D, status := .OK, data := B }] ∧
    (BatchReadBlobs (BatchUpdateBlobs p ctx [(D, B)]).2 ctx2 [D]).2.remoteRPCs =
      (BatchUpdateBlobs p ctx [(D, B)]).2.remoteRPCs ∧
    (∀ (q : Proxy) (c : Context) (digests : List Digest) (rs : List ReadResponse),
      (BatchReadBlobs q c digests).1 = .ok rs →
      rs.length = digests.length ∧ rs.map (fun r => r.digest) = digests ∧
      ∀ r ∈ rs, getBlob q.localBlobs r.digest = none → getBlob q.remoteBlobs r.digest = none →
        r.status = .error .NotFound) ∧
    (∀ (q : Proxy) (c : Context) (digests : List Digest),
      c.skipRemote = true ∨ q.remoteAvailable = true →
      ∃ rs, (BatchReadBlobs q c digests).1 = .ok rs) := by
  have hput : p.localPut D B = .OK := by
    rw [update_responses] at hok
    simpa using hok
  have hlocal : getBlob (BatchUpdateBlobs p ctx [(D, B)]).2.localBlobs D = some B := by
    rw [update_localBlobs]
    simp [writeAllLocal, writeLocal, hput, getBlob_putBlob_self]
  refine ⟨?_, (read_of_local_hit _ ctx2 D B hlocal).1, (read_of_local_hit _ ctx2 D B hlocal).2,
    ?_, read_returns⟩
  · intro available remoteBlobs
    exact read_of_local_hit
      { (BatchUpdateBlobs p ctx [(D, B)]).2 with
        remoteAvailable := available, remoteBlobs := remoteBlobs } ctx2 D B hlocal
  · intro q c digests rs hrs
    obtain ⟨remote, hrem, rfl⟩ := read_responses q c digests rs hrs
    refine ⟨by simp, ?_, ?_⟩
    · rw [List.map_map]
      have : ((fun r : ReadResponse => r.digest) ∘ readOne q.localBlobs remote) = id := by
        funext d
        exact readOne_digest q.localBlobs remote d
      rw [this, List.map_id]
    · intro r hr hl hre
      obtain ⟨d, _, rfl⟩ := List.mem_map.mp hr
      rw [readOne_digest] at hl hre
      exact readOne_notFound q.localBlobs q.remoteBlobs remote d hrem hl hre

theorem update_then_read_returns_blob_witness :
    (BatchReadBlobs (BatchUpdateBlobs emptyProxy testContext [(digestA, "foo")]).2
        testContext [digestA]).1 =
      .ok [{ digest := digestA, status := .OK, data := "foo" }] ∧
    (BatchReadBlobs (BatchUpdateBlobs emptyProxy testContext [(digestA, "foo")]).2
        testContext [digestA]).2.remoteRPCs =
      [.BatchUpdateBlobs [(digestA, "foo")]] :=
  ⟨(update_then_read_returns_blob emptyProxy testContext testContext digestA "foo" rfl).2.1,
   (update_then_read_returns_blob emptyProxy testContext testContext digestA "foo" rfl).2.2.1⟩

end CasProxy

